import Mathlib

/-!
# camera_aravis: the frame-buffer distribution pipeline

A shallow embedding of the buffer callback, the payload router, the
single-slot substream mailboxes, the substream worker threads and the image
stamping helpers of `camera_aravis_nodelet.cpp`, with the properties of the
pipeline proved over it.

Conventions of the embedding.

* One `Stream` (the element `streams_[stream_id]`) is in focus; the functions
  of the nodelet that receive `stream_id` are embedded as functions on the
  `World` that holds this stream.
* Undefined behaviour of the C++ code (indexing `substreams` out of range,
  dereferencing a null `p_buffer_pool`) is the result `none`.
* Calls into the hardware layer and the log are recorded in `World.trace`.
* `sensor_msgs::ImagePtr` is a shared pointer: every copy that is made and
  every copy that is destroyed or overwritten is counted in
  `World.use_count`.
-/

namespace CameraAravis

/-! ## Data model -/

/-- Result of `arv_buffer_get_status`: `ARV_BUFFER_STATUS_SUCCESS` or any other value. -/
inductive ArvBufferStatus
  | success
  | failure (code : Int)
  deriving DecidableEq, Repr

/-- Result of `arv_buffer_get_payload_type`; the router distinguishes three values,
every other one falls into the `default` branch. -/
inductive ArvBufferPayloadType
  | image
  | multipart
  | chunk_data
  | other (code : Int)
  deriving DecidableEq, Repr

/-- One part of a buffer: the region `arv_buffer_get_part_region` reports (four `gint`)
and the bytes `arv_buffer_get_part_data` points to. -/
structure ArvBufferPart where
  x : Int := 0
  y : Int := 0
  width : Int := 0
  height : Int := 0
  data : List Nat := []
  deriving DecidableEq, Repr

/-- An `ArvBuffer` as the nodelet sees it through the accessors it calls.
`handle` is the identity of the buffer (the pointer value), `frame_id` is a `guint64`. -/
structure ArvBuffer where
  handle : Nat := 0
  status : ArvBufferStatus := ArvBufferStatus.success
  payload_type : ArvBufferPayloadType := ArvBufferPayloadType.image
  parts : List ArvBufferPart := []
  frame_id : Nat := 0
  timestamp : Nat := 0
  system_timestamp : Nat := 0
  deriving DecidableEq, Repr

/-- The value of `arv_buffer_get_n_parts`. -/
def ArvBuffer.n_parts (b : ArvBuffer) : Nat := b.parts.length

/-- A `sensor_msgs::ImagePtr` that wraps the memory of a hardware buffer: the reference is
identified by the handle of the buffer it wraps. -/
structure ImagePtr where
  wraps : Nat
  deriving DecidableEq, Repr

/-- The struct `Sensor` of the header. -/
structure Sensor where
  width : Int := 0
  height : Int := 0
  pixel_format : String := ""
  n_bits_pixel : Nat := 0
  deriving DecidableEq, Repr

/-- The struct `ROI` of the header (eight `int32_t`). -/
structure ROI where
  x : Int := 0
  y : Int := 0
  width : Int := 0
  width_min : Int := 0
  width_max : Int := 0
  height : Int := 0
  height_min : Int := 0
  height_max : Int := 0
  deriving DecidableEq, Repr

/-- Where the thread `buffer_thread` of a substream is in `substreamThreadMain`: at the head
of the loop or blocked in `wait_for`, past the hand-over with its two local variables
`p_buffer` and `p_buffer_image`, or after the loop. A thread that finds the stop flag set
at the head of the loop leaves the loop as it does at a timeout, without touching anything
else, so this exit is the timeout step that reads the flag. -/
inductive ThreadState
  | waiting
  | processing (p_buffer : Option ArvBuffer) (p_buffer_image : Option ImagePtr)
  | finished
  deriving DecidableEq, Repr

/-- Modelled from the spec: `CameraBufferPool` (camera_buffer_pool.h is not among the
sources). The pool owns a number of preallocated buffer slots; `allocateBuffers n` adds
`n` of them, and the pool never gives a slot up. -/
structure CameraBufferPool where
  n_buffers : Nat := 0
  deriving DecidableEq, Repr

/-- The struct `Substream` of the header. `p_buffer_pool` is the pool of the substream for
the images of the multipart path; `num_subscribers` is what
`cam_pub.getNumSubscribers()` returns; the mutex and the condition variable are
represented by the atomicity of the steps that run under the lock. -/
structure Substream where
  sensor : Sensor := {}
  roi : ROI := {}
  name : String := ""
  frame_id : String := ""
  p_buffer_pool : Option CameraBufferPool := none
  num_subscribers : Nat := 0
  buffer_thread : ThreadState := ThreadState.waiting
  buffer_thread_stop : Bool := false
  p_buffer_image : Option ImagePtr := none
  p_buffer : Option ArvBuffer := none
  deriving DecidableEq, Repr

/-- The struct `Stream` of the header; the hardware side of `p_stream` is the trace. -/
structure Stream where
  p_buffer_pool : Option CameraBufferPool := none
  substreams : List Substream := []
  deriving DecidableEq, Repr

/-- The fields of a `sensor_msgs::Image` that `fillImage` and the processing functions
write. `header_stamp` is the time in nanoseconds that is handed to `fromNSec`;
`header_seq`, `height`, `width` and `step` are `uint32` fields. -/
structure Image where
  header_stamp : Nat := 0
  header_seq : Nat := 0
  header_frame_id : String := ""
  height : Nat := 0
  width : Nat := 0
  encoding : String := ""
  step : Nat := 0
  data : List Nat := []
  deriving DecidableEq, Repr

/-- Calls into the hardware layer, into the pool and into the log, in program order.
`call_delegateBuffer` marks the entry into `delegateBuffer(p_buffer, stream_id)`; `unlock`
is the `lock.unlock()` of a substream thread, `publish` the call `cam_pub.publish` with the
image it is given. -/
inductive Event
  | pop (handle : Nat)
  | push (handle : Nat)
  | allocate (n : Nat)
  | wrap (handle : Nat)
  | notify (substream : Nat)
  | warn_frame_error (handle : Nat)
  | warn_dropped (substream : Nat)
  | error_unsupported (payload : ArvBufferPayloadType)
  | error_chunk_not_implemented
  | call_delegateBuffer (handle : Nat)
  | warn_roi_mismatch (stream_id : Nat) (substream_id : Nat) (x : Int) (y : Int)
      (width : Int) (height : Int)
  | unlock (substream : Nat)
  | call_convert_format (substream : Nat)
  | fill_camera_info (substream : Nat)
  | publish (substream : Nat) (image : Image)
  | publish_extended_camera_info (substream : Nat)
  | reset_ptp_clock
  deriving DecidableEq, Repr

/-- The producer inside `delegateBuffer(p_buffer, stream_id, substreams)`: the local
`msg_ptr` and the loop counter `i`. -/
structure Routing where
  p_buffer : ArvBuffer
  msg_ptr : ImagePtr
  i : Nat
  substreams : Nat
  deriving DecidableEq, Repr

/-- The state the pipeline of one stream works on. `use_count h` is the number of live
`ImagePtr` copies of the image that wraps the buffer with handle `h`; `producer` is set
while the callback thread is inside the routing loop (used by the interleaved runs only). -/
structure World where
  stream : Stream := {}
  use_count : Nat → Nat := fun _ => 0
  trace : List Event := []
  producer : Option Routing := none

/-! ## Primitive operations -/

/-- Append one event to the trace. -/
def emit (e : Event) (w : World) : World :=
  { w with trace := w.trace ++ [e] }

/-- Overwrite substream `i` of the stream. -/
def setSubstream (i : Nat) (s : Substream) (w : World) : World :=
  { w with stream := { w.stream with substreams := w.stream.substreams.set i s } }

/-- Modelled from the spec: `wrap(rawBuffer) -> PooledImage`, the pool's `operator[]`
(camera_buffer_pool.h is not among the sources). It creates one shared-ownership handle
around the memory of the buffer, without copying. -/
def wrapBuffer (p_buffer : ArvBuffer) (w : World) : ImagePtr × World :=
  (⟨p_buffer.handle⟩,
   emit (Event.wrap p_buffer.handle)
     { w with use_count := fun h => if h = p_buffer.handle then 1 else w.use_count h })

/-- Copy construction of an `ImagePtr`: one more owner. -/
def copyImage (img : Option ImagePtr) (w : World) : World :=
  match img with
  | none => w
  | some p => { w with use_count := fun h => if h = p.wraps then w.use_count h + 1 else w.use_count h }

/-- Modelled from the spec: `release(PooledImage)` (the deleter the pool installs;
camera_buffer_pool.h is not among the sources). Destroying or overwriting an `ImagePtr`
decrements the reference count and, at zero, returns the buffer to the hardware layer
with `arv_stream_push_buffer`. -/
def releaseImage (img : Option ImagePtr) (w : World) : World :=
  match img with
  | none => w
  | some p =>
    let w1 : World :=
      { w with use_count := fun h => if h = p.wraps then w.use_count h - 1 else w.use_count h }
    if w.use_count p.wraps = 1 then emit (Event.push p.wraps) w1 else w1

/-- Modelled from the spec: `allocateBuffers(n)` of the pool (camera_buffer_pool.h is not
among the sources); `none` when `p_buffer_pool` is null. -/
def allocateBuffers (n : Nat) (w : World) : Option World :=
  match w.stream.p_buffer_pool with
  | none => none
  | some pool =>
    some (emit (Event.allocate n)
      { w with stream := { w.stream with p_buffer_pool := some { pool with n_buffers := pool.n_buffers + n } } })

/-! ## The router -/

/-- Body of the loop of `delegateBuffer(p_buffer, stream_id, substreams)` for one `i`:
the deposit into the mailbox of substream `i` and the wake-up of its thread. -/
def deposit (p_buffer : ArvBuffer) (msg_ptr : ImagePtr) (i : Nat) (w : World) : Option World :=
  match w.stream.substreams[i]? with
  | none => none
  | some substream =>
    let w1 := if substream.p_buffer.isSome then emit (Event.warn_dropped i) w else w
    let w2 := copyImage (some msg_ptr) w1
    let w3 := releaseImage substream.p_buffer_image w2
    let w4 := setSubstream i { substream with p_buffer := some p_buffer, p_buffer_image := some msg_ptr } w3
    some (emit (Event.notify i) w4)

/-- The loop `for (guint i = 0; i < substreams; ++i)`, from counter `i` with `remaining`
iterations to go. -/
def depositLoop (p_buffer : ArvBuffer) (msg_ptr : ImagePtr) : Nat → Nat → World → Option World
  | _, 0, w => some w
  | i, remaining + 1, w =>
    match deposit p_buffer msg_ptr i w with
    | none => none
    | some w1 => depositLoop p_buffer msg_ptr (i + 1) remaining w1

/-- The overload `delegateBuffer(p_buffer, stream_id, substreams)`: wrap once through the
pool of the stream, deposit into the mailboxes `0 .. substreams - 1`, and drop the local
`msg_ptr` at the end of the function. -/
def delegateBufferN (p_buffer : ArvBuffer) (substreams : Nat) (w : World) : Option World :=
  match w.stream.p_buffer_pool with
  | none => none
  | some _ =>
    let r := wrapBuffer p_buffer w
    match depositLoop p_buffer r.1 0 substreams r.2 with
    | none => none
    | some w1 => some (releaseImage (some r.1) w1)

/-- The function `delegateChunkDataBuffer`. -/
def delegateChunkDataBuffer (p_buffer : ArvBuffer) (w : World) : Option World :=
  some (emit (Event.push p_buffer.handle) (emit Event.error_chunk_not_implemented w))

/-- The overload `delegateBuffer(p_buffer, stream_id)`: dispatch on the payload type. -/
def delegateBuffer (p_buffer : ArvBuffer) (w : World) : Option World :=
  let w0 := emit (Event.call_delegateBuffer p_buffer.handle) w
  match p_buffer.payload_type with
  | ArvBufferPayloadType.image => delegateBufferN p_buffer 1 w0
  | ArvBufferPayloadType.multipart => delegateBufferN p_buffer p_buffer.n_parts w0
  | ArvBufferPayloadType.chunk_data => delegateChunkDataBuffer p_buffer w0
  | ArvBufferPayloadType.other code =>
    some (emit (Event.error_unsupported (ArvBufferPayloadType.other code))
      (emit (Event.push p_buffer.handle) w0))

/-- The test `std::any_of(substreams, getNumSubscribers() > 0)`. -/
def hasSubscribers (st : Stream) : Bool :=
  st.substreams.any (fun sub => decide (0 < sub.num_subscribers))

/-- The function `newBufferReady`. `popped` is what `arv_stream_try_pop_buffer` returns and
`n_available_buffers` what `arv_stream_get_n_buffers` reports. -/
def newBufferReady (popped : Option ArvBuffer) (n_available_buffers : Int) (w : World) :
    Option World :=
  let w0 := match popped with
    | none => w
    | some b => emit (Event.pop b.handle) w
  let afterAllocate := if n_available_buffers = 0 then allocateBuffers 1 w0 else some w0
  match afterAllocate with
  | none => none
  | some w1 =>
    match popped with
    | none => some w1
    | some p_buffer =>
      let buffer_success := decide (p_buffer.status = ArvBufferStatus.success)
      let buffer_pool := w1.stream.p_buffer_pool.isSome
      let has_subscribers := hasSubscribers w1.stream
      match w1.stream.substreams[0]? with
      | none => none
      | some _ =>
        let w2 := if !buffer_success then emit (Event.warn_frame_error p_buffer.handle) w1 else w1
        if !buffer_success || !buffer_pool || !has_subscribers then
          some (emit (Event.push p_buffer.handle) w2)
        else
          delegateBuffer p_buffer w2

/-! ## The substream thread -/

/-- The branch `substreamThreadMain` takes after the hand-over. -/
inductive Processing
  | processImageBuffer (p_buffer : ArvBuffer)
  | processPartBuffer (p_buffer : ArvBuffer)
  | ignoreUnsupported
  deriving DecidableEq, Repr

/-- The dispatch of `substreamThreadMain` on the payload type of the pointer it took; for a
null pointer `arv_buffer_get_payload_type` answers `ARV_BUFFER_PAYLOAD_TYPE_UNKNOWN`. -/
def processingOf (p_buffer : Option ArvBuffer) : Processing :=
  match p_buffer with
  | none => Processing.ignoreUnsupported
  | some b =>
    match b.payload_type with
    | ArvBufferPayloadType.image => Processing.processImageBuffer b
    | ArvBufferPayloadType.multipart => Processing.processPartBuffer b
    | _ => Processing.ignoreUnsupported

/-- The hand-over of `substreamThreadMain` when `wait_for` returns without a timeout: under
the lock, copy `p_buffer_image` into the local, reset the slot's reference, copy `p_buffer`
and null the slot's pointer. -/
def threadWake (i : Nat) (w : World) : Option World :=
  match w.stream.substreams[i]? with
  | none => none
  | some substream =>
    let w1 := copyImage substream.p_buffer_image w
    let w2 := releaseImage substream.p_buffer_image w1
    some (setSubstream i
      { substream with
        p_buffer := none
        p_buffer_image := none
        buffer_thread := ThreadState.processing substream.p_buffer substream.p_buffer_image } w2)

/-- The branch of `substreamThreadMain` for `std::cv_status::timeout`: leave the loop when
the stop flag is set or `ros::ok()` is false, wait again otherwise. -/
def threadTimeout (i : Nat) (ros_ok : Bool) (w : World) : Option World :=
  match w.stream.substreams[i]? with
  | none => none
  | some substream =>
    some (setSubstream i
      { substream with
        buffer_thread :=
          if substream.buffer_thread_stop || !ros_ok then ThreadState.finished
          else ThreadState.waiting } w)

/-- The end of one iteration of the loop of `substreamThreadMain`: the local
`p_buffer_image` goes out of scope and the loop condition `!buffer_thread_stop` is tested. -/
def threadDone (i : Nat) (w : World) : Option World :=
  match w.stream.substreams[i]? with
  | none => none
  | some substream =>
    match substream.buffer_thread with
    | ThreadState.processing _ p_buffer_image =>
      some (setSubstream i
        { substream with
          buffer_thread :=
            if substream.buffer_thread_stop then ThreadState.finished else ThreadState.waiting }
        (releaseImage p_buffer_image w))
    | _ => none

/-! ## ROI reconciliation and image stamping -/

/-- Conversion of an `int32_t` to `uint32_t`. -/
def toUInt32 (v : Int) : Nat := (v % 4294967296).toNat

/-- The function `adaptROI`: the new value of `roi` and what is logged. `none` when the
buffer reports no region for part `substream_id`, so that the locals `x, y, width, height`
are read uninitialised. -/
def adaptROI (p_buffer : ArvBuffer) (roi : ROI) (stream_id : Nat) (substream_id : Nat) :
    Option (ROI × List Event) :=
  match p_buffer.parts[substream_id]? with
  | none => none
  | some part =>
    if part.x = roi.x ∧ part.y = roi.y ∧ part.width = roi.width ∧ part.height = roi.height then
      some (roi, [])
    else
      some ({ roi with x := part.x, y := part.y, width := part.width, height := part.height },
        [Event.warn_roi_mismatch stream_id substream_id part.x part.y part.width part.height])

/-- The function `fillImage`, with the member `use_ptp_stamp_` as first argument. The
product `width * n_bits_pixel` is computed in `size_t` (64 bits, `n_bits_pixel` being a
`size_t`), the quotient is stored in the `uint32` field `step`; the `guint64` frame id is
stored in the `uint32` field `seq`. -/
def fillImage (use_ptp_stamp : Bool) (msg : Image) (p_buffer : ArvBuffer) (frame_id : String)
    (sensor : Sensor) (roi : ROI) : Image :=
  let t := if use_ptp_stamp then p_buffer.timestamp else p_buffer.system_timestamp
  let width := toUInt32 roi.width
  { msg with
    header_stamp := t
    header_seq := p_buffer.frame_id % 4294967296
    header_frame_id := frame_id
    width := width
    height := toUInt32 roi.height
    encoding := sensor.pixel_format
    step := ((width * sensor.n_bits_pixel) % 18446744073709551616 / 8) % 4294967296 }

/-! ## Processing of a taken buffer -/

/-- The members of the nodelet that the processing functions read. -/
structure NodeletFlags where
  use_ptp_stamp : Bool := false
  pub_ext_camera_info : Bool := false
  deriving DecidableEq, Repr

/-- Modelled from the spec: a registered conversion function (`ConversionFunction` of
conversion_utils.h, which is not among the sources), invoked as `convert_format(in, out)`
with the source image and the destination image of the pool: the content it leaves in the
destination image `out`. -/
abbrev ConversionFunction := Image → Image → Image

/-- What a processing function leaves behind: the world (ROI of the substream, log), the
content of the image that wraps the buffer, the image `msg_ptr` points to when the
conversion is decided (the source), and the image given to `cam_pub.publish`. -/
structure Processed where
  world : World
  wrapped : Image
  source : Image
  published : Image

/-- The common end of both processing functions: `fillCameraInfo`, `cam_pub.publish`,
`publishExtendedCameraInfo` (which returns at once unless `pub_ext_camera_info_`) and, with
`use_ptp_stamp_`, `resetPtpClock`. None of them writes the image. -/
def publishImage (flags : NodeletFlags) (substream_id : Nat) (img : Image) (w : World) : World :=
  let w1 := emit (Event.fill_camera_info substream_id) w
  let w2 := emit (Event.publish substream_id img) w1
  let w3 := if flags.pub_ext_camera_info then
    emit (Event.publish_extended_camera_info substream_id) w2 else w2
  if flags.use_ptp_stamp then emit Event.reset_ptp_clock w3 else w3

/-- The assignment `msg_ptr = cvt_msg_ptr` in `processImageBuffer`, where `msg_ptr` is the
local `p_buffer_image` of the thread of substream `thread`: the thread gives up its
reference to the wrapped image. -/
def dropThreadImage (thread : Nat) (w : World) : World :=
  match w.stream.substreams[thread]? with
  | none => w
  | some substream =>
    match substream.buffer_thread with
    | ThreadState.processing p_buffer p_buffer_image =>
      setSubstream thread { substream with buffer_thread := ThreadState.processing p_buffer none }
        (releaseImage p_buffer_image w)
    | _ => w

/-- The function `processImageBuffer`. `convert_format j` is the member `convert_format` of
substream `j`, `destination` the content of the image that
`src.p_buffer_pool->getRecyclableImg()` hands out (camera_buffer_pool.h is not among the
sources: the pool may hand out any image), and `msg` the content of the image `msg_ptr`
points to, `msg_ptr` being the local `p_buffer_image` of the thread of substream `thread`.
`none` when `substreams[0]` does not exist, when the buffer has no region for part 0, or
when a conversion is registered and the pool of the stream is null. -/
def processImageBuffer (flags : NodeletFlags) (convert_format : Nat → Option ConversionFunction)
    (destination : Image) (p_buffer : ArvBuffer) (stream_id : Nat) (thread : Nat) (msg : Image)
    (w : World) : Option Processed :=
  match w.stream.substreams[0]? with
  | none => none
  | some substream =>
    match adaptROI p_buffer substream.roi stream_id 0 with
    | none => none
    | some (roi, log) =>
      let w1 := setSubstream 0 { substream with roi := roi } { w with trace := w.trace ++ log }
      let source := fillImage flags.use_ptp_stamp msg p_buffer substream.frame_id substream.sensor roi
      match convert_format 0 with
      | none => some ⟨publishImage flags 0 source w1, source, source, source⟩
      | some convert =>
        if w.stream.p_buffer_pool.isSome then
          let cvt := convert source destination
          let w2 := dropThreadImage thread (emit (Event.call_convert_format 0) w1)
          some ⟨publishImage flags 0 cvt w2, source, source, cvt⟩
        else none

/-- The function `processPartBuffer`. `recycled` and `destination` are the contents of the
images the two calls `substream.p_buffer_pool->getRecyclableImg()` hand out
(camera_buffer_pool.h is not among the sources: the pool may hand out any image), and
`wrapped` is the content of the image that wraps the buffer, to which the function holds no
reference. `none` when the substream does not exist, when its pool is null, or when the
buffer has no part `substream_id`. -/
def processPartBuffer (flags : NodeletFlags) (convert_format : Nat → Option ConversionFunction)
    (recycled : Image) (destination : Image) (wrapped : Image) (p_buffer : ArvBuffer)
    (stream_id : Nat) (substream_id : Nat) (w : World) : Option Processed :=
  match w.stream.substreams[substream_id]? with
  | none => none
  | some substream =>
    if substream.p_buffer_pool.isSome then
      match adaptROI p_buffer substream.roi stream_id substream_id with
      | none => none
      | some (roi, log) =>
        let w1 := setSubstream substream_id { substream with roi := roi }
          { w with trace := w.trace ++ log }
        let stamped :=
          fillImage flags.use_ptp_stamp recycled p_buffer substream.frame_id substream.sensor roi
        match p_buffer.parts[substream_id]? with
        | none => none
        | some part =>
          let source := { stamped with data := part.data }
          match convert_format substream_id with
          | none => some ⟨publishImage flags substream_id source w1, wrapped, source, source⟩
          | some convert =>
            let cvt := convert source destination
            let w2 := emit (Event.call_convert_format substream_id) w1
            some ⟨publishImage flags substream_id cvt w2, wrapped, source, cvt⟩
    else none

/-- What `arv_buffer_get_payload_type` answers for the pointer a thread took; for a null
pointer the library answers `ARV_BUFFER_PAYLOAD_TYPE_UNKNOWN`, which is `-1`. -/
def takenPayloadType (p_buffer : Option ArvBuffer) : ArvBufferPayloadType :=
  match p_buffer with
  | none => ArvBufferPayloadType.other (-1)
  | some b => b.payload_type

/-- The part of the loop body of `substreamThreadMain` after `lock.unlock()`: the dispatch on
the payload type of the local `p_buffer` of the thread of substream `i`. -/
def processTaken (flags : NodeletFlags) (convert_format : Nat → Option ConversionFunction)
    (recycled : Image) (destination : Image) (wrapped : Image) (stream_id : Nat) (i : Nat)
    (w : World) : Option World :=
  match w.stream.substreams[i]? with
  | none => none
  | some substream =>
    match substream.buffer_thread with
    | ThreadState.processing p_buffer _ =>
      match processingOf p_buffer with
      | Processing.processImageBuffer b =>
        (processImageBuffer flags convert_format destination b stream_id i wrapped w).map
          (fun r => r.world)
      | Processing.processPartBuffer b =>
        (processPartBuffer flags convert_format recycled destination wrapped b stream_id i w).map
          (fun r => r.world)
      | Processing.ignoreUnsupported =>
        some (emit (Event.error_unsupported (takenPayloadType p_buffer)) w)
    | _ => none

/-- The loop body of `substreamThreadMain` from the return of `wait_for` without a timeout,
which holds the lock, to the end of the processing: hand-over, `lock.unlock()`, dispatch. -/
def threadSignalled (flags : NodeletFlags) (convert_format : Nat → Option ConversionFunction)
    (recycled : Image) (destination : Image) (wrapped : Image) (stream_id : Nat) (i : Nat)
    (w : World) : Option World :=
  match threadWake i w with
  | none => none
  | some w1 =>
    processTaken flags convert_format recycled destination wrapped stream_id i
      (emit (Event.unlock i) w1)

/-- The events of the processing of a buffer: ROI warning, conversion, camera info,
publication, PTP reset and the error for a payload the thread does not process. -/
def isProcessingEvent : Event → Bool
  | Event.warn_roi_mismatch _ _ _ _ _ _ => true
  | Event.call_convert_format _ => true
  | Event.fill_camera_info _ => true
  | Event.publish _ _ => true
  | Event.publish_extended_camera_info _ => true
  | Event.reset_ptp_clock => true
  | Event.error_unsupported _ => true
  | _ => false

/-! ## Interleaved runs of the producer and the substream threads -/

/-- Number of `arv_stream_try_pop_buffer` calls that returned the buffer `h`. -/
def pops (w : World) (h : Nat) : Nat := w.trace.count (Event.pop h)

/-- Number of `arv_stream_push_buffer` calls for the buffer `h`. -/
def pushes (w : World) (h : Nat) : Nat := w.trace.count (Event.push h)

/-- The first half of `delegateBuffer`: as `delegateBuffer`, but the routing loop of an
image or multipart buffer is left to the producer steps that follow. -/
def delegateBufferBegin (p_buffer : ArvBuffer) (w : World) : Option World :=
  let w0 := emit (Event.call_delegateBuffer p_buffer.handle) w
  let begin (substreams : Nat) : Option World :=
    match w0.stream.p_buffer_pool with
    | none => none
    | some _ =>
      let r := wrapBuffer p_buffer w0
      some { r.2 with producer := some ⟨p_buffer, r.1, 0, substreams⟩ }
  match p_buffer.payload_type with
  | ArvBufferPayloadType.image => begin 1
  | ArvBufferPayloadType.multipart => begin p_buffer.n_parts
  | ArvBufferPayloadType.chunk_data => delegateChunkDataBuffer p_buffer w0
  | ArvBufferPayloadType.other code =>
    some (emit (Event.error_unsupported (ArvBufferPayloadType.other code))
      (emit (Event.push p_buffer.handle) w0))

/-- The function `newBufferReady` up to the routing loop. -/
def newBufferReadyBegin (popped : Option ArvBuffer) (n_available_buffers : Int) (w : World) :
    Option World :=
  let w0 := match popped with
    | none => w
    | some b => emit (Event.pop b.handle) w
  let afterAllocate := if n_available_buffers = 0 then allocateBuffers 1 w0 else some w0
  match afterAllocate with
  | none => none
  | some w1 =>
    match popped with
    | none => some w1
    | some p_buffer =>
      let buffer_success := decide (p_buffer.status = ArvBufferStatus.success)
      let buffer_pool := w1.stream.p_buffer_pool.isSome
      let has_subscribers := hasSubscribers w1.stream
      match w1.stream.substreams[0]? with
      | none => none
      | some _ =>
        let w2 := if !buffer_success then emit (Event.warn_frame_error p_buffer.handle) w1 else w1
        if !buffer_success || !buffer_pool || !has_subscribers then
          some (emit (Event.push p_buffer.handle) w2)
        else
          delegateBufferBegin p_buffer w2

/-- Set the position of the producer. -/
def withProducer (p : Option Routing) (w : World) : World :=
  { w with producer := p }

/-- One action of the producer inside the routing loop: the next deposit, or, after the
last one, the end of `delegateBuffer` where the local `msg_ptr` is destroyed. -/
def routeStep (w : World) : Option World :=
  match w.producer with
  | none => none
  | some r =>
    if r.i < r.substreams then
      match deposit r.p_buffer r.msg_ptr r.i w with
      | none => none
      | some w1 => some { w1 with producer := some { r with i := r.i + 1 } }
    else
      some { releaseImage (some r.msg_ptr) w with producer := none }

/-- The atomic steps of a run. The hardware hands out (`callback`) only buffers it owns;
`wake` covers every return of `wait_for` that is not a timeout, notified or not. -/
inductive Step
  | callback (popped : Option ArvBuffer) (n_available_buffers : Int)
  | route
  | wake (i : Nat)
  | timeout (i : Nat) (ros_ok : Bool)
  | done (i : Nat)
  | subscribers (i : Nat) (n : Nat)
  | stop (i : Nat)
  deriving DecidableEq, Repr

/-- The hardware owns the buffer it is about to hand out: every earlier pop of this buffer
was followed by a push. -/
def hardwareOwns (w : World) (popped : Option ArvBuffer) : Bool :=
  match popped with
  | none => true
  | some b => decide (pops w b.handle = pushes w b.handle)

/-- One step of a run; `none` when the step is not enabled in `w` or the code has
undefined behaviour there. -/
def step (w : World) : Step → Option World
  | Step.callback popped n_available_buffers =>
    if w.producer.isNone && hardwareOwns w popped then
      newBufferReadyBegin popped n_available_buffers w
    else none
  | Step.route => routeStep w
  | Step.wake i =>
    match w.stream.substreams[i]? with
    | none => none
    | some substream =>
      if substream.buffer_thread = ThreadState.waiting then threadWake i w else none
  | Step.timeout i ros_ok =>
    match w.stream.substreams[i]? with
    | none => none
    | some substream =>
      if substream.buffer_thread = ThreadState.waiting then threadTimeout i ros_ok w else none
  | Step.done i => threadDone i w
  | Step.subscribers i n =>
    match w.stream.substreams[i]? with
    | none => none
    | some substream => some (setSubstream i { substream with num_subscribers := n } w)
  | Step.stop i =>
    match w.stream.substreams[i]? with
    | none => none
    | some substream => some (setSubstream i { substream with buffer_thread_stop := true } w)

/-- A run: the steps one after the other. -/
def run (w : World) : List Step → Option World
  | [] => some w
  | s :: rest =>
    match step w s with
    | none => none
    | some w1 => run w1 rest

/-- The end of a callback, as producer steps: nothing when the buffer went back at once,
the deposits and the release of the local `msg_ptr` when it was wrapped. -/
def finishRouting (w : World) : Option World :=
  match w.producer with
  | none => some w
  | some r => run w (List.replicate (r.substreams + 1) Step.route)

/-- The test of `newBufferReady` that sends a popped buffer straight back:
`!buffer_success || !buffer_pool || !has_subscribers`. -/
def sendsBack (b : ArvBuffer) (w : World) : Bool :=
  !decide (b.status = ArvBufferStatus.success) || !w.stream.p_buffer_pool.isSome ||
    !hasSubscribers w.stream

/-- Whether the payload type is one the router deposits into mailboxes. -/
def isImageOrMultipart (b : ArvBuffer) : Bool :=
  decide (b.payload_type = ArvBufferPayloadType.image) ||
    decide (b.payload_type = ArvBufferPayloadType.multipart)

/-- Whether `newBufferReady` routes the popped buffer into mailboxes: it passes the test of
`newBufferReady` and its payload type is image or multipart. -/
def isRouted (b : ArvBuffer) (w : World) : Bool :=
  !sendsBack b w && isImageOrMultipart b

/-- Whether the reference `img` is a reference to the image that wraps buffer `h`. -/
def holdsImage (h : Nat) (img : Option ImagePtr) : Nat :=
  if img = some ⟨h⟩ then 1 else 0

/-- The local `p_buffer_image` of a thread. -/
def threadImage : ThreadState → Option ImagePtr
  | ThreadState.processing _ img => img
  | _ => none

/-- References to the image of buffer `h` held by one substream: its mailbox slot and the
local of its thread. -/
def holdersSub (h : Nat) (s : Substream) : Nat :=
  holdsImage h s.p_buffer_image + holdsImage h (threadImage s.buffer_thread)

/-- References to the image of buffer `h` held by the mailbox slots and the substream
threads of the stream. -/
def holdersStream (w : World) (h : Nat) : Nat :=
  (w.stream.substreams.map (holdersSub h)).sum

/-- The local `msg_ptr` of the producer, when it is inside the routing loop. -/
def producerImage (w : World) : Option ImagePtr :=
  match w.producer with
  | none => none
  | some r => some r.msg_ptr

/-- All references to the image of buffer `h`. -/
def holders (w : World) (h : Nat) : Nat :=
  holdersStream w h + holdsImage h (producerImage w)

/-- A stream before any buffer was delivered: empty mailboxes, threads waiting, producer
outside the callback, nothing wrapped, nothing popped or pushed. -/
def initialWorld (w : World) : Prop :=
  w.trace = [] ∧ w.producer = none ∧ (∀ h, w.use_count h = 0) ∧
  ∀ s ∈ w.stream.substreams, s.p_buffer_image = none ∧ s.buffer_thread = ThreadState.waiting

/-- The reference counts and the trace agree with a census `hold` of the live references:
the count of every image is the number of its references, and a buffer is with the
pipeline (popped once more than pushed) exactly while its image has a reference. -/
def Consistent (use_count : Nat → Nat) (trace : List Event) (hold : Nat → Nat) : Prop :=
  ∀ h, use_count h = hold h ∧
    trace.count (Event.pop h) = trace.count (Event.push h) + (if hold h = 0 then 0 else 1)

/-- The invariant of the runs: the census is the one of the world. -/
def Inv (w : World) : Prop := Consistent w.use_count w.trace (holders w)

/-- The substreams that were notified, in the order of the `notify_one` calls in a trace:
one entry per deposit into a mailbox. -/
def deposits : List Event → List Nat
  | [] => []
  | Event.notify i :: rest => i :: deposits rest
  | _ :: rest => deposits rest

/-- The events a deposit can add in front of its `notify_one`: the drop warning and the
push of a buffer whose last reference the deposit overwrote. -/
def isDropOrPush : Event → Bool
  | Event.warn_dropped _ => true
  | Event.push _ => true
  | _ => false

/-- The images given to `cam_pub.publish`, with the substream that published, in the order
of the calls in a trace. -/
def publications : List Event → List (Nat × Image)
  | [] => []
  | Event.publish i img :: rest => (i, img) :: publications rest
  | _ :: rest => publications rest

/-- The number of buffers an event adds to the pool of the stream. -/
def allocatedBy : Event → Nat
  | Event.allocate n => n
  | _ => 0

/-- The number of buffers the `allocateBuffers` calls of a trace added to the pool of the
stream. -/
def allocated (trace : List Event) : Nat := (trace.map allocatedBy).sum

/-- The number of buffers of the pool of the stream; 0 when the stream has no pool. -/
def poolSize (w : World) : Nat :=
  match w.stream.p_buffer_pool with
  | none => 0
  | some pool => pool.n_buffers

/-- What one callback adds to the pool: one buffer when `arv_stream_get_n_buffers` reported
0 available buffers, nothing otherwise. -/
def starved (n_available_buffers : Int) : Nat := if n_available_buffers = 0 then 1 else 0

/-- The number of callbacks of a run to which the hardware reported 0 available buffers. -/
def starvedCallbacks : List Step → Nat
  | [] => 0
  | Step.callback _ n_available_buffers :: rest => starved n_available_buffers + starvedCallbacks rest
  | _ :: rest => starvedCallbacks rest

/-- The steps the thread of a substream has left in `substreamThreadMain` once its stop flag
is set: a waiting thread may still be woken and finish its iteration, a processing thread
finishes its iteration, a finished thread has left the loop. -/
def threadRank : ThreadState → Nat
  | ThreadState.waiting => 2
  | ThreadState.processing _ _ => 1
  | ThreadState.finished => 0

/-- Whether the thread is inside `wait_for`. -/
def waitsLeft : ThreadState → Nat
  | ThreadState.waiting => 1
  | _ => 0

/-- Whether a step is a timeout of the wait of the thread of substream `i`. -/
def timeoutOf (i : Nat) : Step → Nat
  | Step.timeout j _ => if j = i then 1 else 0
  | _ => 0

/-- Whether a step is the hand-over in which the thread of substream `i` takes the content
of its mailbox. -/
def wakeOf (i : Nat) : Step → Nat
  | Step.wake j => if j = i then 1 else 0
  | _ => 0

/-- Whether a step is the end of an iteration of the thread of substream `i`. -/
def doneOf (i : Nat) : Step → Nat
  | Step.done j => if j = i then 1 else 0
  | _ => 0

/-- The number of timeouts of the wait of the thread of substream `i` in a run. -/
def timeoutsOf (i : Nat) (steps : List Step) : Nat := (steps.map (timeoutOf i)).sum

/-- The number of times the thread of substream `i` takes the content of its mailbox in a
run. -/
def wakesOf (i : Nat) (steps : List Step) : Nat := (steps.map (wakeOf i)).sum

/-- The number of iterations the thread of substream `i` ends in a run. -/
def donesOf (i : Nat) (steps : List Step) : Nat := (steps.map (doneOf i)).sum

/-! ## Start-up and shutdown of the nodelet -/

/-- What `spawnStream` and the destructor read of one substream: whether its
`buffer_thread` is `joinable()` when the destructor runs, and what
`cam_pub.getNumSubscribers()` answers at the test of `spawnStream`. -/
structure SubstreamSetup where
  joinable : Bool := true
  num_subscribers : Nat := 0
  deriving DecidableEq, Repr

/-- One entry of `streams_` for `spawnStream` and the destructor. `p_stream` tells whether
the pointer is non-null when the destructor runs. For `spawnStream`, `failed_attempts` is
the number of times `create_stream` answers NULL before the loop `while (spawning_)` of
this stream ends, and `created` whether the loop ends with a stream (it ends without one
when `spawning_` was cleared). -/
structure StreamSetup where
  p_stream : Bool := true
  substreams : List SubstreamSetup := []
  failed_attempts : Nat := 0
  created : Bool := true
  deriving DecidableEq, Repr

/-- The members of the nodelet that `spawnStream` and the destructor read. `is_gv_device`
is the answer of `arv_camera_is_gv_device(p_camera_)`, `p_device_` whether the pointer is
non-null, and the two `joinable` flags those of `spawn_stream_thread_` and
`software_trigger_thread_`. -/
structure Nodelet where
  streams_ : List StreamSetup := []
  is_gv_device : Bool := false
  p_device_ : Bool := true
  spawn_stream_thread_joinable : Bool := true
  software_trigger_thread_joinable : Bool := false
  deriving DecidableEq, Repr

/-- The calls `spawnStream` and the destructor make, in the order of the list they return. -/
inductive Action
  | set_emit_signals (stream : Nat) (emit : Bool)
  | clear_spawning
  | join_spawn_stream_thread
  | clear_software_trigger_active
  | join_software_trigger_thread
  | set_buffer_thread_stop (stream : Nat) (substream : Nat)
  | join_buffer_thread (stream : Nat) (substream : Nat)
  | log_joined (stream : Nat) (substream : Nat)
  | get_statistics (stream : Nat)
  | get_gv_statistics (stream : Nat)
  | acquisition_stop
  | unref_stream (stream : Nat)
  | unref_camera
  | select_stream_channel (stream : Nat)
  | create_stream (stream : Nat) (ok : Bool)
  | warn_retry (stream : Nat)
  | sleep_and_spin (stream : Nat)
  | get_payload (stream : Nat)
  | create_stream_pool (stream : Nat)
  | create_substream_pool (stream : Nat) (substream : Nat)
  | spawn_buffer_thread (stream : Nat) (substream : Nat)
  | tune_gv_stream (stream : Nat)
  | advertise_camera (stream : Nat) (substream : Nat)
  | connect_new_buffer (stream : Nat)
  | connect_control_lost
  | start_acquisition
  | advertise_services
  | log_done
  deriving DecidableEq, Repr

/-- First loop of the destructor, from stream `i` on: `arv_stream_set_emit_signals(FALSE)`
on every stream whose `p_stream` is set. -/
def disableSignals : Nat → List StreamSetup → List Action
  | _, [] => []
  | i, st :: rest =>
    (if st.p_stream then [Action.set_emit_signals i false] else []) ++
      disableSignals (i + 1) rest

/-- The destructor between its first two loops: `spawning_ = false`, the join of the spawn
thread, `software_trigger_active_ = false` and the join of the trigger thread. -/
def stopHelperThreads (n : Nodelet) : List Action :=
  [Action.clear_spawning] ++
    ((if n.spawn_stream_thread_joinable then [Action.join_spawn_stream_thread] else []) ++
      ([Action.clear_software_trigger_active] ++
        (if n.software_trigger_thread_joinable then [Action.join_software_trigger_thread]
         else [])))

/-- Inner loop of the second loop of the destructor for stream `i`, from substream `j` on:
for a joinable thread, set the stop flag, join, log. -/
def joinSubstreams (i : Nat) : Nat → List SubstreamSetup → List Action
  | _, [] => []
  | j, sub :: rest =>
    (if sub.joinable then
        [Action.set_buffer_thread_stop i j, Action.join_buffer_thread i j, Action.log_joined i j]
      else []) ++ joinSubstreams i (j + 1) rest

/-- Second loop of the destructor, from stream `i` on. -/
def joinThreads : Nat → List StreamSetup → List Action
  | _, [] => []
  | i, st :: rest => joinSubstreams i 0 st.substreams ++ joinThreads (i + 1) rest

/-- Third loop of the destructor, from stream `i` on: the statistics of every stream, and
those of the GigE Vision stream on such a device. -/
def logStatistics (is_gv_device : Bool) : Nat → List StreamSetup → List Action
  | _, [] => []
  | i, _ :: rest =>
    ([Action.get_statistics i] ++ (if is_gv_device then [Action.get_gv_statistics i] else [])) ++
      logStatistics is_gv_device (i + 1) rest

/-- Last loop of the destructor, from stream `i` on: `g_object_unref` of every stream. -/
def unrefStreams : Nat → List StreamSetup → List Action
  | _, [] => []
  | i, _ :: rest => [Action.unref_stream i] ++ unrefStreams (i + 1) rest

/-- The destructor `~CameraAravisNodelet`: the calls it makes, in order. -/
def destructor (n : Nodelet) : List Action :=
  disableSignals 0 n.streams_ ++
    (stopHelperThreads n ++
      (joinThreads 0 n.streams_ ++
        (logStatistics n.is_gv_device 0 n.streams_ ++
          ((if n.p_device_ then [Action.acquisition_stop] else []) ++
            (unrefStreams 0 n.streams_ ++ [Action.unref_camera])))))

/-- The place of a call in the text of a function: the phase (top-level statement or loop),
then the stream, the stage inside the body for one stream, the substream and the step for
one substream. -/
structure Key where
  phase : Nat := 0
  stream : Nat := 0
  stage : Nat := 0
  substream : Nat := 0
  step : Nat := 0
  deriving DecidableEq, Repr

/-- The lexicographic order of the places. -/
def keyLe (a b : Key) : Prop :=
  a.phase < b.phase ∨ (a.phase = b.phase ∧
    (a.stream < b.stream ∨ (a.stream = b.stream ∧
      (a.stage < b.stage ∨ (a.stage = b.stage ∧
        (a.substream < b.substream ∨ (a.substream = b.substream ∧ a.step ≤ b.step)))))))

/-- The place of a call in the destructor. -/
def destructorKey : Action → Key
  | Action.set_emit_signals i _ => { phase := 0, stream := i }
  | Action.clear_spawning => { phase := 1, step := 0 }
  | Action.join_spawn_stream_thread => { phase := 1, step := 1 }
  | Action.clear_software_trigger_active => { phase := 1, step := 2 }
  | Action.join_software_trigger_thread => { phase := 1, step := 3 }
  | Action.set_buffer_thread_stop i j => { phase := 2, stream := i, substream := j, step := 0 }
  | Action.join_buffer_thread i j => { phase := 2, stream := i, substream := j, step := 1 }
  | Action.log_joined i j => { phase := 2, stream := i, substream := j, step := 2 }
  | Action.get_statistics i => { phase := 3, stream := i, step := 0 }
  | Action.get_gv_statistics i => { phase := 3, stream := i, step := 1 }
  | Action.acquisition_stop => { phase := 4 }
  | Action.unref_stream i => { phase := 5, stream := i }
  | Action.unref_camera => { phase := 6 }
  | _ => { phase := 7 }

/-- Every occurrence of `x` in the list is followed at once by `y`. -/
def nextIs (x y : Action) : List Action → Prop
  | [] => True
  | a :: rest => (a = x → rest.head? = some y) ∧ nextIs x y rest

/-- The calls of the list stand in the order of their places. -/
def sortedBy (key : Action → Key) (l : List Action) : Prop :=
  l.Pairwise (fun x y => keyLe (key x) (key y))

/-- The iterations of the loop `while (spawning_)` of stream `i` in which `create_stream`
answers NULL: the warning, the sleep of one second and `ros::spinOnce()`. -/
def failedAttempts (is_gv_device : Bool) (i : Nat) : Nat → List Action
  | 0 => []
  | k + 1 =>
    ((if is_gv_device then [Action.select_stream_channel i] else []) ++
      [Action.create_stream i false, Action.warn_retry i, Action.sleep_and_spin i]) ++
      failedAttempts is_gv_device i k

/-- The loop over the substreams of stream `i` in `spawnStream`, from substream `j` on: the
pool of the substream, then its thread. -/
def spawnSubstreams (i : Nat) : Nat → List SubstreamSetup → List Action
  | _, [] => []
  | j, _ :: rest =>
    [Action.create_substream_pool i j, Action.spawn_buffer_thread i j] ++
      spawnSubstreams i (j + 1) rest

/-- The iteration of the loop `while (spawning_)` of stream `i` in which `create_stream`
answers a stream: the pool of the stream, the substreams, the tuning of a GigE Vision
stream, and the `break`. -/
def createdStream (is_gv_device : Bool) (i : Nat) (st : StreamSetup) : List Action :=
  ((if is_gv_device then [Action.select_stream_channel i] else []) ++
    ([Action.create_stream i true] ++
      ((if is_gv_device then [Action.select_stream_channel i] else []) ++
        [Action.get_payload i]))) ++
    ([Action.create_stream_pool i] ++
      (spawnSubstreams i 0 st.substreams ++
        (if is_gv_device then [Action.tune_gv_stream i] else [])))

/-- The loop `while (spawning_)` of stream `i`. -/
def openStream (is_gv_device : Bool) (i : Nat) (st : StreamSetup) : List Action :=
  failedAttempts is_gv_device i st.failed_attempts ++
    (if st.created then createdStream is_gv_device i st else [])

/-- First loop of `spawnStream`, from stream `i` on. -/
def openStreams (is_gv_device : Bool) : Nat → List StreamSetup → List Action
  | _, [] => []
  | i, st :: rest => openStream is_gv_device i st ++ openStreams is_gv_device (i + 1) rest

/-- The loop over the substreams of stream `i` that advertises the camera publishers, from
substream `j` on. -/
def advertiseSubstreams (i : Nat) : Nat → List SubstreamSetup → List Action
  | _, [] => []
  | j, _ :: rest => [Action.advertise_camera i j] ++ advertiseSubstreams i (j + 1) rest

/-- Second loop of `spawnStream`, from stream `i` on. -/
def advertiseCameras : Nat → List StreamSetup → List Action
  | _, [] => []
  | i, st :: rest => advertiseSubstreams i 0 st.substreams ++ advertiseCameras (i + 1) rest

/-- Third loop of `spawnStream`, from stream `i` on: `g_signal_connect` of "new-buffer". -/
def connectSignals : Nat → List StreamSetup → List Action
  | _, [] => []
  | i, _ :: rest => [Action.connect_new_buffer i] ++ connectSignals (i + 1) rest

/-- Fourth loop of `spawnStream`, from stream `i` on: `arv_stream_set_emit_signals(TRUE)`. -/
def enableSignals : Nat → List StreamSetup → List Action
  | _, [] => []
  | i, _ :: rest => [Action.set_emit_signals i true] ++ enableSignals (i + 1) rest

/-- The test of `spawnStream` before `start_acquisition`: some substream of some stream has
a subscriber. -/
def anySubscriber (streams : List StreamSetup) : Bool :=
  streams.any (fun src => src.substreams.any (fun sub => decide (0 < sub.num_subscribers)))

/-- The function `spawnStream`: the calls it makes, in order. -/
def spawnStream (n : Nodelet) : List Action :=
  openStreams n.is_gv_device 0 n.streams_ ++
    (advertiseCameras 0 n.streams_ ++
      (connectSignals 0 n.streams_ ++
        ([Action.connect_control_lost] ++
          (enableSignals 0 n.streams_ ++
            ((if anySubscriber n.streams_ then [Action.start_acquisition] else []) ++
              [Action.advertise_services, Action.log_done])))))

/-- The place of a call in `spawnStream`. -/
def spawnKey : Action → Key
  | Action.select_stream_channel i => { phase := 0, stream := i, stage := 0 }
  | Action.create_stream i _ => { phase := 0, stream := i, stage := 0 }
  | Action.warn_retry i => { phase := 0, stream := i, stage := 0 }
  | Action.sleep_and_spin i => { phase := 0, stream := i, stage := 0 }
  | Action.get_payload i => { phase := 0, stream := i, stage := 0 }
  | Action.create_stream_pool i => { phase := 0, stream := i, stage := 1 }
  | Action.create_substream_pool i j =>
    { phase := 0, stream := i, stage := 2, substream := j, step := 0 }
  | Action.spawn_buffer_thread i j =>
    { phase := 0, stream := i, stage := 2, substream := j, step := 1 }
  | Action.tune_gv_stream i => { phase := 0, stream := i, stage := 3 }
  | Action.advertise_camera i j => { phase := 1, stream := i, substream := j }
  | Action.connect_new_buffer i => { phase := 2, stream := i }
  | Action.connect_control_lost => { phase := 3 }
  | Action.set_emit_signals i _ => { phase := 4, stream := i }
  | Action.start_acquisition => { phase := 5 }
  | Action.advertise_services => { phase := 6, step := 0 }
  | Action.log_done => { phase := 6, step := 1 }
  | _ => { phase := 7 }

/-- The buffer in the mailbox of substream `i`: the pointer `p_buffer` of the slot, as a list
with no entry when the pointer is null or the substream does not exist. -/
def slotBuffers (w : World) (i : Nat) : List ArvBuffer :=
  match w.stream.substreams[i]? with
  | none => []
  | some s => s.p_buffer.toList

/-- The buffer a step deposits into the mailbox of substream `i`: the producer step of the
routing loop whose counter stands at `i`. -/
def depositedBy (i : Nat) (w : World) : Step → List ArvBuffer
  | Step.route =>
    match w.producer with
    | none => []
    | some r => if r.i < r.substreams ∧ r.i = i then [r.p_buffer] else []
  | _ => []

/-- The buffer the thread of substream `i` takes with a step and goes on to process: the
content of the slot at the hand-over. -/
def takenBy (i : Nat) (w : World) : Step → List ArvBuffer
  | Step.wake j => if j = i then slotBuffers w i else []
  | _ => []

/-- The buffers deposited into the mailbox of substream `i` during a run, in order. -/
def depositedIn (i : Nat) : World → List Step → List ArvBuffer
  | _, [] => []
  | w, st :: rest =>
    match step w st with
    | none => []
    | some w1 => depositedBy i w st ++ depositedIn i w1 rest

/-- The buffers the thread of substream `i` takes for processing during a run, in order. -/
def takenIn (i : Nat) : World → List Step → List ArvBuffer
  | _, [] => []
  | w, st :: rest =>
    match step w st with
    | none => []
    | some w1 => takenBy i w st ++ takenIn i w1 rest

/-! ## Parameters of the nodelet -/

/-- A `std::string`, as the list of its characters. -/
abbrev CppString := List Char

/-- The value `std::string::npos` for a 64-bit `size_t`. -/
def npos : Nat := 18446744073709551615

/-- The separator of streams in a parameter, `;`. -/
def semicolon : Char := Char.ofNat 59

/-- The separator of substreams in a parameter, `,`. -/
def comma : Char := Char.ofNat 44

/-- The slash between node name and substream name. -/
def slash : Char := Char.ofNat 47

/-- The classification `std::isspace` in the classic locale, which `boost::trim_left` and
`boost::trim_right` use: the characters 9 to 13 and the space. -/
def isSpace (c : Char) : Bool := (decide (9 ≤ c.toNat) && decide (c.toNat ≤ 13)) || decide (c.toNat = 32)

/-- The function `boost::trim_left`. -/
def trim_left (s : CppString) : CppString := s.dropWhile isSpace

/-- The function `boost::trim_right`. -/
def trim_right (s : CppString) : CppString := (s.reverse.dropWhile isSpace).reverse

/-- The call `std::getline(ss, temp, separator)` on the unread characters of the stream:
the characters extracted into `temp`, the characters left unread, and whether the stream is
still `good()`, which it is unless the end of the input was hit. -/
def getline (separator : Char) : CppString → CppString × CppString × Bool
  | [] => ([], [], false)
  | c :: rest =>
    if c = separator then ([], rest, true)
    else
      let r := getline separator rest
      (c :: r.1, r.2.1, r.2.2)

/-- The loop `while (ss.good())` of `parseStringArgs`, with `good` the state of the stream,
`ss` its unread characters, and a bound on the number of iterations; `none` when the bound
is reached. -/
def readArgs (separator : Char) : Nat → Bool → CppString → List CppString →
    Option (List CppString)
  | _, false, _, out_args => some out_args
  | 0, true, _, _ => none
  | fuel + 1, true, ss, out_args =>
    let r := getline separator ss
    readArgs separator fuel r.2.2 r.2.1 (out_args ++ [trim_right (trim_left r.1)])

/-- The function `parseStringArgs`: the new value of `out_args`. The loop runs at most once
per character of the string and once more. -/
def parseStringArgs (in_arg_string : CppString) (out_args : List CppString) (separator : Char) :
    Option (List CppString) :=
  let array_start := 0
  let array_end := in_arg_string.length
  if array_start = npos ∨ array_end = npos then some (out_args ++ [in_arg_string])
  else
    readArgs separator (in_arg_string.length + 1) true
      ((in_arg_string.drop array_start).take (array_end - array_start)) out_args

/-- The loop of `parseStringArgs2D` over the entries of `streams`. -/
def parseRows : List CppString → List (List CppString) → Option (List (List CppString))
  | [], out_args => some out_args
  | stream :: rest, out_args =>
    match parseStringArgs stream [] comma with
    | none => none
    | some substreams => parseRows rest (out_args ++ [substreams])

/-- The function `parseStringArgs2D`: the new value of `out_args`. -/
def parseStringArgs2D (in_arg_string : CppString) (out_args : List (List CppString)) :
    Option (List (List CppString)) :=
  match parseStringArgs in_arg_string [] semicolon with
  | none => none
  | some streams => parseRows streams out_args

/-- The segments of a string that a separator character delimits, in order: the part before
the first separator, the parts between two separators, and the part after the last one. -/
def segments (c : Char) : CppString → List CppString
  | [] => [[]]
  | x :: rest =>
    if x = c then [] :: segments c rest
    else
      match segments c rest with
      | [] => [[x]]
      | seg :: segs => (x :: seg) :: segs

/-- The conversion of an integer to the 32-bit `int`. -/
def toInt32 (v : Int) : Int := (v + 2147483648) % 4294967296 - 2147483648

/-- The conversion of an `int` to the 64-bit `size_t`. -/
def toSizeT (v : Int) : Nat := (v % 18446744073709551616).toNat

/-- The function `discoverStreams`. `device_stream_channel_count` and
`gev_stream_channel_count` are the `gint64` values `arv_device_get_integer_feature_value`
answers for "DeviceStreamChannelCount" and "GevStreamChannelCount", stored in the `int`
`num_streams`; the comparison `stream_names_size < num_streams` is one of `size_t` values. -/
def discoverStreams (device_stream_channel_count : Int) (is_gv_device : Bool)
    (gev_stream_channel_count : Int) (stream_names_size : Nat) : Int :=
  let num_streams := toInt32 device_stream_channel_count
  let num_streams :=
    if num_streams = 0 ∧ is_gv_device = true then toInt32 gev_stream_channel_count
    else num_streams
  let num_streams := if num_streams = 0 then 1 else num_streams
  if stream_names_size < toSizeT num_streams then toInt32 stream_names_size else num_streams

/-- One element of `streams_[i].substreams` as `onInit` fills it. -/
structure SubstreamInit where
  name : CppString := []
  frame_id : CppString := []
  deriving DecidableEq, Repr

/-- The assignment `frame_ids[s][ss] = f(frame_ids[s][ss])`; `none` when an index is out of
range. -/
def mapEntry (f : CppString → CppString) (frame_ids : List (List CppString)) (s : Nat)
    (ss : Nat) : Option (List (List CppString)) :=
  match frame_ids[s]? with
  | none => none
  | some row =>
    match row[ss]? with
    | none => none
    | some x => some (frame_ids.set s (row.set ss (f x)))

/-- The inner loop `for (ss = 0; ss < streams_[s].substreams.size(); ++ss)` of `getFrameIds`,
from `ss` on with `remaining` iterations to go. -/
def mapRow (f : CppString → CppString) (s : Nat) :
    Nat → Nat → List (List CppString) → Option (List (List CppString))
  | _, 0, frame_ids => some frame_ids
  | ss, remaining + 1, frame_ids =>
    match mapEntry f frame_ids s ss with
    | none => none
    | some ids => mapRow f s (ss + 1) remaining ids

/-- The outer loop `for (s = 0; s < streams_.size(); ++s)` of `getFrameIds`, from stream `s`
on, over the entries of `streams_` that are left. -/
def mapRows (f : CppString → CppString) :
    Nat → List (List SubstreamInit) → List (List CppString) → Option (List (List CppString))
  | _, [], frame_ids => some frame_ids
  | s, substreams :: rest, frame_ids =>
    match mapRow f s 0 substreams.length frame_ids with
    | none => none
    | some ids => mapRows f (s + 1) rest ids

/-- The function `getFrameIds`. `frame_id` is the parameter of that name when it is set,
`streams_` the member as it is when the function is called (its substreams), `node_name`
what `getName()` answers, and `resolve` the function `tf::resolve`. `none` when
`frame_ids[s][ss]` is out of range. -/
def getFrameIds (frame_id : Option CppString) (substream_names : List (List CppString))
    (streams_ : List (List SubstreamInit)) (node_name : CppString) ( tf_prefix : CppString)
    (resolve : CppString → CppString → CppString) : Option (List (List CppString)) :=
  let defaults : Option (List (List CppString)) :=
    match frame_id with
    | some frame_id_args => parseStringArgs2D frame_id_args []
    | none => mapRows (fun name => node_name ++ [slash] ++ name) 0 streams_ substream_names
  match defaults with
  | none => none
  | some frame_ids => mapRows (resolve tf_prefix) 0 streams_ frame_ids

/-- The inner loop of the set-up of `streams_` in `onInit`, from substream `j` on: the
names and the frame ids of the substreams of stream `i`; `none` when `frame_ids[i][j]` is
out of range. -/
def initSubstreams (frame_ids : List (List CppString)) (i : Nat) :
    Nat → List CppString → Option (List SubstreamInit)
  | _, [] => some []
  | j, name :: rest =>
    match frame_ids[i]? with
    | none => none
    | some row =>
      match row[j]? with
      | none => none
      | some frame_id =>
        match initSubstreams frame_ids i (j + 1) rest with
        | none => none
        | some subs => some ({ name := name, frame_id := frame_id } :: subs)

/-- The loop `for (int i = 0; i < num_streams; i++)` of `onInit`, from stream `i` on with
`remaining` iterations to go: `none` when `substream_names[i]` is out of range. -/
def initStreams (substream_names : List (List CppString)) (frame_ids : List (List CppString)) :
    Nat → Nat → Option (List (List SubstreamInit))
  | _, 0 => some []
  | i, remaining + 1 =>
    match substream_names[i]? with
    | none => none
    | some names =>
      match initSubstreams frame_ids i 0 names with
      | none => none
      | some subs =>
        match initStreams substream_names frame_ids (i + 1) remaining with
        | none => none
        | some streams => some (subs :: streams)

/-- The names of the substreams in `onInit`: parsed from the parameter `channel_names` when
it is set, one stream with one unnamed substream otherwise. -/
def substreamNames (channel_names : Option CppString) : Option (List (List CppString)) :=
  match channel_names with
  | some stream_channel_args => parseStringArgs2D stream_channel_args []
  | none => some [[[]]]

/-- The set-up of `streams_` in `onInit`, from the parameters to the end of the loop that
fills `streams_`: the substreams of every stream. `streams_` is empty when `onInit` starts,
and it is still empty when `getFrameIds` is called. -/
def onInit (channel_names : Option CppString) (frame_id : Option CppString)
    (node_name : CppString) ( tf_prefix : CppString)
    (resolve : CppString → CppString → CppString) (device_stream_channel_count : Int)
    (is_gv_device : Bool) (gev_stream_channel_count : Int) :
    Option (List (List SubstreamInit)) :=
  match substreamNames channel_names with
  | none => none
  | some substream_names =>
    match getFrameIds frame_id substream_names [] node_name tf_prefix resolve with
    | none => none
    | some frame_ids =>
      let num_streams := discoverStreams device_stream_channel_count is_gv_device
        gev_stream_channel_count substream_names.length
      initStreams substream_names frame_ids 0 num_streams.toNat

/-- The detected number of stream channels: the value of "DeviceStreamChannelCount", or,
when that is 0 on a GigE Vision device, the value of "GevStreamChannelCount". -/
def detectedCount (device_stream_channel_count : Int) (is_gv_device : Bool)
    (gev_stream_channel_count : Int) : Int :=
  if device_stream_channel_count = 0 ∧ is_gv_device = true then gev_stream_channel_count
  else device_stream_channel_count

/-! ## The features of the camera -/

/-- One node of the DOM tree of the GenICam description, with what `discoverFeatures` reads
of it. A node is referred to by its index in `Genicam.nodes`. `first_child_target` is the
node `arv_gc_get_node` finds under the value of the first child (no node when the lookup
answers NULL), `features` are the entries of `arv_gc_category_get_features`, each looked up
with `arv_gc_get_node` (no node when the lookup answers NULL), `children` the child nodes. -/
structure GcNode where
  node_name : CppString := []
  first_child_target : Option Nat := none
  is_feature_node : Bool := false
  feature_name : CppString := []
  is_available : Bool := false
  is_implemented : Bool := false
  is_category : Bool := false
  features : List (Option Nat) := []
  children : List Nat := []
  deriving DecidableEq, Repr

/-- The GenICam description of the device: its nodes and the node `arv_gc_get_node` finds
under the name "Root". -/
structure Genicam where
  nodes : List GcNode := []
  root : Option Nat := none
  deriving DecidableEq, Repr

/-- How a run of `discoverFeatures` ends: it returns with the map `implemented_features_`
and the set `done` (in the order of the insertions), it dereferences a null or dangling
pointer, or the bound on the number of iterations of the model is reached. -/
inductive Discovery
  | finished (implemented_features_ : List (CppString × Bool)) (done : List Nat)
  | crashed
  | out_of_fuel
  deriving DecidableEq, Repr

/-- The call `implemented_features_.emplace(fname, usable)`: a new entry unless the key is
there already. -/
def emplace (m : List (CppString × Bool)) (fname : CppString) (usable : Bool) :
    List (CppString × Bool) :=
  if m.any (fun e => decide (e.1 = fname)) then m else m ++ [(fname, usable)]

/-- The test `name[0] == 'p'`. -/
def startsWithP (name : CppString) : Bool := decide (name.head? = some (Char.ofNat 112))

/-- The name "pInvalidator". -/
def pInvalidator : CppString := "pInvalidator".toList

/-- The body of the loop of `discoverFeatures` for a node that is not in `done`, after the
insertion into `done`: the new `todo` list and the new map. -/
def expandNode (node : GcNode) (todo : List (Option Nat)) (m : List (CppString × Bool)) :
    List (Option Nat) × List (CppString × Bool) :=
  if startsWithP node.node_name then
    if node.node_name = pInvalidator then (todo, m)
    else
      match node.first_child_target with
      | some inode => (some inode :: todo, m)
      | none => (todo, m)
  else
    let m1 :=
      if node.is_feature_node then
        emplace m node.feature_name (node.is_available && node.is_implemented)
      else m
    if node.is_category then (node.features.reverse ++ todo, m1)
    else ((node.children.map some).reverse ++ todo, m1)

/-- The loop `while (!todo.empty())` of `discoverFeatures`, with a bound on the number of
iterations. A null pointer at the front of `todo` is given to
`arv_dom_node_get_node_name`, whose null answer is made a `std::string`. -/
def discoverLoop (gc : Genicam) :
    Nat → List (Option Nat) → List Nat → List (CppString × Bool) → Discovery
  | _, [], done, m => Discovery.finished m done
  | 0, _ :: _, _, _ => Discovery.out_of_fuel
  | _ + 1, none :: _, _, _ => Discovery.crashed
  | fuel + 1, some node :: todo, done, m =>
    if node ∈ done then discoverLoop gc fuel todo done m
    else
      match gc.nodes[node]? with
      | none => Discovery.crashed
      | some n =>
        discoverLoop gc fuel (expandNode n todo m).1 (done ++ [node]) (expandNode n todo m).2

/-- An upper bound on what the expansion of a node pushes onto `todo`, plus two. -/
def weightAt (gc : Genicam) (node : Nat) : Nat :=
  match gc.nodes[node]? with
  | none => 0
  | some n => n.features.length + n.children.length + 2

/-- The sum of the weights of the nodes of a list that are not in `done`. -/
def unvisited (gc : Genicam) (done : List Nat) : List Nat → Nat
  | [] => 0
  | node :: rest => (if node ∈ done then 0 else weightAt gc node) + unvisited gc done rest

/-- The bound on the number of iterations that `discoverFeatures` is run with. -/
def budget (gc : Genicam) : Nat := unvisited gc [] (List.range gc.nodes.length) + 2

/-- The function `discoverFeatures`: how it ends, with the map `implemented_features_` it
leaves. `p_device_` tells whether the pointer is non-null, `gc` is what
`arv_device_get_genicam` answers. -/
def discoverFeatures (p_device_ : Bool) (gc : Option Genicam) : Discovery :=
  if !p_device_ then Discovery.finished [] []
  else
    match gc with
    | none => Discovery.finished [] []
    | some g => discoverLoop g (budget g) [g.root] [] []

/-- The nodes the expansion of a node puts on the `todo` list. -/
def successors (n : GcNode) : List Nat :=
  if startsWithP n.node_name then
    if n.node_name = pInvalidator then [] else n.first_child_target.toList
  else if n.is_category then n.features.filterMap id
  else n.children

/-- The node `v` is reached from the node `u`: by a chain of expansions. -/
inductive Reached (gc : Genicam) (u : Nat) : Nat → Prop
  | refl : Reached gc u u
  | step (v w : Nat) (n : GcNode) : Reached gc u v → gc.nodes[v]? = some n →
      w ∈ successors n → Reached gc u w

/-- Every pointer of the description points to a node: the root exists, and the features of
the categories, the targets and the children are nodes of the description. -/
def wellFormed (gc : Genicam) : Prop :=
  (∃ r, gc.root = some r ∧ r < gc.nodes.length) ∧
  ∀ n ∈ gc.nodes,
    (∀ f ∈ n.features, ∃ v, f = some v ∧ v < gc.nodes.length) ∧
    (∀ c ∈ n.children, c < gc.nodes.length) ∧
    (∀ t, n.first_child_target = some t → t < gc.nodes.length)

/-- Whether the expansion of a node reaches the check for an implemented feature and finds
a feature node: its name does not start with `p` and it is a feature node. -/
def recordsFeature (n : GcNode) : Bool := !startsWithP n.node_name && n.is_feature_node

/-- The value `usable` of a feature node: available and implemented. -/
def usable (n : GcNode) : Bool := n.is_available && n.is_implemented

/-! ## Example worlds -/

/-- A stream with a pool and two substreams, the first of which has a subscriber. -/
def exampleWorld : World :=
  { stream := { p_buffer_pool := some {}, substreams := [{ num_subscribers := 1 }, {}] } }

/-- An image buffer with the given handle. -/
def exampleImage (handle : Nat) : ArvBuffer := { handle := handle }

/-- A multipart buffer with the given handle and two parts. -/
def exampleMultipart (handle : Nat) : ArvBuffer :=
  { handle := handle, payload_type := ArvBufferPayloadType.multipart, parts := [{}, {}] }

/-- A chunk-data buffer with the given handle. -/
def exampleChunk (handle : Nat) : ArvBuffer :=
  { handle := handle, payload_type := ArvBufferPayloadType.chunk_data }

/-- A run: an image buffer is routed, a second one overwrites it in the mailbox before the
thread wakes, a multipart buffer follows whose first part is processed while the producer is
still in the loop, a chunk buffer is sent back, and the threads finish their work. -/
def exampleRun : List Step :=
  [Step.callback (some (exampleImage 1)) 3, Step.route, Step.route,
   Step.callback (some (exampleImage 2)) 0, Step.route, Step.route,
   Step.wake 0, Step.done 0,
   Step.callback (some (exampleMultipart 1)) 3, Step.route, Step.wake 0, Step.done 0,
   Step.route, Step.route,
   Step.callback (some (exampleChunk 3)) 1,
   Step.wake 1, Step.done 1]

/-- The world at the end of `exampleRun`. -/
def exampleFinal : World := (run exampleWorld exampleRun).getD exampleWorld

/-- The world after `delegateBuffer` routed a two-part buffer in `exampleWorld`. -/
def exampleFanOut : World :=
  (delegateBuffer (exampleMultipart 7) exampleWorld).getD exampleWorld

/-- The world after `delegateBuffer` routed an image buffer in `exampleWorld`. -/
def exampleImageRouted : World :=
  (delegateBuffer (exampleImage 7) exampleWorld).getD exampleWorld

/-- The world after `delegateBuffer` received a chunk-data buffer in `exampleWorld`. -/
def exampleChunkReturned : World :=
  (delegateBuffer (exampleChunk 7) exampleWorld).getD exampleWorld

/-- An image buffer with the given handle whose status is not Success. -/
def exampleFailed (handle : Nat) : ArvBuffer :=
  { handle := handle, status := ArvBufferStatus.failure 3 }

/-- The world after the callback popped a failed buffer in `exampleWorld`, with no buffer
left on the hardware side. -/
def exampleSentBack : World :=
  (newBufferReady (some (exampleFailed 5)) 0 exampleWorld).getD exampleWorld

/-- A world whose first mailbox is occupied by buffer 1: `exampleWorld` after the callback
routed an image buffer. -/
def exampleOccupied : World :=
  (newBufferReady (some (exampleImage 1)) 3 exampleWorld).getD exampleWorld

/-- The world after one more deposit, of buffer 2, into the first mailbox of
`exampleOccupied`. -/
def exampleOverwritten : World :=
  (deposit (exampleImage 2) ⟨2⟩ 0 exampleOccupied).getD exampleOccupied

/-- The world after two deposits, of the buffers 2 and 3, into the first mailbox of
`exampleWorld` and the hand-over to the thread of that substream. -/
def exampleSecondWins : World :=
  (((deposit (exampleImage 2) ⟨2⟩ 0 exampleWorld).bind
    (deposit (exampleImage 3) ⟨3⟩ 0)).bind (threadWake 0)).getD exampleWorld

/-- A buffer whose only part has the region (0, 0, 640, 480). -/
def exampleVga : ArvBuffer := { parts := [{ x := 0, y := 0, width := 640, height := 480 }] }

/-- A cached ROI (0, 0, 800, 600) with bounds. -/
def exampleRoi : ROI :=
  { x := 0, y := 0, width := 800, height := 600,
    width_min := 16, width_max := 1920, height_min := 16, height_max := 1080 }

/-- A substream with its pool, a cached ROI of 800 x 600 and an 8-bit sensor. -/
def exampleMono8 : Substream :=
  { p_buffer_pool := some {}, frame_id := "cam/a", num_subscribers := 1,
    sensor := { pixel_format := "Mono8", n_bits_pixel := 8 }, roi := exampleRoi }

/-- A substream with its pool and a 16-bit sensor. -/
def exampleMono16 : Substream :=
  { p_buffer_pool := some {}, frame_id := "cam/b",
    sensor := { pixel_format := "Mono16", n_bits_pixel := 16 } }

/-- A stream with its pool and the two substreams `exampleMono8` and `exampleMono16`. -/
def exampleProcessingWorld : World :=
  { stream := { p_buffer_pool := some {}, substreams := [exampleMono8, exampleMono16] } }

/-- A multipart buffer with a part of 640 x 480 and a part of 32 x 16 at x = 1. -/
def exampleTwoParts : ArvBuffer :=
  { handle := 4, payload_type := ArvBufferPayloadType.multipart, frame_id := 9,
    system_timestamp := 77,
    parts := [{ width := 640, height := 480, data := [1, 2, 3] },
              { x := 1, width := 32, height := 16, data := [7, 8] }] }

/-- An image buffer of 640 x 480. -/
def exampleOnePart : ArvBuffer :=
  { handle := 5, payload_type := ArvBufferPayloadType.image, frame_id := 10,
    system_timestamp := 78, parts := [{ width := 640, height := 480, data := [1, 2, 3] }] }

/-- A conversion that writes the reversed bytes of the source into the destination. -/
def exampleConversion : ConversionFunction :=
  fun source destination => { destination with data := source.data.reverse }

/-- The world after the callback routed an image buffer in `exampleWorld` while the hardware
reported 0 available buffers. -/
def exampleStarved : World :=
  (newBufferReady (some (exampleImage 1)) 0 exampleWorld).getD exampleWorld

/-- The world after the callback routed the image buffer `exampleOnePart` into the first
mailbox of `exampleProcessingWorld`. -/
def exampleDeposited : World :=
  (newBufferReady (some exampleOnePart) 3 exampleProcessingWorld).getD exampleProcessingWorld

/-- The world after the thread of the first substream took the pair of `exampleDeposited`. -/
def exampleHandedOver : World := (threadWake 0 exampleDeposited).getD exampleDeposited

/-- The world after the thread of the first substream was signalled in `exampleDeposited`
and processed the buffer it took. -/
def exampleProcessed : World :=
  (threadSignalled {} (fun _ => none) {} {} {} 0 0 exampleDeposited).getD exampleDeposited

/-- A run in which the stop flag of the first substream is set while its thread waits, the
callback then routes the image buffer `exampleOnePart` into its mailbox, and the thread is
woken by the notification. -/
def exampleLateRun : List Step :=
  [Step.stop 0, Step.callback (some exampleOnePart) 3, Step.route, Step.route, Step.wake 0]

/-- The world at the end of `exampleLateRun`, started in `exampleProcessingWorld`. -/
def exampleLateTaken : World :=
  (run exampleProcessingWorld exampleLateRun).getD exampleProcessingWorld

/-- A run in which the stop flag of the first substream is set and the wait of its thread
times out. -/
def exampleStopRun : List Step := [Step.stop 0, Step.timeout 0 true]

/-- The world at the end of `exampleStopRun`, started in `exampleWorld`. -/
def exampleStopped : World := (run exampleWorld exampleStopRun).getD exampleWorld

/-- A nodelet with one stream of two substreams whose threads run, on a device that is not
GigE Vision; the second substream has a subscriber. -/
def exampleNodelet : Nodelet :=
  { streams_ := [{ substreams := [{}, { num_subscribers := 1 }] }] }

/-- A multipart buffer with three parts. -/
def exampleThreeParts : ArvBuffer :=
  { handle := 6, payload_type := ArvBufferPayloadType.multipart, parts := [{}, {}, {}] }

/-- The world after the thread of the first substream of `exampleOccupied`, which holds
buffer 1 in its mailbox, took the pair and a second image buffer was routed while the
thread was processing. -/
def exampleBusy : World :=
  (run exampleOccupied [Step.wake 0, Step.callback (some (exampleImage 2)) 3, Step.route,
    Step.route]).getD exampleOccupied

/-- A value of the parameter `channel_names`: two streams, the first with two substreams. -/
def exampleChannelNames : CppString := "rgb, depth ;ir".toList

/-- A description with two enumerations that both have an entry named `Off`: the entry of
`TriggerMode` is available and implemented, the entry of `ExposureAuto` is not implemented. -/
def exampleGenicam : Genicam :=
  { nodes :=
      [ { node_name := "Category".toList, is_feature_node := true, feature_name := "Root".toList,
          is_available := true, is_implemented := true, is_category := true,
          features := [some 1, some 2] },
        { node_name := "Enumeration".toList, is_feature_node := true,
          feature_name := "TriggerMode".toList, is_available := true, is_implemented := true,
          children := [3] },
        { node_name := "Enumeration".toList, is_feature_node := true,
          feature_name := "ExposureAuto".toList, is_available := true, is_implemented := true,
          children := [4] },
        { node_name := "EnumEntry".toList, is_feature_node := true, feature_name := "Off".toList,
          is_available := true, is_implemented := true },
        { node_name := "EnumEntry".toList, is_feature_node := true, feature_name := "Off".toList,
          is_available := true, is_implemented := false } ],
    root := some 0 }

/-- The default configuration: a stream with its pool and the one unnamed substream, which
has a subscriber. -/
def exampleSingle : World :=
  { stream := { p_buffer_pool := some {}, substreams := [{ num_subscribers := 1 }] } }

/-- An image buffer whose region is reported with the width -1. -/
def exampleNegativeWidth : ArvBuffer :=
  { handle := 8, payload_type := ArvBufferPayloadType.image,
    parts := [{ width := -1, height := 480 }] }

/-- A description whose root category lists a feature that names no node. -/
def exampleDangling : Genicam :=
  { nodes :=
      [ { node_name := "Category".toList, is_feature_node := true, feature_name := "Root".toList,
          is_available := true, is_implemented := true, is_category := true,
          features := [some 1, none] },
        { node_name := "Integer".toList, is_feature_node := true,
          feature_name := "Width".toList, is_available := true, is_implemented := true } ],
    root := some 0 }

/-! # Properties -/

/-! ## Projections of the primitive operations -/

@[simp] theorem emit_stream (e : Event) (w : World) : (emit e w).stream = w.stream := rfl
@[simp] theorem emit_use_count (e : Event) (w : World) : (emit e w).use_count = w.use_count := rfl
@[simp] theorem emit_producer (e : Event) (w : World) : (emit e w).producer = w.producer := rfl
@[simp] theorem emit_trace (e : Event) (w : World) : (emit e w).trace = w.trace ++ [e] := rfl

@[simp] theorem setSubstream_use_count (i : Nat) (s : Substream) (w : World) :
    (setSubstream i s w).use_count = w.use_count := rfl
@[simp] theorem setSubstream_trace (i : Nat) (s : Substream) (w : World) :
    (setSubstream i s w).trace = w.trace := rfl
@[simp] theorem setSubstream_producer (i : Nat) (s : Substream) (w : World) :
    (setSubstream i s w).producer = w.producer := rfl
@[simp] theorem setSubstream_substreams (i : Nat) (s : Substream) (w : World) :
    (setSubstream i s w).stream.substreams = w.stream.substreams.set i s := rfl
@[simp] theorem setSubstream_pool (i : Nat) (s : Substream) (w : World) :
    (setSubstream i s w).stream.p_buffer_pool = w.stream.p_buffer_pool := rfl

@[simp] theorem copyImage_stream (img : Option ImagePtr) (w : World) :
    (copyImage img w).stream = w.stream := by
  cases img <;> rfl
@[simp] theorem copyImage_trace (img : Option ImagePtr) (w : World) :
    (copyImage img w).trace = w.trace := by
  cases img <;> rfl
@[simp] theorem copyImage_producer (img : Option ImagePtr) (w : World) :
    (copyImage img w).producer = w.producer := by
  cases img <;> rfl

@[simp] theorem releaseImage_stream (img : Option ImagePtr) (w : World) :
    (releaseImage img w).stream = w.stream := by
  cases img with
  | none => rfl
  | some p => simp only [releaseImage]; split <;> rfl
@[simp] theorem releaseImage_producer (img : Option ImagePtr) (w : World) :
    (releaseImage img w).producer = w.producer := by
  cases img with
  | none => rfl
  | some p => simp only [releaseImage]; split <;> rfl

theorem sum_map_set {α : Type} (f : α → Nat) (l : List α) (i : Nat) (x a : α)
    (h : l[i]? = some a) : ((l.set i x).map f).sum + f a = (l.map f).sum + f x := by
  induction l generalizing i with
  | nil => simp at h
  | cons y ys ih =>
    cases i with
    | zero =>
      simp at h
      subst h
      simp only [List.set_cons_zero, List.map_cons, List.sum_cons]
      omega
    | succ j =>
      simp at h
      have := ih j h
      simp only [List.set_cons_succ, List.map_cons, List.sum_cons]
      omega

theorem holdersStream_setSubstream (w : World) (i : Nat) (s s1 : Substream) (h : Nat)
    (hi : w.stream.substreams[i]? = some s) :
    holdersStream (setSubstream i s1 w) h + holdersSub h s = holdersStream w h + holdersSub h s1 := by
  unfold holdersStream
  simpa using sum_map_set (holdersSub h) w.stream.substreams i s1 s hi

/-! ## Reference counts against the census of references -/

theorem holdsImage_none (h : Nat) : holdsImage h none = 0 := rfl

theorem holdsImage_some (h : Nat) (p : ImagePtr) :
    holdsImage h (some p) = if h = p.wraps then 1 else 0 := by
  unfold holdsImage
  cases p with
  | mk q =>
    by_cases hq : h = q
    · subst hq; simp
    · have : ¬ q = h := fun e => hq e.symm
      simp [hq, this]

theorem count_single_ne (a b : Event) (h : ¬ b = a) : List.count a [b] = 0 := by
  rw [List.count_singleton]
  simp [h]

theorem count_single_self (a : Event) : List.count a [a] = 1 := by
  rw [List.count_singleton]
  simp

theorem consistent_copy (w : World) (img : Option ImagePtr) (hold : Nat → Nat)
    (hc : Consistent w.use_count w.trace hold)
    (hpos : ∀ p, img = some p → 0 < hold p.wraps) :
    Consistent (copyImage img w).use_count (copyImage img w).trace
      (fun h => hold h + holdsImage h img) := by
  intro h
  cases img with
  | none => simpa [copyImage, holdsImage_none] using hc h
  | some p =>
    have hp := hpos p rfl
    obtain ⟨h1, h2⟩ := hc h
    by_cases e : h = p.wraps
    · subst e
      simp only [copyImage, holdsImage_some, if_true]
      refine ⟨by omega, ?_⟩
      rw [h2]
      have : hold p.wraps ≠ 0 := by omega
      simp [this]
    · simp only [copyImage, holdsImage_some, if_neg e]
      exact ⟨by simpa using h1, by simpa using h2⟩

theorem consistent_release (w : World) (img : Option ImagePtr) (hold : Nat → Nat)
    (hc : Consistent w.use_count w.trace hold)
    (hpos : ∀ p, img = some p → 0 < hold p.wraps) :
    Consistent (releaseImage img w).use_count (releaseImage img w).trace
      (fun h => hold h - holdsImage h img) := by
  intro h
  cases img with
  | none => simpa [releaseImage, holdsImage_none] using hc h
  | some p =>
    have hp := hpos p rfl
    obtain ⟨h1, h2⟩ := hc h
    obtain ⟨p1, p2⟩ := hc p.wraps
    have hne : hold p.wraps ≠ 0 := by omega
    simp only [hne, if_false] at p2
    by_cases e : h = p.wraps
    · subst e
      simp only [releaseImage, holdsImage_some, if_true]
      by_cases c : w.use_count p.wraps = 1
      · simp only [c, if_true, emit_use_count, emit_trace]
        have : hold p.wraps - 1 = 0 := by omega
        refine ⟨by omega, ?_⟩
        rw [List.count_append, List.count_append, count_single_self,
          count_single_ne _ _ (by simp), this]
        simp only [if_true]
        omega
      · simp only [c, if_false]
        have : hold p.wraps - 1 ≠ 0 := by omega
        simp only [this, if_false, if_true]
        exact ⟨by omega, p2⟩
    · simp only [releaseImage, holdsImage_some, if_neg e]
      have e2 : ¬ p.wraps = h := fun x => e x.symm
      by_cases c : w.use_count p.wraps = 1
      · simp only [c, if_true, emit_use_count, emit_trace, if_neg e]
        refine ⟨by simpa using h1, ?_⟩
        have e3 : ¬ Event.push p.wraps = Event.push h := by simpa using e2
        rw [List.count_append, List.count_append, count_single_ne _ _ e3,
          count_single_ne _ _ (by simp)]
        simpa using h2
      · simp only [c, if_false, if_neg e]
        exact ⟨by simpa using h1, by simpa using h2⟩

theorem consistent_emit (use_count : Nat → Nat) (trace : List Event) (hold : Nat → Nat)
    (e : Event) (hpop : ∀ h, e ≠ Event.pop h) (hpush : ∀ h, e ≠ Event.push h)
    (hc : Consistent use_count trace hold) : Consistent use_count (trace ++ [e]) hold := by
  intro h
  obtain ⟨h1, h2⟩ := hc h
  refine ⟨h1, ?_⟩
  have a : ¬ e = Event.pop h := hpop h
  have b : ¬ e = Event.push h := hpush h
  rw [List.count_append, List.count_append, count_single_ne _ _ a, count_single_ne _ _ b]
  exact h2

theorem consistent_congr (use_count : Nat → Nat) (trace : List Event) (hold hold1 : Nat → Nat)
    (he : ∀ h, hold h = hold1 h) (hc : Consistent use_count trace hold) :
    Consistent use_count trace hold1 := by
  have : hold = hold1 := funext he
  rw [← this]; exact hc

/-! ## What one callback does to the counters -/

@[simp] theorem pops_emit (e : Event) (w : World) (h : Nat) :
    pops (emit e w) h = pops w h + if e = Event.pop h then 1 else 0 := by
  unfold pops
  rw [emit_trace, List.count_append, List.count_singleton]
  simp

@[simp] theorem pushes_emit (e : Event) (w : World) (h : Nat) :
    pushes (emit e w) h = pushes w h + if e = Event.push h then 1 else 0 := by
  unfold pushes
  rw [emit_trace, List.count_append, List.count_singleton]
  simp

theorem allocateBuffers_some (n : Nat) (w w1 : World) (h : allocateBuffers n w = some w1) :
    w1.stream.substreams = w.stream.substreams ∧ w1.use_count = w.use_count ∧
    w1.producer = w.producer ∧ w1.trace = w.trace ++ [Event.allocate n] ∧
    w1.stream.p_buffer_pool.isSome = true ∧ w.stream.p_buffer_pool.isSome = true := by
  unfold allocateBuffers at h
  cases hp : w.stream.p_buffer_pool with
  | none => simp [hp] at h
  | some pool =>
    simp only [hp, Option.some.injEq] at h
    subst h
    simp

/-- The outcome of the first half of a callback that popped `b`: the substreams are
untouched, `b` is popped once, and either the buffer went back (it is pushed once, nothing
is wrapped, the producer is outside the loop) or it is wrapped once and the producer stands
before the first deposit. -/
theorem newBufferReadyBegin_some (b : ArvBuffer) (n : Int) (w w1 : World)
    (hp : w.producer = none) (h : newBufferReadyBegin (some b) n w = some w1) :
    w1.stream.substreams = w.stream.substreams ∧
    (∀ x, pops w1 x = pops w x + if b.handle = x then 1 else 0) ∧
    ((w1.producer = none ∧ w1.use_count = w.use_count ∧
        ∀ x, pushes w1 x = pushes w x + if b.handle = x then 1 else 0) ∨
     (∃ k, w1.producer = some ⟨b, ⟨b.handle⟩, 0, k⟩ ∧
        (∀ x, w1.use_count x = if x = b.handle then 1 else w.use_count x) ∧
        ∀ x, pushes w1 x = pushes w x)) := by
  unfold newBufferReadyBegin at h
  simp only at h
  generalize hwa : (if n = 0 then allocateBuffers 1 (emit (Event.pop b.handle) w)
    else some (emit (Event.pop b.handle) w)) = oa at h
  cases oa with
  | none => simp at h
  | some wa =>
    have fa : wa.stream.substreams = w.stream.substreams ∧ wa.use_count = w.use_count ∧
        wa.producer = none ∧ (∀ x, pops wa x = pops w x + if b.handle = x then 1 else 0) ∧
        (∀ x, pushes wa x = pushes w x) := by
      by_cases hn : n = 0
      · simp only [hn, if_true] at hwa
        obtain ⟨a1, a2, a3, a4, _, _⟩ := allocateBuffers_some _ _ _ hwa
        refine ⟨by simpa using a1, by simpa using a2, by simpa [hp] using a3, ?_, ?_⟩
        · intro x
          unfold pops
          rw [a4, emit_trace, List.count_append, List.count_append, List.count_singleton,
            List.count_singleton]
          simp
        · intro x
          unfold pushes
          rw [a4, emit_trace, List.count_append, List.count_append, List.count_singleton,
            List.count_singleton]
          simp
      · simp only [hn, if_false, Option.some.injEq] at hwa
        subst hwa
        refine ⟨rfl, rfl, hp, ?_, ?_⟩
        · intro x; simp
        · intro x; simp
    obtain ⟨f1, f2, f3, f4, f5⟩ := fa
    simp only at h
    cases h0 : wa.stream.substreams[0]? with
    | none => simp [h0] at h
    | some s0 =>
      simp only [h0] at h
      split at h
      · simp only [Option.some.injEq] at h
        subst h
        refine ⟨?_, ?_, Or.inl ⟨?_, ?_, ?_⟩⟩
        · split <;> simpa using f1
        · intro x; split <;> simp [f4]
        · split <;> simpa using f3
        · split <;> simpa using f2
        · intro x; split <;> simp [f5]
      · unfold delegateBufferBegin at h
        simp only at h
        have hw : ∀ u : World, (if (!decide (b.status = ArvBufferStatus.success)) = true then
            emit (Event.warn_frame_error b.handle) wa else wa) = u →
            u.stream.substreams = w.stream.substreams ∧ u.use_count = w.use_count ∧
            u.producer = none ∧ (∀ x, pops u x = pops w x + if b.handle = x then 1 else 0) ∧
            (∀ x, pushes u x = pushes w x) := by
          intro u hu
          subst hu
          refine ⟨?_, ?_, ?_, ?_, ?_⟩
          · split <;> simpa using f1
          · split <;> simpa using f2
          · split <;> simpa using f3
          · intro x; split <;> simp [f4]
          · intro x; split <;> simp [f5]
        generalize (if (!decide (b.status = ArvBufferStatus.success)) = true then
            emit (Event.warn_frame_error b.handle) wa else wa) = u at h hw
        obtain ⟨g1, g2, g3, g4, g5⟩ := hw u rfl
        clear hw
        have hbegin : ∀ k : Nat,
            (match (emit (Event.call_delegateBuffer b.handle) u).stream.p_buffer_pool with
              | none => none
              | some _ =>
                some { (wrapBuffer b (emit (Event.call_delegateBuffer b.handle) u)).2 with
                  producer := some ⟨b, (wrapBuffer b (emit (Event.call_delegateBuffer b.handle) u)).1,
                    0, k⟩ }) = some w1 →
            w1.stream.substreams = w.stream.substreams ∧
            (∀ x, pops w1 x = pops w x + if b.handle = x then 1 else 0) ∧
            (∃ k, w1.producer = some ⟨b, ⟨b.handle⟩, 0, k⟩ ∧
              (∀ x, w1.use_count x = if x = b.handle then 1 else w.use_count x) ∧
              ∀ x, pushes w1 x = pushes w x) := by
          intro k hk
          split at hk
          · simp at hk
          · simp only [Option.some.injEq] at hk
            subst hk
            refine ⟨g1, ?_, k, rfl, ?_, ?_⟩
            · intro x
              show pops (emit (Event.wrap b.handle) (emit (Event.call_delegateBuffer b.handle) u)) x = _
              simp [g4]
            · intro x
              show (if x = b.handle then 1 else u.use_count x) = _
              rw [g2]
            · intro x
              show pushes (emit (Event.wrap b.handle) (emit (Event.call_delegateBuffer b.handle) u)) x = _
              simp [g5]
        split at h
        · obtain ⟨a, b1, c⟩ := hbegin 1 h
          exact ⟨a, b1, Or.inr c⟩
        · obtain ⟨a, b1, c⟩ := hbegin _ h
          exact ⟨a, b1, Or.inr c⟩
        · simp only [delegateChunkDataBuffer, Option.some.injEq] at h
          subst h
          refine ⟨by simpa using g1, ?_, Or.inl ⟨by simpa using g3, by simpa using g2, ?_⟩⟩
          · intro x; simp [g4]
          · intro x; simp [g5]
        · simp only [Option.some.injEq] at h
          subst h
          refine ⟨by simpa using g1, ?_, Or.inl ⟨by simpa using g3, by simpa using g2, ?_⟩⟩
          · intro x; simp [g4]
          · intro x; simp [g5]

/-! ## Every step keeps the invariant -/

theorem le_sum_map {α : Type} (f : α → Nat) (l : List α) (i : Nat) (a : α)
    (h : l[i]? = some a) : f a ≤ (l.map f).sum := by
  induction l generalizing i with
  | nil => simp at h
  | cons y ys ih =>
    cases i with
    | zero =>
      simp at h
      subst h
      simp only [List.map_cons, List.sum_cons]
      omega
    | succ j =>
      simp at h
      have := ih j h
      simp only [List.map_cons, List.sum_cons]
      omega

theorem holdersSub_le (w : World) (i : Nat) (s : Substream) (h : Nat)
    (hi : w.stream.substreams[i]? = some s) : holdersSub h s ≤ holdersStream w h :=
  le_sum_map (holdersSub h) w.stream.substreams i s hi

theorem holdersStream_congr (w w1 : World) (h : Nat)
    (e : w1.stream.substreams = w.stream.substreams) : holdersStream w1 h = holdersStream w h := by
  unfold holdersStream; rw [e]

theorem holdsImage_le_one (h : Nat) (img : Option ImagePtr) : holdsImage h img ≤ 1 := by
  unfold holdsImage; split <;> omega

/-- A world that differs from `w` in one substream, with the reference counts and the trace
of `u`: it satisfies the invariant when `u` is consistent with the shifted census. -/
theorem inv_of_set (w u w1 : World) (i : Nat) (s s1 : Substream)
    (hi : w.stream.substreams[i]? = some s)
    (hs : w1.stream.substreams = w.stream.substreams.set i s1)
    (hp : producerImage w1 = producerImage w)
    (hu : w1.use_count = u.use_count) (ht : w1.trace = u.trace)
    (hc : Consistent u.use_count u.trace
      (fun h => holders w h + holdersSub h s1 - holdersSub h s)) : Inv w1 := by
  unfold Inv
  rw [hu, ht]
  refine consistent_congr _ _ _ _ ?_ hc
  intro h
  have a := holdersStream_setSubstream w i s s1 h hi
  have b : holdersStream w1 h = holdersStream (setSubstream i s1 w) h :=
    holdersStream_congr _ _ h (by rw [hs]; rfl)
  have c := holdersSub_le w i s h hi
  show holders w h + holdersSub h s1 - holdersSub h s = holders w1 h
  unfold holders
  rw [hp, b]
  omega

theorem inv_deposit (b : ArvBuffer) (msg : ImagePtr) (i : Nat) (w w1 : World)
    (hinv : Inv w) (hpos : 0 < holders w msg.wraps) (hd : deposit b msg i w = some w1) :
    Inv w1 ∧ w1.producer = w.producer := by
  unfold deposit at hd
  cases hs : w.stream.substreams[i]? with
  | none => simp [hs] at hd
  | some s =>
    simp only [hs, Option.some.injEq] at hd
    have cA : ∀ wA : World, (if s.p_buffer.isSome = true then emit (Event.warn_dropped i) w else w) = wA →
        Consistent wA.use_count wA.trace (holders w) ∧ wA.stream = w.stream ∧
        wA.producer = w.producer := by
      intro wA hA
      subst hA
      split
      · exact ⟨consistent_emit _ _ _ _ (by simp) (by simp) hinv, rfl, rfl⟩
      · exact ⟨hinv, rfl, rfl⟩
    generalize (if s.p_buffer.isSome = true then emit (Event.warn_dropped i) w else w) = wA at hd cA
    obtain ⟨c1, c2, c3⟩ := cA wA rfl
    have cB := consistent_copy wA (some msg) _ c1 (by intro p hp; cases hp; exact hpos)
    have hold_le := fun h => holdersSub_le w i s h hs
    have cC := consistent_release (copyImage (some msg) wA) s.p_buffer_image _ cB (by
      intro p hp
      have := hold_le p.wraps
      have e : holdsImage p.wraps s.p_buffer_image = 1 := by
        rw [hp]; simp [holdsImage]
      unfold holders holdersSub at *
      omega)
    subst hd
    refine ⟨?_, by simp [c3]⟩
    refine inv_of_set w (emit (Event.notify i) (releaseImage s.p_buffer_image (copyImage (some msg) wA)))
      _ i s { s with p_buffer := some b, p_buffer_image := some msg } hs (by simp [c2]) (by simp [producerImage, c3]) (by simp) (by simp) ?_
    refine consistent_emit _ _ _ _ (by simp) (by simp) ?_
    refine consistent_congr _ _ _ _ ?_ cC
    intro h
    have := hold_le h
    have t1 := holdsImage_le_one h s.p_buffer_image
    simp only [holdersSub] at *
    omega
theorem inv_threadWake (i : Nat) (w w1 : World) (s : Substream) (hinv : Inv w)
    (hs : w.stream.substreams[i]? = some s) (hw : s.buffer_thread = ThreadState.waiting)
    (hd : threadWake i w = some w1) : Inv w1 := by
  unfold threadWake at hd
  simp only [hs, Option.some.injEq] at hd
  have hold_le := fun h => holdersSub_le w i s h hs
  have hpos : ∀ p, s.p_buffer_image = some p → 0 < holders w p.wraps := by
    intro p hp
    have := hold_le p.wraps
    have e : holdsImage p.wraps s.p_buffer_image = 1 := by
      rw [hp]; simp [holdsImage]
    unfold holders holdersSub at *
    omega
  have cB := consistent_copy w s.p_buffer_image _ hinv hpos
  have cC := consistent_release (copyImage s.p_buffer_image w) s.p_buffer_image _ cB (by
    intro p hp
    have := hpos p hp
    show 0 < holders w p.wraps + holdsImage p.wraps s.p_buffer_image
    omega)
  subst hd
  refine inv_of_set w (releaseImage s.p_buffer_image (copyImage s.p_buffer_image w)) _ i s
    { s with p_buffer := none, p_buffer_image := none,
             buffer_thread := ThreadState.processing s.p_buffer s.p_buffer_image }
    hs (by simp) (by simp [producerImage]) (by simp) (by simp) ?_
  refine consistent_congr _ _ _ _ ?_ cC
  intro h
  simp only [holdersSub, threadImage, hw, holdsImage_none]
  omega

theorem inv_threadDone (i : Nat) (w w1 : World) (hinv : Inv w)
    (hd : threadDone i w = some w1) : Inv w1 := by
  unfold threadDone at hd
  cases hs : w.stream.substreams[i]? with
  | none => simp [hs] at hd
  | some s =>
    simp only [hs] at hd
    cases ht : s.buffer_thread with
    | waiting => simp [ht] at hd
    | finished => simp [ht] at hd
    | processing pb img =>
      simp only [ht, Option.some.injEq] at hd
      have hold_le := fun h => holdersSub_le w i s h hs
      have cC := consistent_release w img _ hinv (by
        intro p hp
        have := hold_le p.wraps
        have e : holdsImage p.wraps (threadImage s.buffer_thread) = 1 := by
          rw [ht, threadImage, hp]; simp [holdsImage]
        unfold holders holdersSub at *
        omega)
      subst hd
      refine inv_of_set w (releaseImage img w) _ i s
        { s with buffer_thread :=
            if s.buffer_thread_stop = true then ThreadState.finished else ThreadState.waiting }
        hs (by simp) (by simp [producerImage]) (by simp) (by simp) ?_
      refine consistent_congr _ _ _ _ ?_ cC
      intro h
      have e : threadImage (if s.buffer_thread_stop = true then ThreadState.finished
          else ThreadState.waiting) = none := by
        split <;> rfl
      have e2 : threadImage s.buffer_thread = img := by rw [ht]; rfl
      have := hold_le h
      simp only [holdersSub, e, e2, holdsImage_none] at *
      omega

/-- Overwriting a substream by one with the same slot reference and the same thread
reference keeps the invariant. -/
theorem inv_setSubstream_same (i : Nat) (w : World) (s s1 : Substream) (hinv : Inv w)
    (hs : w.stream.substreams[i]? = some s)
    (h1 : s1.p_buffer_image = s.p_buffer_image)
    (h2 : threadImage s1.buffer_thread = threadImage s.buffer_thread) :
    Inv (setSubstream i s1 w) := by
  refine inv_of_set w w _ i s s1 hs (by simp) (by simp [producerImage]) (by simp) (by simp) ?_
  refine consistent_congr _ _ _ _ ?_ hinv
  intro h
  simp only [holdersSub, h1, h2]
  omega

theorem inv_routeStep (w w1 : World) (hinv : Inv w) (hd : routeStep w = some w1) : Inv w1 := by
  unfold routeStep at hd
  cases hp : w.producer with
  | none => simp [hp] at hd
  | some r =>
    simp only [hp] at hd
    have hpos : 0 < holders w r.msg_ptr.wraps := by
      unfold holders producerImage
      rw [hp]
      simp [holdsImage]
    split at hd
    · cases hdep : deposit r.p_buffer r.msg_ptr r.i w with
      | none => simp [hdep] at hd
      | some w2 =>
        simp only [hdep, Option.some.injEq] at hd
        obtain ⟨a, b⟩ := inv_deposit _ _ _ _ _ hinv hpos hdep
        subst hd
        unfold Inv at a ⊢
        refine consistent_congr _ _ _ _ ?_ a
        intro h
        unfold holders holdersStream producerImage
        simp [b, hp]
    · simp only [Option.some.injEq] at hd
      have cC := consistent_release w (some r.msg_ptr) _ hinv (by
        intro p e; cases e; exact hpos)
      subst hd
      unfold Inv
      refine consistent_congr _ _ _ _ ?_ cC
      intro h
      show holders w h - holdsImage h (some r.msg_ptr) =
        holdersStream (releaseImage (some r.msg_ptr) w) h + holdsImage h none
      rw [holdersStream_congr w (releaseImage (some r.msg_ptr) w) h (by simp), holdsImage_none]
      unfold holders producerImage
      rw [hp]
      simp
theorem inv_iff (w : World) :
    Inv w ↔ ∀ h, w.use_count h = holders w h ∧
      pops w h = pushes w h + (if holders w h = 0 then 0 else 1) := Iff.rfl

theorem inv_newBufferReadyBegin (popped : Option ArvBuffer) (n : Int) (w w1 : World)
    (hinv : Inv w) (hp : w.producer = none) (ho : hardwareOwns w popped = true)
    (hd : newBufferReadyBegin popped n w = some w1) : Inv w1 := by
  cases popped with
  | none =>
    unfold newBufferReadyBegin at hd
    simp only at hd
    by_cases hn : n = 0
    · simp only [hn, if_true] at hd
      cases ha : allocateBuffers 1 w with
      | none => simp [ha] at hd
      | some wa =>
        simp only [ha, Option.some.injEq] at hd
        subst hd
        obtain ⟨a1, a2, a3, a4, _, _⟩ := allocateBuffers_some _ _ _ ha
        unfold Inv
        rw [a2, a4]
        refine consistent_emit _ _ _ _ (by simp) (by simp) ?_
        refine consistent_congr _ _ _ _ ?_ hinv
        intro h
        unfold holders producerImage
        rw [holdersStream_congr w wa h a1, a3]
    · simp only [hn, if_false, Option.some.injEq] at hd
      subst hd
      exact hinv
  | some b =>
    obtain ⟨e1, e2, e3⟩ := newBufferReadyBegin_some b n w w1 hp hd
    have hown : pops w b.handle = pushes w b.handle := by
      simpa [hardwareOwns] using ho
    have hzero : holders w b.handle = 0 := by
      have := ((inv_iff w).1 hinv b.handle).2
      by_contra hne
      simp only [hne, if_false] at this
      omega
    have hw : ∀ h, holders w h = holdersStream w h := by
      intro h
      unfold holders producerImage
      rw [hp]
      rfl
    rw [inv_iff]
    intro h
    obtain ⟨i1, i2⟩ := (inv_iff w).1 hinv h
    rcases e3 with ⟨p1, p2, p3⟩ | ⟨k, p1, p2, p3⟩
    · have hh : holders w1 h = holders w h := by
        unfold holders producerImage
        rw [holdersStream_congr w w1 h e1, p1, hp]
      rw [hh, p2, e2, p3]
      exact ⟨i1, by omega⟩
    · have hh : holders w1 h = holders w h + if h = b.handle then 1 else 0 := by
        unfold holders producerImage
        rw [holdersStream_congr w w1 h e1, p1, hp]
        simp only [holdsImage_some, holdsImage_none, Nat.add_zero]
      rw [hh, p2, e2, p3]
      by_cases e : h = b.handle
      · subst e
        simp only [if_true]
        rw [hzero] at *
        exact ⟨by omega, by simp; omega⟩
      · have e4 : ¬ b.handle = h := fun x => e x.symm
        simp only [if_neg e, if_neg e4]
        exact ⟨i1, by simpa using i2⟩

theorem inv_step (w w1 : World) (s : Step) (hinv : Inv w) (hd : step w s = some w1) :
    Inv w1 := by
  cases s with
  | callback popped n =>
    simp only [step] at hd
    split at hd
    · rename_i hc
      simp only [Bool.and_eq_true, Option.isNone_iff_eq_none] at hc
      exact inv_newBufferReadyBegin popped n w w1 hinv hc.1 hc.2 hd
    · simp at hd
  | route => exact inv_routeStep w w1 hinv hd
  | wake i =>
    simp only [step] at hd
    cases hs : w.stream.substreams[i]? with
    | none => simp [hs] at hd
    | some s =>
      simp only [hs] at hd
      split at hd
      · rename_i hw
        exact inv_threadWake i w w1 s hinv hs hw hd
      · simp at hd
  | timeout i ros_ok =>
    simp only [step] at hd
    cases hs : w.stream.substreams[i]? with
    | none => simp [hs] at hd
    | some s =>
      simp only [hs] at hd
      split at hd
      · rename_i hw
        simp only [threadTimeout, hs, Option.some.injEq] at hd
        subst hd
        refine inv_setSubstream_same i w s _ hinv hs rfl ?_
        rw [hw]
        show threadImage (if (s.buffer_thread_stop || !ros_ok) = true then ThreadState.finished
          else ThreadState.waiting) = none
        split <;> rfl
      · simp at hd
  | done i => exact inv_threadDone i w w1 hinv hd
  | subscribers i n =>
    simp only [step] at hd
    cases hs : w.stream.substreams[i]? with
    | none => simp [hs] at hd
    | some s =>
      simp only [hs, Option.some.injEq] at hd
      subst hd
      exact inv_setSubstream_same i w s _ hinv hs rfl rfl
  | stop i =>
    simp only [step] at hd
    cases hs : w.stream.substreams[i]? with
    | none => simp [hs] at hd
    | some s =>
      simp only [hs, Option.some.injEq] at hd
      subst hd
      exact inv_setSubstream_same i w s _ hinv hs rfl rfl

theorem inv_run (steps : List Step) (w w1 : World) (hinv : Inv w)
    (hd : run w steps = some w1) : Inv w1 := by
  induction steps generalizing w with
  | nil =>
    simp only [run, Option.some.injEq] at hd
    subst hd
    exact hinv
  | cons s rest ih =>
    simp only [run] at hd
    cases hs : step w s with
    | none => simp [hs] at hd
    | some w2 =>
      simp only [hs] at hd
      exact ih w2 (inv_step w w2 s hinv hs) hd

theorem sum_map_zero {α : Type} (f : α → Nat) (l : List α) (h : ∀ a ∈ l, f a = 0) :
    (l.map f).sum = 0 := by
  induction l with
  | nil => rfl
  | cons y ys ih =>
    simp only [List.map_cons, List.sum_cons]
    rw [h y (List.mem_cons_self _ _), ih (fun a ha => h a (List.mem_cons_of_mem _ ha))]

theorem inv_initialWorld (w : World) (h0 : initialWorld w) : Inv w := by
  obtain ⟨a, b, c, d⟩ := h0
  rw [inv_iff]
  intro h
  have hz : holders w h = 0 := by
    unfold holders producerImage holdersStream
    rw [b, sum_map_zero]
    · rfl
    · intro s hs
      obtain ⟨d1, d2⟩ := d s hs
      simp [holdersSub, d1, d2, threadImage, holdsImage]
  rw [hz, c h]
  simp [pops, pushes, a]

/-! ## The callback as a run of producer steps -/

theorem emit_withProducer (e : Event) (p : Option Routing) (w : World) :
    emit e (withProducer p w) = withProducer p (emit e w) := rfl

theorem copyImage_withProducer (img : Option ImagePtr) (p : Option Routing) (w : World) :
    copyImage img (withProducer p w) = withProducer p (copyImage img w) := by
  cases img <;> rfl

theorem releaseImage_withProducer (img : Option ImagePtr) (p : Option Routing) (w : World) :
    releaseImage img (withProducer p w) = withProducer p (releaseImage img w) := by
  cases img with
  | none => rfl
  | some q =>
    by_cases c : w.use_count q.wraps = 1
    · have c1 : (withProducer p w).use_count q.wraps = 1 := c
      simp only [releaseImage, c, c1, if_true]
      rfl
    · have c1 : ¬ (withProducer p w).use_count q.wraps = 1 := c
      simp only [releaseImage, c, c1, if_false]
      rfl

theorem setSubstream_withProducer (i : Nat) (s : Substream) (p : Option Routing) (w : World) :
    setSubstream i s (withProducer p w) = withProducer p (setSubstream i s w) := rfl

theorem deposit_withProducer (b : ArvBuffer) (m : ImagePtr) (i : Nat) (w : World)
    (p : Option Routing) :
    deposit b m i (withProducer p w) = (deposit b m i w).map (withProducer p) := by
  unfold deposit
  show (match w.stream.substreams[i]? with
    | none => none
    | some substream => _) = _
  cases hs : w.stream.substreams[i]? with
  | none => rfl
  | some s =>
    simp only [Option.map_some', Option.some.injEq]
    cases hb : s.p_buffer.isSome
    · simp only [Bool.false_eq_true, if_false, copyImage_withProducer, releaseImage_withProducer,
        setSubstream_withProducer, emit_withProducer]
    · simp only [if_true, copyImage_withProducer, releaseImage_withProducer,
        setSubstream_withProducer, emit_withProducer]

theorem withProducer_withProducer (p q : Option Routing) (w : World) :
    withProducer p (withProducer q w) = withProducer p w := rfl

theorem withProducer_self (w : World) (p : Option Routing) (h : w.producer = p) :
    withProducer p w = w := by
  subst h; rfl

/-- The routing loop and the end of `delegateBuffer`, run as producer steps: from counter
`i` with `remaining` deposits to go it takes `remaining + 1` steps. -/
theorem run_route (b : ArvBuffer) (m : ImagePtr) (remaining i : Nat) (w : World) :
    run (withProducer (some ⟨b, m, i, i + remaining⟩) w) (List.replicate (remaining + 1) Step.route) =
      (depositLoop b m i remaining w).map
        (fun w1 => withProducer none (releaseImage (some m) w1)) := by
  induction remaining generalizing i w with
  | zero =>
    have e0 : step (withProducer (some ⟨b, m, i, i + 0⟩) w) Step.route =
        some (withProducer none (releaseImage (some m) w)) := by
      simp only [step, routeStep]
      show (if i < i + 0 then _ else _) = _
      rw [if_neg (by omega)]
      show some (withProducer none (releaseImage (some m) (withProducer _ w))) = _
      rw [releaseImage_withProducer, withProducer_withProducer]
    simp only [List.replicate, run, e0, depositLoop, Option.map_some']
  | succ r ih =>
    rw [List.replicate_succ, run]
    have hlt : i < i + (r + 1) := by omega
    have e1 : step (withProducer (some ⟨b, m, i, i + (r + 1)⟩) w) Step.route =
        (deposit b m i w).map (withProducer (some ⟨b, m, i + 1, i + 1 + r⟩)) := by
      simp only [step, routeStep]
      show (if i < i + (r + 1) then _ else _) = _
      rw [if_pos hlt]
      show (match deposit b m i (withProducer _ w) with
        | none => none
        | some w1 => _) = _
      rw [deposit_withProducer]
      cases deposit b m i w with
      | none => rfl
      | some w2 =>
        simp only [Option.map_some', Option.some.injEq]
        show withProducer (some ⟨b, m, i + 1, i + (r + 1)⟩) (withProducer _ w2) = _
        rw [withProducer_withProducer]
        have : i + (r + 1) = i + 1 + r := by omega
        rw [this]
    rw [e1, depositLoop]
    cases deposit b m i w with
    | none => rfl
    | some w2 =>
      simp only [Option.map_some']
      exact ih (i + 1) w2
theorem deposit_keeps_producer (b : ArvBuffer) (m : ImagePtr) (i : Nat) (w w1 : World)
    (hd : deposit b m i w = some w1) : w1.producer = w.producer := by
  unfold deposit at hd
  cases hs : w.stream.substreams[i]? with
  | none => simp [hs] at hd
  | some s =>
    simp only [hs, Option.some.injEq] at hd
    subst hd
    split <;> simp

theorem depositLoop_keeps_producer (b : ArvBuffer) (m : ImagePtr) (remaining i : Nat)
    (w w1 : World) (hd : depositLoop b m i remaining w = some w1) : w1.producer = w.producer := by
  induction remaining generalizing i w with
  | zero =>
    simp only [depositLoop, Option.some.injEq] at hd
    subst hd; rfl
  | succ r ih =>
    rw [depositLoop] at hd
    cases hdep : deposit b m i w with
    | none => simp [hdep] at hd
    | some w2 =>
      simp only [hdep] at hd
      rw [ih (i + 1) w2 hd, deposit_keeps_producer b m i w w2 hdep]

theorem delegateBuffer_eq_run (b : ArvBuffer) (w : World) (hp : w.producer = none) :
    delegateBuffer b w =
      match delegateBufferBegin b w with
      | none => none
      | some w1 => finishRouting w1 := by
  have hN : ∀ k : Nat, delegateBufferN b k (emit (Event.call_delegateBuffer b.handle) w) =
      match (match (emit (Event.call_delegateBuffer b.handle) w).stream.p_buffer_pool with
        | none => none
        | some _ =>
          some { (wrapBuffer b (emit (Event.call_delegateBuffer b.handle) w)).2 with
            producer := some ⟨b, (wrapBuffer b (emit (Event.call_delegateBuffer b.handle) w)).1,
              0, k⟩ }) with
      | none => none
      | some w1 => finishRouting w1 := by
    intro k
    unfold delegateBufferN
    cases (emit (Event.call_delegateBuffer b.handle) w).stream.p_buffer_pool with
    | none => rfl
    | some pool =>
      simp only
      generalize hu : (wrapBuffer b (emit (Event.call_delegateBuffer b.handle) w)).2 = u
      generalize (wrapBuffer b (emit (Event.call_delegateBuffer b.handle) w)).1 = m
      have hup : u.producer = none := by
        rw [← hu]; simpa [wrapBuffer] using hp
      have hr := run_route b m k 0 u
      rw [Nat.zero_add] at hr
      show _ = run (withProducer (some ⟨b, m, 0, k⟩) u) (List.replicate (k + 1) Step.route)
      rw [hr]
      cases hl : depositLoop b m 0 k u with
      | none => rfl
      | some w2 =>
        simp only [Option.map_some', Option.some.injEq]
        rw [withProducer_self]
        rw [releaseImage_producer, depositLoop_keeps_producer b m k 0 u w2 hl, hup]
  unfold delegateBuffer delegateBufferBegin
  simp only
  cases b.payload_type with
  | image => exact hN 1
  | multipart => exact hN b.n_parts
  | chunk_data =>
    simp only [delegateChunkDataBuffer, finishRouting, emit_producer, hp]
  | other code =>
    simp only [finishRouting, emit_producer, hp]
/-- The function `newBufferReady` is the first half of the callback followed by the producer
steps of the routing loop: the interleaved runs contain every execution of the callback. -/
theorem newBufferReady_eq_run (popped : Option ArvBuffer) (n : Int) (w : World)
    (hp : w.producer = none) :
    newBufferReady popped n w =
      match newBufferReadyBegin popped n w with
      | none => none
      | some w1 => finishRouting w1 := by
  unfold newBufferReady newBufferReadyBegin
  simp only
  have hw0 : (match popped with
      | none => w
      | some b => emit (Event.pop b.handle) w).producer = none := by
    cases popped <;> simpa using hp
  generalize (match popped with
      | none => w
      | some b => emit (Event.pop b.handle) w) = w0 at hw0
  have hoa : ∀ wa, (if n = 0 then allocateBuffers 1 w0 else some w0) = some wa →
      wa.producer = none := by
    intro wa h
    by_cases hn : n = 0
    · simp only [hn, if_true] at h
      rw [(allocateBuffers_some _ _ _ h).2.2.1, hw0]
    · simp only [hn, if_false, Option.some.injEq] at h
      rw [← h, hw0]
  generalize (if n = 0 then allocateBuffers 1 w0 else some w0) = oa at hoa
  cases oa with
  | none => rfl
  | some wa =>
    have hwa := hoa wa rfl
    simp only
    cases popped with
    | none => simp only [finishRouting, hwa]
    | some b =>
      simp only
      cases wa.stream.substreams[0]? with
      | none => rfl
      | some s0 =>
        simp only
        have hu : (if (!decide (b.status = ArvBufferStatus.success)) = true then
            emit (Event.warn_frame_error b.handle) wa else wa).producer = none := by
          split <;> simpa using hwa
        generalize (if (!decide (b.status = ArvBufferStatus.success)) = true then
            emit (Event.warn_frame_error b.handle) wa else wa) = u at hu
        split
        · simp only [finishRouting, emit_producer, hu]
        · exact delegateBuffer_eq_run b u hu

/-! ## The callback as a function -/

/-- The callback up to its test: when it does not run into undefined behaviour (the stream
has a substream, and a pool if a buffer is to be allocated) it reaches the test in a world
`u` that differs from `w` in the trace and in the size of the pool only, and continues with
the push or with `delegateBuffer`. -/
theorem newBufferReady_guard (b : ArvBuffer) (n : Int) (w : World)
    (hN : w.stream.substreams ≠ [])
    (hpool : n = 0 → w.stream.p_buffer_pool.isSome = true) :
    ∃ u : World,
      u.stream.substreams = w.stream.substreams ∧ u.use_count = w.use_count ∧
      u.producer = w.producer ∧
      u.stream.p_buffer_pool.isSome = w.stream.p_buffer_pool.isSome ∧
      u.trace = w.trace ++ [Event.pop b.handle] ++ (if n = 0 then [Event.allocate 1] else []) ++
        (if b.status = ArvBufferStatus.success then [] else [Event.warn_frame_error b.handle]) ∧
      newBufferReady (some b) n w =
        if sendsBack b w = true then some (emit (Event.push b.handle) u) else delegateBuffer b u := by
  have hwa : ∃ wa : World, (if n = 0 then allocateBuffers 1 (emit (Event.pop b.handle) w)
        else some (emit (Event.pop b.handle) w)) = some wa ∧
      wa.stream.substreams = w.stream.substreams ∧ wa.use_count = w.use_count ∧
      wa.producer = w.producer ∧
      wa.stream.p_buffer_pool.isSome = w.stream.p_buffer_pool.isSome ∧
      wa.trace = w.trace ++ [Event.pop b.handle] ++ (if n = 0 then [Event.allocate 1] else []) := by
    by_cases hn : n = 0
    · have hp := hpool hn
      cases hpo : w.stream.p_buffer_pool with
      | none => simp [hpo] at hp
      | some pool =>
        refine ⟨emit (Event.allocate 1)
          { emit (Event.pop b.handle) w with
            stream := { w.stream with
              p_buffer_pool := some { pool with n_buffers := pool.n_buffers + 1 } } }, ?_, ?_⟩
        · simp only [hn, if_true, allocateBuffers, emit_stream, hpo]
        · simp [hn]
    · exact ⟨emit (Event.pop b.handle) w, by simp only [hn, if_false], by simp [hn]⟩
  obtain ⟨wa, a0, a1, a2, a3, a4, a5⟩ := hwa
  obtain ⟨s0, hs0⟩ : ∃ s0, wa.stream.substreams[0]? = some s0 := by
    rw [a1]
    cases hl : w.stream.substreams with
    | nil => exact absurd hl hN
    | cons x xs => exact ⟨x, by simp⟩
  refine ⟨if (!decide (b.status = ArvBufferStatus.success)) = true then
      emit (Event.warn_frame_error b.handle) wa else wa, ?_, ?_, ?_, ?_, ?_, ?_⟩
  · split <;> simpa using a1
  · split <;> simpa using a2
  · split <;> simpa using a3
  · split <;> simpa using a4
  · by_cases hs : b.status = ArvBufferStatus.success
    · simp [hs, a5]
    · simp [hs, a5]
  · unfold newBufferReady
    simp only [a0, hs0]
    have hg : (!decide (b.status = ArvBufferStatus.success) || !wa.stream.p_buffer_pool.isSome ||
        !hasSubscribers wa.stream) = sendsBack b w := by
      unfold sendsBack hasSubscribers
      rw [a4, a1]
    rw [hg]
/-- The two branches of `delegateBuffer` that do not deposit: the buffer is pushed once and
an error is logged, nothing else happens. -/
theorem delegateBuffer_not_routed (b : ArvBuffer) (w : World)
    (h : isImageOrMultipart b = false) :
    ∃ w1, delegateBuffer b w = some w1 ∧ w1.stream = w.stream ∧ w1.use_count = w.use_count ∧
      w1.producer = w.producer ∧
      (w1.trace = w.trace ++ [Event.call_delegateBuffer b.handle,
          Event.error_chunk_not_implemented, Event.push b.handle] ∨
       w1.trace = w.trace ++ [Event.call_delegateBuffer b.handle, Event.push b.handle,
          Event.error_unsupported b.payload_type]) := by
  unfold isImageOrMultipart at h
  unfold delegateBuffer
  cases hp : b.payload_type with
  | image => simp [hp] at h
  | multipart => simp [hp] at h
  | chunk_data =>
    exact ⟨_, rfl, rfl, rfl, rfl, Or.inl (by simp [emit])⟩
  | other code =>
    exact ⟨_, rfl, rfl, rfl, rfl, Or.inr (by simp [emit])⟩

theorem count_append_single (a e : Event) (l : List Event) :
    List.count a (l ++ [e]) = List.count a l + if e = a then 1 else 0 := by
  rw [List.count_append, List.count_singleton]
  simp

/-- A popped buffer that is not routed goes back in the same callback: one pop, one push,
no wrap, and neither the substreams nor the reference counts change. -/
theorem newBufferReady_not_routed (b : ArvBuffer) (n : Int) (w : World)
    (hN : w.stream.substreams ≠ [])
    (hpool : n = 0 → w.stream.p_buffer_pool.isSome = true)
    (hr : isRouted b w = false) :
    ∃ w1, newBufferReady (some b) n w = some w1 ∧
      w1.stream.substreams = w.stream.substreams ∧ w1.use_count = w.use_count ∧
      w1.producer = w.producer ∧
      (∀ x, pops w1 x = pops w x + if b.handle = x then 1 else 0) ∧
      (∀ x, pushes w1 x = pushes w x + if b.handle = x then 1 else 0) ∧
      (∀ x, w1.trace.count (Event.wrap x) = w.trace.count (Event.wrap x)) ∧
      (∀ x, w1.trace.count (Event.notify x) = w.trace.count (Event.notify x)) := by
  obtain ⟨u, u1, u2, u3, u4, u5, u6⟩ := newBufferReady_guard b n w hN hpool
  have cu : ∀ a : Event, (∀ x, a ≠ Event.allocate x) → (∀ x, a ≠ Event.warn_frame_error x) →
      u.trace.count a = w.trace.count a + if Event.pop b.handle = a then 1 else 0 := by
    intro a h1 h2
    have hA : List.count a (if n = 0 then [Event.allocate 1] else []) = 0 := by
      split
      · exact count_single_ne _ _ (fun e => h1 1 e.symm)
      · rfl
    have hB : List.count a (if b.status = ArvBufferStatus.success then []
        else [Event.warn_frame_error b.handle]) = 0 := by
      split
      · rfl
      · exact count_single_ne _ _ (fun e => h2 _ e.symm)
    rw [u5, List.count_append, List.count_append, hA, hB, count_append_single]
    rfl
  have hpu : ∀ x, pops u x = pops w x + if b.handle = x then 1 else 0 := by
    intro x
    unfold pops
    rw [cu (Event.pop x) (by simp) (by simp)]
    simp
  have hqu : ∀ x, pushes u x = pushes w x := by
    intro x
    unfold pushes
    rw [cu (Event.push x) (by simp) (by simp)]
    simp
  have hwu : ∀ x, u.trace.count (Event.wrap x) = w.trace.count (Event.wrap x) := by
    intro x
    rw [cu (Event.wrap x) (by simp) (by simp)]
    simp
  have hnu : ∀ x, u.trace.count (Event.notify x) = w.trace.count (Event.notify x) := by
    intro x
    rw [cu (Event.notify x) (by simp) (by simp)]
    simp
  by_cases hsb : sendsBack b w = true
  · rw [if_pos hsb] at u6
    refine ⟨_, u6, by simpa using u1, by simpa using u2, by simpa using u3, ?_, ?_, ?_, ?_⟩
    · intro x; simp [hpu]
    · intro x; simp [hqu]
    · intro x; simp [count_append_single, hwu]
    · intro x; simp [count_append_single, hnu]
  · rw [if_neg hsb] at u6
    have hio : isImageOrMultipart b = false := by
      unfold isRouted at hr
      cases hi : isImageOrMultipart b with
      | false => rfl
      | true =>
        rw [hi] at hr
        simp at hr
        exact absurd hr hsb
    obtain ⟨w1, d0, d1, d2, d3, d4⟩ := delegateBuffer_not_routed b u hio
    have ct : ∀ a : Event, (∀ x, a ≠ Event.call_delegateBuffer x) →
        a ≠ Event.error_chunk_not_implemented → (∀ x, a ≠ Event.error_unsupported x) →
        w1.trace.count a = u.trace.count a + if Event.push b.handle = a then 1 else 0 := by
      intro a h1 h2 h3
      have n1 : ¬ Event.call_delegateBuffer b.handle = a := fun e => h1 _ e.symm
      have n2 : ¬ Event.error_chunk_not_implemented = a := fun e => h2 e.symm
      have n3 : ¬ Event.error_unsupported b.payload_type = a := fun e => h3 _ e.symm
      rcases d4 with d4 | d4
      · rw [d4, List.count_append, List.count_cons, List.count_cons, List.count_singleton]
        simp [n1, n2]
      · rw [d4, List.count_append, List.count_cons, List.count_cons, List.count_singleton]
        simp [n1, n3]
    refine ⟨w1, by rw [u6, d0], by rw [d1, u1], by rw [d2, u2], by rw [d3, u3], ?_, ?_, ?_, ?_⟩
    · intro x
      unfold pops
      rw [ct (Event.pop x) (by simp) (by simp) (by simp)]
      simpa [pops] using hpu x
    · intro x
      unfold pushes
      rw [ct (Event.push x) (by simp) (by simp) (by simp)]
      simpa [pushes] using hqu x
    · intro x
      rw [ct (Event.wrap x) (by simp) (by simp) (by simp)]
      simpa using hwu x
    · intro x
      rw [ct (Event.notify x) (by simp) (by simp) (by simp)]
      simpa using hnu x

/-! ## C1: every buffer goes back to the hardware exactly once -/

/-- The count of C1 on the runs whose behaviour is defined. In every such run of the callback
and the substream threads that starts with empty mailboxes (the callback being the run of
producer steps of `newBufferReady_eq_run`), at
every point of the run and for every buffer handle `h`: the buffer was pushed
back at most once per pop (never more often than it was popped, and it is popped again only
after it went back), and it has gone back exactly when no reference to its wrapped image
is left, in particular as soon as the callback has returned and no mailbox slot and no
substream thread holds one. A popped buffer that is not routed (bad status, no pool, no
subscriber, chunk or unknown payload) is pushed back once inside the same callback, which
wraps nothing and leaves mailboxes and reference counts alone. -/
theorem buffer_returned_exactly_once (w0 : World) (steps : List Step) (w : World)
    (h0 : initialWorld w0) (hrun : run w0 steps = some w) :
    (∀ h, pushes w h ≤ pops w h ∧ pops w h ≤ pushes w h + 1 ∧
        (pushes w h = pops w h ↔ holders w h = 0) ∧
        (w.producer = none → holdersStream w h = 0 → pushes w h = pops w h)) ∧
    (∀ (b : ArvBuffer) (n : Int), isRouted b w = false → w.stream.substreams ≠ [] →
        (n = 0 → w.stream.p_buffer_pool.isSome = true) →
        ∃ w1, newBufferReady (some b) n w = some w1 ∧
          pops w1 b.handle = pops w b.handle + 1 ∧
          pushes w1 b.handle = pushes w b.handle + 1 ∧
          (∀ x, w1.trace.count (Event.wrap x) = w.trace.count (Event.wrap x)) ∧
          w1.stream.substreams = w.stream.substreams ∧ w1.use_count = w.use_count) := by
  have hinv := inv_run steps w0 w (inv_initialWorld w0 h0) hrun
  refine ⟨?_, ?_⟩
  · intro h
    obtain ⟨_, i2⟩ := (inv_iff w).1 hinv h
    have hiff : pushes w h = pops w h ↔ holders w h = 0 := by
      by_cases hz : holders w h = 0
      · simp only [hz, if_true] at i2
        exact ⟨fun _ => hz, fun _ => by omega⟩
      · simp only [hz, if_false] at i2
        exact ⟨fun e => by omega, fun e => absurd e hz⟩
    refine ⟨by split at i2 <;> omega, by split at i2 <;> omega, hiff, ?_⟩
    intro hp hs
    apply hiff.2
    unfold holders producerImage
    rw [hp, hs]
    rfl
  · intro b n hr hN hpool
    obtain ⟨w1, a0, a1, a2, _, a4, a5, a6, _⟩ := newBufferReady_not_routed b n w hN hpool hr
    refine ⟨w1, a0, ?_, ?_, a6, a1, a2⟩
    · rw [a4]; simp
    · rw [a5]; simp

theorem buffer_returned_exactly_once_witness :
    initialWorld exampleWorld ∧ run exampleWorld exampleRun = some exampleFinal ∧
    holders exampleFinal 1 = 0 ∧ pops exampleFinal 1 = 2 ∧ pushes exampleFinal 1 = 2 ∧
    pushes exampleFinal 2 = 1 ∧ pushes exampleFinal 3 = 1 := by
  have h0 : initialWorld exampleWorld := by
    refine ⟨rfl, rfl, fun _ => rfl, ?_⟩
    intro s hs
    simp [exampleWorld] at hs
    rcases hs with hs | hs <;> subst hs <;> exact ⟨rfl, rfl⟩
  have hr : run exampleWorld exampleRun = some exampleFinal := by rfl
  have t := buffer_returned_exactly_once exampleWorld exampleRun exampleFinal h0 hr
  have p1 : pops exampleFinal 1 = 2 := by rfl
  have z1 : holders exampleFinal 1 = 0 := by rfl
  have z2 : holders exampleFinal 2 = 0 := by rfl
  have z3 : holders exampleFinal 3 = 0 := by rfl
  have p2 : pops exampleFinal 2 = 1 := by rfl
  have p3 : pops exampleFinal 3 = 1 := by rfl
  refine ⟨h0, hr, z1, p1, ?_, ?_, ?_⟩
  · rw [((t.1 1).2.2.1).2 z1, p1]
  · rw [((t.1 2).2.2.1).2 z2, p2]
  · rw [((t.1 3).2.2.1).2 z3, p3]

/-- C1 fails on the code: in the default configuration (one unnamed substream, with a
subscriber) the callback pops a multipart buffer with two parts; the loop of
`delegateBuffer` deposits part 0 and then indexes `substreams[1]`, which does not exist.
The behaviour is undefined from there on: the run has no world in which the buffer could
have gone back. -/
theorem callback_with_more_parts_than_substreams_is_undefined :
    initialWorld exampleSingle ∧ exampleSingle.stream.substreams.length = 1 ∧
    (exampleMultipart 1).n_parts = 2 ∧
    (run exampleSingle [Step.callback (some (exampleMultipart 1)) 3, Step.route]).map
      (fun w => (deposits w.trace, pops w 1, pushes w 1)) = some ([0], 1, 0) ∧
    run exampleSingle [Step.callback (some (exampleMultipart 1)) 3, Step.route, Step.route] =
      none ∧
    newBufferReady (some (exampleMultipart 1)) 3 exampleSingle = none := by
  refine ⟨⟨rfl, rfl, fun _ => rfl, ?_⟩, rfl, rfl, by rfl, by rfl, by rfl⟩
  intro s hs
  simp only [exampleSingle, List.mem_singleton] at hs
  subst hs
  exact ⟨rfl, rfl⟩

/-! ## The deposit and the routing loop -/

theorem deposits_append (l1 l2 : List Event) : deposits (l1 ++ l2) = deposits l1 ++ deposits l2 := by
  induction l1 with
  | nil => rfl
  | cons e rest ih =>
    cases e <;> simp [deposits, ih]

theorem deposits_of_dropOrPush (l : List Event) (h : ∀ e ∈ l, isDropOrPush e = true) :
    deposits l = [] := by
  induction l with
  | nil => rfl
  | cons e rest ih =>
    have he := h e (List.mem_cons_self _ _)
    have hr := ih (fun a ha => h a (List.mem_cons_of_mem _ ha))
    cases e <;> simp [isDropOrPush] at he <;> simp [deposits, hr]

theorem releaseImage_trace (img : Option ImagePtr) (w : World) :
    (releaseImage img w).trace = w.trace ++
      (match img with
        | none => []
        | some p => if w.use_count p.wraps = 1 then [Event.push p.wraps] else []) := by
  cases img with
  | none => simp [releaseImage]
  | some p =>
    simp only [releaseImage]
    split <;> simp

theorem releaseImage_use_count (img : Option ImagePtr) (w : World) (x : Nat) :
    (releaseImage img w).use_count x = w.use_count x - holdsImage x img := by
  cases img with
  | none => simp [releaseImage, holdsImage_none]
  | some p =>
    simp only [releaseImage, holdsImage_some]
    split <;> (simp only [emit_use_count]; split <;> simp)

theorem copyImage_use_count (img : Option ImagePtr) (w : World) (x : Nat) :
    (copyImage img w).use_count x = w.use_count x + holdsImage x img := by
  cases img with
  | none => simp [copyImage, holdsImage_none]
  | some p =>
    simp only [copyImage, holdsImage_some]
    split <;> simp

/-- What one deposit does: it is defined for every existing substream whatever its slot
holds, writes the new pair into the slot of substream `i` and nothing else into the stream,
takes one reference to the new image and gives up the one the slot held, and logs the drop
warning (when the slot's pointer was set), the push of a buffer whose last reference it gave
up, and the notification. -/
theorem deposit_spec (b : ArvBuffer) (m : ImagePtr) (i : Nat) (w : World) (s : Substream)
    (hs : w.stream.substreams[i]? = some s) :
    ∃ w1 ext, deposit b m i w = some w1 ∧
      w1.stream.substreams =
        w.stream.substreams.set i { s with p_buffer := some b, p_buffer_image := some m } ∧
      w1.stream.p_buffer_pool = w.stream.p_buffer_pool ∧
      w1.producer = w.producer ∧
      (∀ x, w1.use_count x = w.use_count x + holdsImage x (some m) - holdsImage x s.p_buffer_image) ∧
      w1.trace = w.trace ++ ext ++ [Event.notify i] ∧
      (∀ e ∈ ext, isDropOrPush e = true) ∧
      (∀ j, ext.count (Event.warn_dropped j) =
        if j = i ∧ s.p_buffer.isSome = true then 1 else 0) := by
  unfold deposit
  simp only [hs]
  generalize hA : (if s.p_buffer.isSome = true then emit (Event.warn_dropped i) w else w) = wA
  have a1 : wA.stream = w.stream := by subst hA; split <;> rfl
  have a2 : wA.producer = w.producer := by subst hA; split <;> rfl
  have a3 : wA.use_count = w.use_count := by subst hA; split <;> rfl
  have a4 : wA.trace = w.trace ++ (if s.p_buffer.isSome = true then [Event.warn_dropped i] else []) := by
    subst hA; split <;> simp
  generalize hP : (match s.p_buffer_image with
      | none => []
      | some p =>
        if (copyImage (some m) wA).use_count p.wraps = 1 then [Event.push p.wraps] else []) = pe
  have p1 : ∀ e ∈ pe, ∃ h, e = Event.push h := by
    intro e he
    subst hP
    cases hi : s.p_buffer_image with
    | none => simp [hi] at he
    | some p =>
      simp only [hi] at he
      by_cases c : (copyImage (some m) wA).use_count p.wraps = 1
      · simp only [c, if_true, List.mem_singleton] at he
        exact ⟨_, he⟩
      · simp [c] at he
  refine ⟨_, (if s.p_buffer.isSome = true then [Event.warn_dropped i] else []) ++ pe,
    rfl, ?_, ?_, ?_, ?_, ?_, ?_, ?_⟩
  · simp only [emit_stream, setSubstream_substreams, releaseImage_stream, copyImage_stream, a1]
  · simp only [emit_stream, setSubstream_pool, releaseImage_stream, copyImage_stream, a1]
  · simp only [emit_producer, setSubstream_producer, releaseImage_producer, copyImage_producer, a2]
  · intro x
    simp only [emit_use_count, setSubstream_use_count, releaseImage_use_count,
      copyImage_use_count, a3]
  · simp only [emit_trace, setSubstream_trace, releaseImage_trace, copyImage_trace, a4, hP,
      List.append_assoc]
  · intro e he
    simp only [List.mem_append] at he
    rcases he with he | he
    · by_cases hb : s.p_buffer.isSome = true
      · simp only [hb, if_true, List.mem_singleton] at he
        subst he; rfl
      · simp [hb] at he
    · obtain ⟨h, hh⟩ := p1 e he
      subst hh; rfl
  · intro j
    rw [List.count_append]
    have h2 : List.count (Event.warn_dropped j) pe = 0 := by
      apply List.count_eq_zero_of_not_mem
      intro hm
      obtain ⟨h, hh⟩ := p1 _ hm
      simp at hh
    rw [h2]
    by_cases hb : s.p_buffer.isSome = true
    · by_cases hj : j = i
      · subst hj; simp [hb]
      · have : ¬ i = j := fun e => hj e.symm
        simp [hb, hj, this]
    · simp [hb]
theorem getElem?_set_other {α : Type} (l : List α) (i j : Nat) (a : α) (h : i ≠ j) :
    (l.set i a)[j]? = l[j]? := by
  induction l generalizing i j with
  | nil => simp
  | cons y ys ih =>
    cases i with
    | zero =>
      cases j with
      | zero => exact absurd rfl h
      | succ k => simp
    | succ i1 =>
      cases j with
      | zero => simp
      | succ k =>
        simp only [List.set_cons_succ, List.getElem?_cons_succ]
        exact ih i1 k (fun e => h (by rw [e]))

theorem getElem?_set_same {α : Type} (l : List α) (i : Nat) (a b : α) (h : l[i]? = some b) :
    (l.set i a)[i]? = some a := by
  induction l generalizing i with
  | nil => simp at h
  | cons y ys ih =>
    cases i with
    | zero => simp
    | succ i1 =>
      simp only [List.set_cons_succ, List.getElem?_cons_succ] at h ⊢
      exact ih i1 h

theorem getElem?_of_lt {α : Type} (l : List α) (i : Nat) (h : i < l.length) :
    ∃ a, l[i]? = some a := by
  induction l generalizing i with
  | nil => simp at h
  | cons y ys ih =>
    cases i with
    | zero => exact ⟨y, by simp⟩
    | succ i1 =>
      simp only [List.length_cons, Nat.add_lt_add_iff_right] at h
      simpa using ih i1 h

/-- What the routing loop does from counter `i` for `remaining` iterations, when the
substreams `i .. i + remaining - 1` exist: it deposits the pair into exactly these
mailboxes, in increasing order, and leaves every other substream as it was. -/
theorem depositLoop_spec (b : ArvBuffer) (m : ImagePtr) (remaining i : Nat) (w : World)
    (hle : i + remaining ≤ w.stream.substreams.length) :
    ∃ w1 ext, depositLoop b m i remaining w = some w1 ∧
      w1.stream.substreams.length = w.stream.substreams.length ∧
      w1.stream.p_buffer_pool = w.stream.p_buffer_pool ∧
      w1.producer = w.producer ∧
      (∀ j, i ≤ j → j < i + remaining → ∃ s, w.stream.substreams[j]? = some s ∧
        w1.stream.substreams[j]? = some { s with p_buffer := some b, p_buffer_image := some m }) ∧
      (∀ j, (j < i ∨ i + remaining ≤ j) → w1.stream.substreams[j]? = w.stream.substreams[j]?) ∧
      w1.trace = w.trace ++ ext ∧ deposits ext = List.range' i remaining ∧
      (∀ e ∈ ext, isDropOrPush e = true ∨ ∃ j, e = Event.notify j) := by
  induction remaining generalizing i w with
  | zero =>
    refine ⟨w, [], rfl, rfl, rfl, rfl, ?_, ?_, by simp, rfl, by simp⟩
    · intro j h1 h2; omega
    · intro j _; rfl
  | succ r ih =>
    obtain ⟨s, hs⟩ := getElem?_of_lt w.stream.substreams i (by omega)
    obtain ⟨w2, ext1, d0, d1, d2, d3, _, d5, d6, _⟩ := deposit_spec b m i w s hs
    have hlen : w2.stream.substreams.length = w.stream.substreams.length := by
      rw [d1, List.length_set]
    obtain ⟨w1, ext2, e0, e1, e2, e3, e4, e5, e6, e7, e8⟩ := ih (i + 1) w2 (by rw [hlen]; omega)
    refine ⟨w1, ext1 ++ [Event.notify i] ++ ext2, ?_, by rw [e1, hlen], by rw [e2, d2],
      by rw [e3, d3], ?_, ?_, ?_, ?_, ?_⟩
    · rw [depositLoop, d0]
      exact e0
    · intro j h1 h2
      by_cases hj : j = i
      · subst hj
        refine ⟨s, hs, ?_⟩
        rw [e5 j (Or.inl (by omega)), d1]
        exact getElem?_set_same _ _ _ _ hs
      · obtain ⟨s2, f1, f2⟩ := e4 j (by omega) (by omega)
        refine ⟨s2, ?_, f2⟩
        rw [← f1, d1]
        exact (getElem?_set_other _ _ _ _ (fun e => hj e.symm)).symm
    · intro j hj
      rw [e5 j (by omega), d1]
      exact getElem?_set_other _ _ _ _ (by omega)
    · rw [e6, d5]
      simp only [List.append_assoc]
    · rw [deposits_append, deposits_append, deposits_of_dropOrPush ext1 d6, e7]
      rfl
    · intro e he
      simp only [List.mem_append, List.mem_singleton] at he
      rcases he with (he | he) | he
      · exact Or.inl (d6 e he)
      · exact Or.inr ⟨i, he⟩
      · exact e8 e he
theorem count_of_dropOrPush_or_notify (l : List Event) (a : Event)
    (h : ∀ e ∈ l, isDropOrPush e = true ∨ ∃ j, e = Event.notify j)
    (ha : isDropOrPush a = false) (hn : ∀ j, a ≠ Event.notify j) : l.count a = 0 := by
  apply List.count_eq_zero_of_not_mem
  intro hm
  rcases h a hm with h1 | ⟨j, h1⟩
  · rw [h1] at ha; simp at ha
  · exact hn j h1

/-- What `delegateBuffer(p_buffer, stream_id, substreams)` does when the stream has its pool
and at least `k` substreams: one wrap, then the deposits into the mailboxes `0 .. k - 1` in
this order, every other substream untouched. -/
theorem delegateBufferN_spec (b : ArvBuffer) (k : Nat) (w : World)
    (hk : k ≤ w.stream.substreams.length) (hpool : w.stream.p_buffer_pool.isSome = true) :
    ∃ w1 ext, delegateBufferN b k w = some w1 ∧
      w1.stream.substreams.length = w.stream.substreams.length ∧
      w1.stream.p_buffer_pool = w.stream.p_buffer_pool ∧
      (∀ j, j < k → ∃ s, w.stream.substreams[j]? = some s ∧
        w1.stream.substreams[j]? =
          some { s with p_buffer := some b, p_buffer_image := some ⟨b.handle⟩ }) ∧
      (∀ j, k ≤ j → w1.stream.substreams[j]? = w.stream.substreams[j]?) ∧
      w1.trace = w.trace ++ [Event.wrap b.handle] ++ ext ∧ deposits ext = List.range k ∧
      (∀ e ∈ ext, isDropOrPush e = true ∨ ∃ j, e = Event.notify j) := by
  unfold delegateBufferN
  cases hp : w.stream.p_buffer_pool with
  | none => simp [hp] at hpool
  | some pool =>
    simp only
    have hw : (wrapBuffer b w).2.stream = w.stream := rfl
    have ht : (wrapBuffer b w).2.trace = w.trace ++ [Event.wrap b.handle] := rfl
    have hm : (wrapBuffer b w).1 = ⟨b.handle⟩ := rfl
    obtain ⟨w1, ext, e0, e1, e2, _, e4, e5, e6, e7, e8⟩ :=
      depositLoop_spec b (wrapBuffer b w).1 k 0 (wrapBuffer b w).2 (by rw [hw]; omega)
    rw [hw] at e1 e2 e4 e5
    rw [ht] at e6
    rw [e0]
    refine ⟨_, ext ++ (if w1.use_count (wrapBuffer b w).1.wraps = 1 then
      [Event.push (wrapBuffer b w).1.wraps] else []), rfl, by simpa using e1,
      by simpa [hp] using e2, ?_, ?_, ?_, ?_, ?_⟩
    · intro j hj
      obtain ⟨s, f1, f2⟩ := e4 j (by omega) (by omega)
      exact ⟨s, f1, by simpa [hm] using f2⟩
    · intro j hj
      simpa using e5 j (Or.inr (by omega))
    · rw [releaseImage_trace, e6]
      simp only [List.append_assoc]
    · rw [deposits_append, e7, List.range_eq_range']
      have : deposits (if w1.use_count (wrapBuffer b w).1.wraps = 1 then
          [Event.push (wrapBuffer b w).1.wraps] else []) = [] := by
        split <;> rfl
      rw [this, List.append_nil]
    · intro e he
      simp only [List.mem_append] at he
      rcases he with he | he
      · exact e8 e he
      · split at he
        · simp only [List.mem_singleton] at he
          subst he
          exact Or.inl rfl
        · simp at he

/-! ## C2, C3, C4: the router -/

/-- C2. For a multipart buffer with `K` parts on a stream that has its pool and at least `K`
substreams, `delegateBuffer` returns, wraps the buffer exactly once (and nothing else), and
performs exactly `K` deposits, into the mailboxes `0, 1, .., K - 1` in this order; afterwards
each of these mailboxes holds this buffer and the one wrapped image, every other field of
these substreams is as before, and the substreams with index `K` or more are unchanged. -/
theorem delegateBuffer_multipart_fans_out (b : ArvBuffer) (w : World)
    (hm : b.payload_type = ArvBufferPayloadType.multipart)
    (hK : b.n_parts ≤ w.stream.substreams.length)
    (hpool : w.stream.p_buffer_pool.isSome = true) :
    ∃ w1, delegateBuffer b w = some w1 ∧
      (∀ x, w1.trace.count (Event.wrap x) =
        w.trace.count (Event.wrap x) + if x = b.handle then 1 else 0) ∧
      deposits w1.trace = deposits w.trace ++ List.range b.n_parts ∧
      w1.stream.substreams.length = w.stream.substreams.length ∧
      (∀ j, j < b.n_parts → ∃ s, w.stream.substreams[j]? = some s ∧
        w1.stream.substreams[j]? =
          some { s with p_buffer := some b, p_buffer_image := some ⟨b.handle⟩ }) ∧
      (∀ j, b.n_parts ≤ j → w1.stream.substreams[j]? = w.stream.substreams[j]?) := by
  obtain ⟨w1, ext, e0, e1, _, e3, e4, e5, e6, e7⟩ :=
    delegateBufferN_spec b b.n_parts (emit (Event.call_delegateBuffer b.handle) w) hK hpool
  refine ⟨w1, ?_, ?_, ?_, e1, e3, e4⟩
  · unfold delegateBuffer
    simp only [hm]
    exact e0
  · intro x
    rw [e5, emit_trace, List.count_append, List.count_append, List.count_append,
      count_of_dropOrPush_or_notify ext (Event.wrap x) e7 rfl (by simp), List.count_singleton,
      List.count_singleton]
    by_cases hx : x = b.handle
    · subst hx; simp
    · have : ¬ b.handle = x := fun e => hx e.symm
      simp [hx, this]
  · rw [e5, emit_trace, deposits_append, deposits_append, deposits_append, e6]
    simp [deposits]

theorem delegateBuffer_multipart_fans_out_witness :
    (exampleMultipart 7).payload_type = ArvBufferPayloadType.multipart ∧
    (exampleMultipart 7).n_parts ≤ exampleWorld.stream.substreams.length ∧
    exampleWorld.stream.p_buffer_pool.isSome = true ∧
    delegateBuffer (exampleMultipart 7) exampleWorld = some exampleFanOut ∧
    deposits exampleFanOut.trace = [0, 1] ∧ exampleFanOut.trace.count (Event.wrap 7) = 1 := by
  obtain ⟨w1, h0, h1, h2, _⟩ :=
    delegateBuffer_multipart_fans_out (exampleMultipart 7) exampleWorld rfl (by decide) rfl
  have e : w1 = exampleFanOut := Option.some.inj (h0.symm.trans rfl)
  subst e
  exact ⟨rfl, by decide, rfl, h0, by rw [h2]; rfl, by rw [h1]; rfl⟩
/-- C3. For a buffer whose payload type is Image, on a stream that has its pool and at
least one substream, `delegateBuffer` returns after one wrap and one deposit, into the
mailbox of substream 0: that slot holds the buffer and its wrapped image afterwards, the
other fields of substream 0 are as before, and every other substream of the stream is
unchanged, whatever their number. -/
theorem delegateBuffer_image_to_substream_zero (b : ArvBuffer) (w : World)
    (hi : b.payload_type = ArvBufferPayloadType.image)
    (hN : w.stream.substreams ≠ [])
    (hpool : w.stream.p_buffer_pool.isSome = true) :
    ∃ w1 s0, delegateBuffer b w = some w1 ∧
      w.stream.substreams[0]? = some s0 ∧
      w1.stream.substreams[0]? =
        some { s0 with p_buffer := some b, p_buffer_image := some ⟨b.handle⟩ } ∧
      (∀ j, 0 < j → w1.stream.substreams[j]? = w.stream.substreams[j]?) ∧
      w1.stream.substreams.length = w.stream.substreams.length ∧
      deposits w1.trace = deposits w.trace ++ [0] := by
  have hlen : 1 ≤ w.stream.substreams.length := by
    cases hl : w.stream.substreams with
    | nil => exact absurd hl hN
    | cons x xs => simp
  obtain ⟨w1, ext, e0, e1, _, e3, e4, e5, e6, _⟩ :=
    delegateBufferN_spec b 1 (emit (Event.call_delegateBuffer b.handle) w) hlen hpool
  obtain ⟨s0, f1, f2⟩ := e3 0 (by omega)
  refine ⟨w1, s0, ?_, f1, f2, fun j hj => e4 j (by omega), e1, ?_⟩
  · unfold delegateBuffer
    simp only [hi]
    exact e0
  · rw [e5, emit_trace, deposits_append, deposits_append, deposits_append, e6]
    simp [deposits, List.range_succ]

theorem delegateBuffer_image_to_substream_zero_witness :
    (exampleImage 7).payload_type = ArvBufferPayloadType.image ∧
    exampleWorld.stream.substreams ≠ [] ∧
    exampleWorld.stream.p_buffer_pool.isSome = true ∧
    delegateBuffer (exampleImage 7) exampleWorld = some exampleImageRouted ∧
    exampleImageRouted.stream.substreams[1]? = exampleWorld.stream.substreams[1]? ∧
    deposits exampleImageRouted.trace = [0] := by
  obtain ⟨w1, s0, h0, _, _, h3, _, h5⟩ :=
    delegateBuffer_image_to_substream_zero (exampleImage 7) exampleWorld rfl (by decide) rfl
  have e : w1 = exampleImageRouted := Option.some.inj (h0.symm.trans rfl)
  subst e
  exact ⟨rfl, by decide, rfl, h0, h3 1 (by decide), by rw [h5]; rfl⟩

/-- C4. For a buffer whose payload type is neither Image nor Multipart (chunk data or any
other type), `delegateBuffer` returns, pushes the buffer back to the stream exactly once and
pushes nothing else, wraps nothing, deposits nothing, and leaves the stream (every substream
and the pool) and the reference counts as they were. -/
theorem delegateBuffer_unsupported_payload_returns_buffer (b : ArvBuffer) (w : World)
    (h1 : b.payload_type ≠ ArvBufferPayloadType.image)
    (h2 : b.payload_type ≠ ArvBufferPayloadType.multipart) :
    ∃ w1, delegateBuffer b w = some w1 ∧
      (∀ x, pushes w1 x = pushes w x + if x = b.handle then 1 else 0) ∧
      (∀ x, w1.trace.count (Event.wrap x) = w.trace.count (Event.wrap x)) ∧
      deposits w1.trace = deposits w.trace ∧
      w1.stream = w.stream ∧ w1.use_count = w.use_count := by
  have hio : isImageOrMultipart b = false := by
    unfold isImageOrMultipart
    simp [h1, h2]
  obtain ⟨w1, d0, d1, d2, _, d4⟩ := delegateBuffer_not_routed b w hio
  refine ⟨w1, d0, ?_, ?_, ?_, d1, d2⟩
  · intro x
    unfold pushes
    by_cases hx : x = b.handle
    · subst hx
      rcases d4 with d4 | d4 <;> rw [d4] <;> simp [List.count_append, List.count_cons]
    · have : ¬ b.handle = x := fun e => hx e.symm
      rcases d4 with d4 | d4 <;> rw [d4] <;> simp [List.count_append, List.count_cons, hx, this]
  · intro x
    rcases d4 with d4 | d4 <;> rw [d4] <;> simp [List.count_append, List.count_cons]
  · rcases d4 with d4 | d4 <;> rw [d4, deposits_append] <;> simp [deposits]

theorem delegateBuffer_unsupported_payload_returns_buffer_witness :
    (exampleChunk 7).payload_type ≠ ArvBufferPayloadType.image ∧
    (exampleChunk 7).payload_type ≠ ArvBufferPayloadType.multipart ∧
    delegateBuffer (exampleChunk 7) exampleWorld = some exampleChunkReturned ∧
    pushes exampleChunkReturned 7 = 1 ∧
    exampleChunkReturned.stream = exampleWorld.stream := by
  obtain ⟨w1, h0, h1, _, _, h4, _⟩ :=
    delegateBuffer_unsupported_payload_returns_buffer (exampleChunk 7) exampleWorld
      (by decide) (by decide)
  have e : w1 = exampleChunkReturned := Option.some.inj (h0.symm.trans rfl)
  subst e
  exact ⟨by decide, by decide, h0, by rw [h1]; rfl, h4⟩

/-! ## C5: the test of the callback -/

theorem depositLoop_some_le (b : ArvBuffer) (m : ImagePtr) (r i : Nat) (w w1 : World)
    (h : depositLoop b m i r w = some w1) (hr : 0 < r) :
    i + r ≤ w.stream.substreams.length := by
  induction r generalizing i w with
  | zero => omega
  | succ r1 ih =>
    rw [depositLoop] at h
    cases hd : deposit b m i w with
    | none => simp [hd] at h
    | some w2 =>
      simp only [hd] at h
      have hi : i < w.stream.substreams.length := by
        by_contra hc
        have : w.stream.substreams[i]? = none := by
          apply List.getElem?_eq_none
          omega
        simp [deposit, this] at hd
      by_cases h0 : r1 = 0
      · omega
      · obtain ⟨s, hs⟩ := getElem?_of_lt w.stream.substreams i hi
        obtain ⟨w2a, _, d0, d1, _⟩ := deposit_spec b m i w s hs
        have e : w2a = w2 := Option.some.inj (d0.symm.trans hd)
        subst e
        have := ih (i + 1) w2a h (by omega)
        rw [d1, List.length_set] at this
        omega

/-- The trace of every execution of `delegateBuffer(p_buffer, stream_id, substreams)` that
returns: the wrap, then drop warnings, pushes and notifications only. -/
theorem delegateBufferN_some_trace (b : ArvBuffer) (k : Nat) (u w1 : World)
    (hk : delegateBufferN b k u = some w1) :
    ∃ ext, w1.trace = u.trace ++ [Event.wrap b.handle] ++ ext ∧
      (∀ e ∈ ext, isDropOrPush e = true ∨ ∃ j, e = Event.notify j) := by
  have hpool : u.stream.p_buffer_pool.isSome = true := by
    cases hp : u.stream.p_buffer_pool with
    | none => simp [delegateBufferN, hp] at hk
    | some _ => rfl
  have hle : k ≤ u.stream.substreams.length := by
    by_cases h0 : k = 0
    · omega
    · have hk2 := hk
      unfold delegateBufferN at hk2
      cases hp : u.stream.p_buffer_pool with
      | none => simp [hp] at hpool
      | some _ =>
        simp only [hp] at hk2
        cases hl : depositLoop b (wrapBuffer b u).1 0 k (wrapBuffer b u).2 with
        | none => simp [hl] at hk2
        | some w2 =>
          have := depositLoop_some_le _ _ _ _ _ _ hl (by omega)
          simpa [wrapBuffer] using this
  obtain ⟨w2, ext, e0, _, _, _, _, e5, _, e7⟩ := delegateBufferN_spec b k u hle hpool
  have e : w2 = w1 := Option.some.inj (e0.symm.trans hk)
  subst e
  exact ⟨ext, e5, e7⟩

/-- Every execution of `delegateBuffer` that returns has logged its call once. -/
theorem delegateBuffer_logs_call (b : ArvBuffer) (u w1 : World)
    (h : delegateBuffer b u = some w1) (x : Nat) :
    w1.trace.count (Event.call_delegateBuffer x) =
      u.trace.count (Event.call_delegateBuffer x) + if x = b.handle then 1 else 0 := by
  have hcall : (emit (Event.call_delegateBuffer b.handle) u).trace.count
      (Event.call_delegateBuffer x) =
      u.trace.count (Event.call_delegateBuffer x) + if x = b.handle then 1 else 0 := by
    rw [emit_trace, count_append_single]
    by_cases hx : x = b.handle
    · subst hx; simp
    · have : ¬ b.handle = x := fun e => hx e.symm
      simp [hx, this]
  have hN : ∀ k, delegateBufferN b k (emit (Event.call_delegateBuffer b.handle) u) = some w1 →
      w1.trace.count (Event.call_delegateBuffer x) =
        u.trace.count (Event.call_delegateBuffer x) + if x = b.handle then 1 else 0 := by
    intro k hk
    obtain ⟨ext, e5, e7⟩ := delegateBufferN_some_trace b k _ w1 hk
    rw [e5, List.count_append, List.count_append, hcall,
      count_of_dropOrPush_or_notify ext (Event.call_delegateBuffer x) e7 rfl (by simp),
      count_single_ne _ _ (by simp)]
    simp only [Nat.add_zero]
  unfold delegateBuffer at h
  simp only at h
  cases hp : b.payload_type with
  | image => simp only [hp] at h; exact hN 1 h
  | multipart => simp only [hp] at h; exact hN _ h
  | chunk_data =>
    simp only [hp, delegateChunkDataBuffer, Option.some.injEq] at h
    subst h
    rw [emit_trace, emit_trace, List.count_append, List.count_append, hcall,
      count_single_ne _ _ (by simp), count_single_ne _ _ (by simp)]
    simp only [Nat.add_zero]
  | other code =>
    simp only [hp, Option.some.injEq] at h
    subst h
    rw [emit_trace, emit_trace, List.count_append, List.count_append, hcall,
      count_single_ne _ _ (by simp), count_single_ne _ _ (by simp)]
    simp only [Nat.add_zero]

theorem sendsBack_eq_false_iff (b : ArvBuffer) (w : World) :
    sendsBack b w = false ↔
      b.status = ArvBufferStatus.success ∧ w.stream.p_buffer_pool.isSome = true ∧
      ∃ s ∈ w.stream.substreams, 0 < s.num_subscribers := by
  unfold sendsBack hasSubscribers
  simp only [Bool.or_eq_false_iff, Bool.not_eq_false', decide_eq_true_eq, List.any_eq_true]
  constructor
  · rintro ⟨⟨h1, h2⟩, s, h3, h4⟩
    exact ⟨h1, h2, s, h3, h4⟩
  · rintro ⟨h1, h2, s, h3, h4⟩
    exact ⟨⟨h1, h2⟩, s, h3, h4⟩
/-- C5. In `newBufferReady` (on a stream with a substream, and with a pool whenever a buffer
is to be allocated), a popped buffer goes into routing exactly when its status is Success,
the pool exists and some substream has a subscriber. Otherwise the callback returns after
pushing the buffer back as its last action: `delegateBuffer` is not called, no mailbox and
no reference count changes. In the other case the callback continues as `delegateBuffer`,
from a world with the same substreams, and every execution that returns has called it
once. -/
theorem newBufferReady_routes_only_good_buffers (b : ArvBuffer) (n : Int) (w : World)
    (hN : w.stream.substreams ≠ [])
    (hpool : n = 0 → w.stream.p_buffer_pool.isSome = true) :
    (sendsBack b w = false ↔
      b.status = ArvBufferStatus.success ∧ w.stream.p_buffer_pool.isSome = true ∧
      ∃ s ∈ w.stream.substreams, 0 < s.num_subscribers) ∧
    (sendsBack b w = true →
      ∃ w1, newBufferReady (some b) n w = some w1 ∧
        w1.trace = w.trace ++ [Event.pop b.handle] ++
          (if n = 0 then [Event.allocate 1] else []) ++
          (if b.status = ArvBufferStatus.success then [] else [Event.warn_frame_error b.handle]) ++
          [Event.push b.handle] ∧
        pushes w1 b.handle = pushes w b.handle + 1 ∧
        (∀ x, w1.trace.count (Event.call_delegateBuffer x) =
          w.trace.count (Event.call_delegateBuffer x)) ∧
        w1.stream.substreams = w.stream.substreams ∧ w1.use_count = w.use_count) ∧
    (sendsBack b w = false →
      ∃ u, u.stream.substreams = w.stream.substreams ∧ u.use_count = w.use_count ∧
        u.stream.p_buffer_pool.isSome = w.stream.p_buffer_pool.isSome ∧
        newBufferReady (some b) n w = delegateBuffer b u ∧
        ∀ w1, newBufferReady (some b) n w = some w1 →
          w1.trace.count (Event.call_delegateBuffer b.handle) =
            w.trace.count (Event.call_delegateBuffer b.handle) + 1) := by
  obtain ⟨u, u1, u2, _, u4, u5, u6⟩ := newBufferReady_guard b n w hN hpool
  have hA : ∀ a : Event, (∀ x, a ≠ Event.allocate x) →
      List.count a (if n = 0 then [Event.allocate 1] else []) = 0 := by
    intro a h1
    split
    · exact count_single_ne _ _ (fun e => h1 1 e.symm)
    · rfl
  have hB : ∀ a : Event, (∀ x, a ≠ Event.warn_frame_error x) →
      List.count a (if b.status = ArvBufferStatus.success then []
        else [Event.warn_frame_error b.handle]) = 0 := by
    intro a h2
    split
    · rfl
    · exact count_single_ne _ _ (fun e => h2 _ e.symm)
  refine ⟨sendsBack_eq_false_iff b w, ?_, ?_⟩
  · intro hs
    rw [if_pos hs] at u6
    refine ⟨_, u6, by rw [emit_trace, u5], ?_, ?_, by simpa using u1, by simpa using u2⟩
    · unfold pushes
      rw [emit_trace, u5, List.count_append, List.count_append, List.count_append,
        List.count_append, hA _ (by simp), hB _ (by simp), count_single_ne _ _ (by simp),
        count_single_self]
    · intro x
      rw [emit_trace, u5, List.count_append, List.count_append, List.count_append,
        List.count_append, hA _ (by simp), hB _ (by simp), count_single_ne _ _ (by simp),
        count_single_ne _ _ (by simp)]
      simp only [Nat.add_zero]
  · intro hs
    rw [if_neg (by simp [hs])] at u6
    refine ⟨u, u1, u2, u4, u6, ?_⟩
    intro w1 h1
    rw [u6] at h1
    rw [delegateBuffer_logs_call b u w1 h1 b.handle, u5, List.count_append, List.count_append,
      List.count_append, hA _ (by simp), hB _ (by simp), count_single_ne _ _ (by simp)]
    simp

theorem newBufferReady_routes_only_good_buffers_witness :
    exampleWorld.stream.substreams ≠ [] ∧
    ((0 : Int) = 0 → exampleWorld.stream.p_buffer_pool.isSome = true) ∧
    sendsBack (exampleFailed 5) exampleWorld = true ∧
    newBufferReady (some (exampleFailed 5)) 0 exampleWorld = some exampleSentBack ∧
    exampleSentBack.trace =
      [Event.pop 5, Event.allocate 1, Event.warn_frame_error 5, Event.push 5] ∧
    exampleSentBack.stream.substreams = exampleWorld.stream.substreams := by
  have t := newBufferReady_routes_only_good_buffers (exampleFailed 5) 0 exampleWorld
    (by decide) (fun _ => rfl)
  obtain ⟨w1, h0, h1, _, _, h4, _⟩ := t.2.1 rfl
  have e : w1 = exampleSentBack := Option.some.inj (h0.symm.trans rfl)
  subst e
  exact ⟨by decide, fun _ => rfl, rfl, h0, by rw [h1]; rfl, h4⟩

/-! ## C6, C7: the mailbox -/

/-- C6. A deposit into the mailbox of an existing substream `i` succeeds in one step
whatever the slot holds. Afterwards the slot holds exactly the new pair and the rest of the
stream is as before; the reference the slot held before is given up (its count goes down by
one, while the new image gains one owner); the drop warning of substream `i` is logged once
if the slot's buffer pointer was set before the deposit and not at all otherwise; and the
thread of the substream is notified once. -/
theorem deposit_overwrites_slot (b : ArvBuffer) (m : ImagePtr) (i : Nat) (w : World)
    (s : Substream) (hs : w.stream.substreams[i]? = some s) :
    ∃ w1, deposit b m i w = some w1 ∧
      w1.stream.substreams[i]? = some { s with p_buffer := some b, p_buffer_image := some m } ∧
      (∀ j, j ≠ i → w1.stream.substreams[j]? = w.stream.substreams[j]?) ∧
      w1.stream.substreams.length = w.stream.substreams.length ∧
      (∀ x, w1.use_count x =
        w.use_count x + holdsImage x (some m) - holdsImage x s.p_buffer_image) ∧
      (∀ j, w1.trace.count (Event.warn_dropped j) =
        w.trace.count (Event.warn_dropped j) +
          if j = i ∧ s.p_buffer.isSome = true then 1 else 0) ∧
      deposits w1.trace = deposits w.trace ++ [i] := by
  obtain ⟨w1, ext, d0, d1, _, _, d4, d5, d6, d7⟩ := deposit_spec b m i w s hs
  refine ⟨w1, d0, ?_, ?_, by rw [d1, List.length_set], d4, ?_, ?_⟩
  · rw [d1]
    exact getElem?_set_same _ _ _ _ hs
  · intro j hj
    rw [d1]
    exact getElem?_set_other _ _ _ _ (fun e => hj e.symm)
  · intro j
    rw [d5, List.count_append, List.count_append, d7 j, count_single_ne _ _ (by simp)]
    simp only [Nat.add_zero]
  · rw [d5, deposits_append, deposits_append, deposits_of_dropOrPush ext d6]
    simp [deposits]

theorem deposit_overwrites_slot_witness :
    exampleOccupied.stream.substreams[0]? =
      some { num_subscribers := 1, p_buffer := some (exampleImage 1), p_buffer_image := some ⟨1⟩ } ∧
    deposit (exampleImage 2) ⟨2⟩ 0 exampleOccupied = some exampleOverwritten ∧
    exampleOverwritten.stream.substreams[0]? =
      some { num_subscribers := 1, p_buffer := some (exampleImage 2), p_buffer_image := some ⟨2⟩ } ∧
    exampleOverwritten.trace.count (Event.warn_dropped 0) = 1 ∧
    exampleOverwritten.use_count 1 = 0 := by
  have hs : exampleOccupied.stream.substreams[0]? =
      some { num_subscribers := 1, p_buffer := some (exampleImage 1), p_buffer_image := some ⟨1⟩ } := by
    rfl
  obtain ⟨w1, h0, h1, _, _, h4, h5, _⟩ :=
    deposit_overwrites_slot (exampleImage 2) ⟨2⟩ 0 exampleOccupied _ hs
  have e : w1 = exampleOverwritten := Option.some.inj (h0.symm.trans rfl)
  subst e
  exact ⟨hs, h0, h1, by rw [h5]; rfl, by rw [h4]; rfl⟩

/-- C7. When two buffers `A` and then `B` are deposited into the mailbox of one substream
and its thread takes the slot only afterwards, the thread takes the pair of `B`: its locals
hold `B` and the image of `B`, so its processing step is the one of `B`. The pair of `A` was
overwritten in the slot, the slot is empty after the hand-over, so `A` is never handed to
the thread; the second deposit logged exactly one drop warning for this substream. -/
theorem second_deposit_wins (A B : ArvBuffer) (mA mB : ImagePtr) (i : Nat) (w : World)
    (s : Substream) (hs : w.stream.substreams[i]? = some s) :
    ∃ w1 w2 w3, deposit A mA i w = some w1 ∧ deposit B mB i w1 = some w2 ∧
      threadWake i w2 = some w3 ∧
      w2.stream.substreams[i]? = some { s with p_buffer := some B, p_buffer_image := some mB } ∧
      w3.stream.substreams[i]? =
        some { s with
          p_buffer := none
          p_buffer_image := none
          buffer_thread := ThreadState.processing (some B) (some mB) } ∧
      (∀ j, w2.trace.count (Event.warn_dropped j) =
        w1.trace.count (Event.warn_dropped j) + if j = i then 1 else 0) ∧
      w3.trace.count (Event.warn_dropped i) = w2.trace.count (Event.warn_dropped i) := by
  obtain ⟨w1, a0, a1, _, _, _, _, _⟩ := deposit_overwrites_slot A mA i w s hs
  obtain ⟨w2, b0, b1, _, _, _, b5, _⟩ := deposit_overwrites_slot B mB i w1 _ a1
  have b2 : w2.stream.substreams[i]? =
      some { s with p_buffer := some B, p_buffer_image := some mB } := b1
  have hw : threadWake i w2 = some (setSubstream i
      { s with
        p_buffer := none
        p_buffer_image := none
        buffer_thread := ThreadState.processing (some B) (some mB) }
      (releaseImage (some mB) (copyImage (some mB) w2))) := by
    simp only [threadWake, b2]
  refine ⟨w1, w2, _, a0, b0, hw, b2, ?_, ?_, ?_⟩
  · simp only [setSubstream_substreams, releaseImage_stream, copyImage_stream]
    exact getElem?_set_same _ _ _ _ b2
  · intro j
    rw [b5 j]
    simp
  · simp only [setSubstream_trace, releaseImage_trace, copyImage_trace]
    rw [List.count_append]
    have : List.count (Event.warn_dropped i)
        (if (copyImage (some mB) w2).use_count mB.wraps = 1 then [Event.push mB.wraps] else []) = 0 := by
      split
      · exact count_single_ne _ _ (by simp)
      · rfl
    rw [this]
    rfl

theorem second_deposit_wins_witness :
    exampleWorld.stream.substreams[0]? = some { num_subscribers := 1 } ∧
    exampleSecondWins.stream.substreams[0]? =
      some { num_subscribers := 1,
             buffer_thread := ThreadState.processing (some (exampleImage 3)) (some ⟨3⟩) } := by
  have hs : exampleWorld.stream.substreams[0]? = some { num_subscribers := 1 } := rfl
  obtain ⟨w1, w2, w3, h0, h1, h2, _, h4, _⟩ :=
    second_deposit_wins (exampleImage 2) (exampleImage 3) ⟨2⟩ ⟨3⟩ 0 exampleWorld _ hs
  have e : w3 = exampleSecondWins := by
    have : exampleSecondWins =
        (((deposit (exampleImage 2) ⟨2⟩ 0 exampleWorld).bind
          (deposit (exampleImage 3) ⟨3⟩ 0)).bind (threadWake 0)).getD exampleWorld := rfl
    rw [this, h0, Option.some_bind, h1, Option.some_bind, h2]
    rfl
  subst e
  exact ⟨hs, h4⟩

/-! ## C8: ROI reconciliation -/

/-- C8. For every cached ROI and every region `(x, y, width, height)` the buffer reports for
the part, `adaptROI` returns with the cached x, y, width and height equal to the observed
values and the four bounds untouched; the mismatch warning is logged, once, exactly when one
of the four cached values differed from the observed one; and a following buffer with the
same region changes nothing and logs nothing. -/
theorem adaptROI_adopts_observed_region (p_buffer : ArvBuffer) (roi : ROI)
    (stream_id substream_id : Nat) (part : ArvBufferPart)
    (hpart : p_buffer.parts[substream_id]? = some part) :
    ∃ roi1 log, adaptROI p_buffer roi stream_id substream_id = some (roi1, log) ∧
      roi1.x = part.x ∧ roi1.y = part.y ∧ roi1.width = part.width ∧ roi1.height = part.height ∧
      roi1.width_min = roi.width_min ∧ roi1.width_max = roi.width_max ∧
      roi1.height_min = roi.height_min ∧ roi1.height_max = roi.height_max ∧
      ((roi.x = part.x ∧ roi.y = part.y ∧ roi.width = part.width ∧ roi.height = part.height) →
        log = [] ∧ roi1 = roi) ∧
      (¬ (roi.x = part.x ∧ roi.y = part.y ∧ roi.width = part.width ∧ roi.height = part.height) →
        log = [Event.warn_roi_mismatch stream_id substream_id part.x part.y part.width
          part.height]) ∧
      ∀ (q_buffer : ArvBuffer), q_buffer.parts[substream_id]? = some part →
        adaptROI q_buffer roi1 stream_id substream_id = some (roi1, []) := by
  unfold adaptROI
  simp only [hpart]
  by_cases h : part.x = roi.x ∧ part.y = roi.y ∧ part.width = roi.width ∧ part.height = roi.height
  · obtain ⟨h1, h2, h3, h4⟩ := h
    refine ⟨roi, [], by simp [h1, h2, h3, h4], h1.symm, h2.symm, h3.symm, h4.symm, rfl, rfl, rfl,
      rfl, fun _ => ⟨rfl, rfl⟩, ?_, ?_⟩
    · intro hn
      exact absurd ⟨h1.symm, h2.symm, h3.symm, h4.symm⟩ hn
    · intro q hq
      simp [hq, h1, h2, h3, h4]
  · refine ⟨{ roi with x := part.x, y := part.y, width := part.width, height := part.height },
      [Event.warn_roi_mismatch stream_id substream_id part.x part.y part.width part.height],
      by rw [if_neg h], rfl, rfl, rfl, rfl, rfl, rfl, rfl, rfl, ?_, fun _ => rfl, ?_⟩
    · rintro ⟨h1, h2, h3, h4⟩
      exact absurd ⟨h1.symm, h2.symm, h3.symm, h4.symm⟩ h
    · intro q hq
      simp [hq]

theorem adaptROI_adopts_observed_region_witness :
    exampleVga.parts[0]? = some { x := 0, y := 0, width := 640, height := 480 } ∧
    adaptROI exampleVga exampleRoi 0 0 =
      some ({ exampleRoi with width := 640, height := 480 },
        [Event.warn_roi_mismatch 0 0 0 0 640 480]) ∧
    adaptROI exampleVga { exampleRoi with width := 640, height := 480 } 0 0 =
      some ({ exampleRoi with width := 640, height := 480 }, []) := by
  have hp : exampleVga.parts[0]? = some { x := 0, y := 0, width := 640, height := 480 } := rfl
  obtain ⟨roi1, log, h0, _, _, _, _, _, _, _, _, _, _, h⟩ :=
    adaptROI_adopts_observed_region exampleVga exampleRoi 0 0 _ hp
  have e : (roi1, log) = (({ exampleRoi with width := 640, height := 480 } : ROI),
      [Event.warn_roi_mismatch 0 0 0 0 640 480]) := Option.some.inj (h0.symm.trans (by decide))
  have e1 : roi1 = { exampleRoi with width := 640, height := 480 } := congrArg Prod.fst e
  subst e1
  exact ⟨hp, by decide, h exampleVga hp⟩

/-! ## C9, C10: the stride and the sequence number -/

/-- C9, as stated, fails: for the ROI width 2^30 and 32 bits per pixel the quotient
`(w * b) / 8` is 2^32, and the `uint32` field `step` holds 0. -/
theorem fillImage_step_loses_high_bits :
    (fillImage false {} {} "" { n_bits_pixel := 32 } { width := 1073741824 }).step = 0 ∧
    (1073741824 * 32) / 8 = 4294967296 ∧
    (fillImage false {} {} "" { n_bits_pixel := 32 } { width := 1073741824 }).step ≠
      (1073741824 * 32) / 8 := by
  decide

theorem toUInt32_of_nonneg (v : Int) (h0 : 0 ≤ v) (h1 : v < 4294967296) :
    toUInt32 v = v.toNat := by
  unfold toUInt32
  rw [Int.emod_eq_of_lt h0 h1]

/-- C9, amended. For every ROI width `w` with `0 ≤ w < 2^31` and every bits-per-pixel value
`b` for which the quotient `(w * b) / 8` fits the 32-bit step field, `fillImage` sets the
step to that quotient, truncated toward zero. -/
theorem fillImage_step_of_fitting_quotient (use_ptp_stamp : Bool) (msg : Image)
    (p_buffer : ArvBuffer) (frame_id : String) (sensor : Sensor) (roi : ROI)
    (h0 : 0 ≤ roi.width) (h1 : roi.width < 2147483648)
    (hq : (roi.width.toNat * sensor.n_bits_pixel) / 8 < 4294967296) :
    (fillImage use_ptp_stamp msg p_buffer frame_id sensor roi).step =
      (roi.width.toNat * sensor.n_bits_pixel) / 8 := by
  unfold fillImage
  simp only
  rw [toUInt32_of_nonneg roi.width h0 (by omega)]
  have hp : roi.width.toNat * sensor.n_bits_pixel < 18446744073709551616 := by
    have := (Nat.div_lt_iff_lt_mul (by decide : 0 < 8)).1 hq
    omega
  rw [Nat.mod_eq_of_lt hp, Nat.mod_eq_of_lt hq]

theorem fillImage_step_of_fitting_quotient_witness :
    (0 : Int) ≤ exampleRoi.width ∧ exampleRoi.width < 2147483648 ∧
    (exampleRoi.width.toNat * 12) / 8 < 4294967296 ∧
    (fillImage false {} {} "" { n_bits_pixel := 12 } exampleRoi).step = 1200 := by
  have t := fillImage_step_of_fitting_quotient false {} {} "" { n_bits_pixel := 12 } exampleRoi
    (by decide) (by decide) (by decide)
  exact ⟨by decide, by decide, by decide, by rw [t]; decide⟩

/-- C10, as stated, fails: the buffers with the frame ids 1 and 2^32 + 1 get the same
sequence number 1, which is not the frame id of the second. -/
theorem fillImage_seq_collides :
    (fillImage false {} { frame_id := 1 } "" {} {}).header_seq =
      (fillImage false {} { frame_id := 4294967297 } "" {} {}).header_seq ∧
    ({ frame_id := 1 } : ArvBuffer).frame_id ≠ ({ frame_id := 4294967297 } : ArvBuffer).frame_id ∧
    (fillImage false {} { frame_id := 4294967297 } "" {} {}).header_seq ≠ 4294967297 := by
  decide

/-- C10, amended. The sequence number `fillImage` stamps is the frame id of the buffer
modulo 2^32; for every buffer whose frame id is below 2^32 it equals the frame id, so two
such buffers with different frame ids get different sequence numbers. -/
theorem fillImage_seq_of_small_frame_id (use_ptp_stamp : Bool) (msg msg2 : Image)
    (p_buffer q_buffer : ArvBuffer) (frame_id frame_id2 : String) (sensor sensor2 : Sensor)
    (roi roi2 : ROI)
    (hp : p_buffer.frame_id < 4294967296) (hq : q_buffer.frame_id < 4294967296) :
    (fillImage use_ptp_stamp msg p_buffer frame_id sensor roi).header_seq = p_buffer.frame_id ∧
    (p_buffer.frame_id ≠ q_buffer.frame_id →
      (fillImage use_ptp_stamp msg p_buffer frame_id sensor roi).header_seq ≠
        (fillImage use_ptp_stamp msg2 q_buffer frame_id2 sensor2 roi2).header_seq) := by
  have a : (fillImage use_ptp_stamp msg p_buffer frame_id sensor roi).header_seq =
      p_buffer.frame_id := Nat.mod_eq_of_lt hp
  have b : (fillImage use_ptp_stamp msg2 q_buffer frame_id2 sensor2 roi2).header_seq =
      q_buffer.frame_id := Nat.mod_eq_of_lt hq
  exact ⟨a, fun h => by rw [a, b]; exact h⟩

theorem fillImage_seq_of_small_frame_id_witness :
    ({ frame_id := 41 } : ArvBuffer).frame_id < 4294967296 ∧
    ({ frame_id := 43 } : ArvBuffer).frame_id < 4294967296 ∧
    (fillImage true {} { frame_id := 41 } "cam" {} {}).header_seq = 41 ∧
    (fillImage true {} { frame_id := 41 } "cam" {} {}).header_seq ≠
      (fillImage true {} { frame_id := 43 } "cam" {} {}).header_seq := by
  have t := fillImage_seq_of_small_frame_id true {} {} { frame_id := 41 } { frame_id := 43 }
    "cam" "cam" {} {} {} {} (by decide) (by decide)
  exact ⟨by decide, by decide, t.1, t.2 (by decide)⟩

/-! ## C11, C12, C13: the processing functions -/

/-- What `adaptROI` returns when the buffer reports the region of the part: the cached ROI
with the observed position and size, and a log of at most the mismatch warning. -/
theorem adaptROI_some (b : ArvBuffer) (roi : ROI) (stream_id substream_id : Nat)
    (part : ArvBufferPart) (hpart : b.parts[substream_id]? = some part) :
    ∃ roi1 log, adaptROI b roi stream_id substream_id = some (roi1, log) ∧
      roi1.x = part.x ∧ roi1.y = part.y ∧ roi1.width = part.width ∧ roi1.height = part.height ∧
      (∀ e ∈ log, isProcessingEvent e = true) ∧ publications log = [] := by
  unfold adaptROI
  simp only [hpart]
  by_cases h : part.x = roi.x ∧ part.y = roi.y ∧ part.width = roi.width ∧ part.height = roi.height
  · obtain ⟨h1, h2, h3, h4⟩ := h
    exact ⟨roi, [], by simp [h1, h2, h3, h4], h1.symm, h2.symm, h3.symm, h4.symm, by simp, rfl⟩
  · refine ⟨{ roi with x := part.x, y := part.y, width := part.width, height := part.height },
      [Event.warn_roi_mismatch stream_id substream_id part.x part.y part.width part.height],
      by rw [if_neg h], rfl, rfl, rfl, rfl, ?_, rfl⟩
    intro e he
    simp only [List.mem_singleton] at he
    subst he
    rfl

theorem publications_append (l1 l2 : List Event) :
    publications (l1 ++ l2) = publications l1 ++ publications l2 := by
  induction l1 with
  | nil => rfl
  | cons e rest ih =>
    cases e <;> simp [publications, ih]

/-- The trace of the common end of the processing functions. -/
theorem publishImage_trace (flags : NodeletFlags) (i : Nat) (img : Image) (w : World) :
    ∃ ext, (publishImage flags i img w).trace =
        w.trace ++ [Event.fill_camera_info i, Event.publish i img] ++ ext ∧
      (∀ e ∈ ext, isProcessingEvent e = true) ∧ publications ext = [] ∧
      (publishImage flags i img w).stream = w.stream := by
  unfold publishImage
  cases h1 : flags.pub_ext_camera_info <;> cases h2 : flags.use_ptp_stamp
  · exact ⟨[], by simp, by simp, rfl, rfl⟩
  · exact ⟨[Event.reset_ptp_clock], by simp, by simp [isProcessingEvent], rfl, rfl⟩
  · exact ⟨[Event.publish_extended_camera_info i], by simp, by simp [isProcessingEvent], rfl, rfl⟩
  · exact ⟨[Event.publish_extended_camera_info i, Event.reset_ptp_clock], by simp,
      by simp [isProcessingEvent], rfl, rfl⟩
/-- What `processPartBuffer` returns for a substream that has its pool and a buffer that has
the part: the private image stamped by `fillImage` with the bytes of the part, published as
it is or after the conversion. -/
theorem processPartBuffer_spec (flags : NodeletFlags)
    (convert_format : Nat → Option ConversionFunction) (recycled destination wrapped : Image)
    (b : ArvBuffer) (stream_id i : Nat) (w : World) (s : Substream) (part : ArvBufferPart)
    (hs : w.stream.substreams[i]? = some s) (hpool : s.p_buffer_pool.isSome = true)
    (hpart : b.parts[i]? = some part) :
    ∃ r roi1 ext, processPartBuffer flags convert_format recycled destination wrapped b
        stream_id i w = some r ∧
      roi1.x = part.x ∧ roi1.y = part.y ∧ roi1.width = part.width ∧ roi1.height = part.height ∧
      r.source = { fillImage flags.use_ptp_stamp recycled b s.frame_id s.sensor roi1 with
        data := part.data } ∧
      r.wrapped = wrapped ∧
      r.published = (match convert_format i with
        | none => r.source
        | some f => f r.source destination) ∧
      r.world.stream.substreams = w.stream.substreams.set i { s with roi := roi1 } ∧
      r.world.trace = w.trace ++ ext ∧ (∀ e ∈ ext, isProcessingEvent e = true) ∧
      publications ext = [(i, r.published)] ∧
      (adaptROI b s.roi stream_id i).map Prod.fst = some roi1 := by
  obtain ⟨roi1, log, a0, a1, a2, a3, a4, a5, a6⟩ := adaptROI_some b s.roi stream_id i part hpart
  unfold processPartBuffer
  simp only [hs, hpool, if_true, a0, hpart]
  cases hc : convert_format i with
  | none =>
    simp only
    obtain ⟨ext, e1, e2, e3, e4⟩ := publishImage_trace flags i
      { fillImage flags.use_ptp_stamp recycled b s.frame_id s.sensor roi1 with data := part.data }
      (setSubstream i { s with roi := roi1 } { w with trace := w.trace ++ log })
    refine ⟨_, roi1, log ++ [Event.fill_camera_info i, Event.publish i
      { fillImage flags.use_ptp_stamp recycled b s.frame_id s.sensor roi1 with
        data := part.data }] ++ ext, rfl, a1, a2, a3, a4, rfl, rfl, rfl, ?_, ?_, ?_, ?_, ?_⟩
    · rw [e4]; rfl
    · rw [e1]; simp
    · intro e he
      simp only [List.mem_append, List.mem_cons, List.mem_singleton, List.not_mem_nil,
        or_false] at he
      rcases he with (he | he | he) | he
      · exact a5 e he
      · subst he; rfl
      · subst he; rfl
      · exact e2 e he
    · rw [publications_append, publications_append, a6, e3]
      rfl
    · rfl
  | some f =>
    simp only
    obtain ⟨ext, e1, e2, e3, e4⟩ := publishImage_trace flags i
      (f { fillImage flags.use_ptp_stamp recycled b s.frame_id s.sensor roi1 with
        data := part.data } destination)
      (emit (Event.call_convert_format i)
        (setSubstream i { s with roi := roi1 } { w with trace := w.trace ++ log }))
    refine ⟨_, roi1, log ++ [Event.call_convert_format i, Event.fill_camera_info i,
      Event.publish i (f { fillImage flags.use_ptp_stamp recycled b s.frame_id s.sensor roi1 with
        data := part.data } destination)] ++ ext, rfl, a1, a2, a3, a4, rfl, rfl, rfl,
      ?_, ?_, ?_, ?_, ?_⟩
    · rw [e4]; rfl
    · rw [e1]; simp
    · intro e he
      simp only [List.mem_append, List.mem_cons, List.mem_singleton, List.not_mem_nil,
        or_false] at he
      rcases he with (he | he | he | he) | he
      · exact a5 e he
      · subst he; rfl
      · subst he; rfl
      · subst he; rfl
      · exact e2 e he
    · rw [publications_append, publications_append, a6, e3]
      rfl
    · rfl
/-- What the assignment `msg_ptr = cvt_msg_ptr` does to the world: it may push a buffer, and
it changes nothing of a substream but the local of its thread. -/
theorem dropThreadImage_spec (thread : Nat) (w : World) :
    ∃ ext, (dropThreadImage thread w).trace = w.trace ++ ext ∧
      (∀ e ∈ ext, ∃ h, e = Event.push h) ∧
      (∀ j : Nat, ((dropThreadImage thread w).stream.substreams[j]?).map (fun (s : Substream) => s.roi) =
        (w.stream.substreams[j]?).map (fun (s : Substream) => s.roi)) := by
  unfold dropThreadImage
  cases hs : w.stream.substreams[thread]? with
  | none => exact ⟨[], by simp, by simp, fun _ => rfl⟩
  | some s =>
    simp only
    cases ht : s.buffer_thread with
    | waiting => exact ⟨[], by simp, by simp, fun _ => rfl⟩
    | finished => exact ⟨[], by simp, by simp, fun _ => rfl⟩
    | processing pb img =>
      simp only
      refine ⟨_, by rw [setSubstream_trace, releaseImage_trace], ?_, ?_⟩
      · intro e he
        cases img with
        | none => simp at he
        | some p =>
          simp only at he
          split at he
          · simp only [List.mem_singleton] at he
            exact ⟨_, he⟩
          · simp at he
      · intro j
        simp only [setSubstream_substreams, releaseImage_stream]
        by_cases hj : j = thread
        · subst hj
          rw [getElem?_set_same _ _ _ _ hs, hs]
          rfl
        · rw [getElem?_set_other _ _ _ _ (fun e => hj e.symm)]

/-- What `processImageBuffer` returns for a stream whose substream 0 exists (and whose pool
exists when a conversion is registered) and a buffer that reports its region: the image
`msg_ptr` stamped by `fillImage`, published as it is or after the conversion. -/
theorem processImageBuffer_spec (flags : NodeletFlags)
    (convert_format : Nat → Option ConversionFunction) (destination msg : Image)
    (b : ArvBuffer) (stream_id thread : Nat) (w : World) (s0 : Substream) (part : ArvBufferPart)
    (hs : w.stream.substreams[0]? = some s0) (hpart : b.parts[0]? = some part)
    (hconv : convert_format 0 = none ∨ w.stream.p_buffer_pool.isSome = true) :
    ∃ r roi1 ext, processImageBuffer flags convert_format destination b stream_id thread msg w =
        some r ∧
      roi1.x = part.x ∧ roi1.y = part.y ∧ roi1.width = part.width ∧ roi1.height = part.height ∧
      r.source = fillImage flags.use_ptp_stamp msg b s0.frame_id s0.sensor roi1 ∧
      r.wrapped = r.source ∧
      r.published = (match convert_format 0 with
        | none => r.source
        | some f => f r.source destination) ∧
      (r.world.stream.substreams[0]?).map (fun (s : Substream) => s.roi) = some roi1 ∧
      r.world.trace = w.trace ++ ext ∧
      (∀ e ∈ ext, isProcessingEvent e = true ∨ ∃ h, e = Event.push h) ∧
      publications ext = [(0, r.published)] ∧
      (adaptROI b s0.roi stream_id 0).map Prod.fst = some roi1 := by
  obtain ⟨roi1, log, a0, a1, a2, a3, a4, a5, a6⟩ := adaptROI_some b s0.roi stream_id 0 part hpart
  have hroi : ((setSubstream 0 { s0 with roi := roi1 }
      { w with trace := w.trace ++ log }).stream.substreams[0]?).map (fun (s : Substream) => s.roi) =
      some roi1 := by
    simp only [setSubstream_substreams]
    rw [getElem?_set_same _ _ _ _ hs]
    rfl
  unfold processImageBuffer
  simp only [hs, a0]
  cases hc : convert_format 0 with
  | none =>
    simp only
    obtain ⟨ext, e1, e2, e3, e4⟩ := publishImage_trace flags 0
      (fillImage flags.use_ptp_stamp msg b s0.frame_id s0.sensor roi1)
      (setSubstream 0 { s0 with roi := roi1 } { w with trace := w.trace ++ log })
    refine ⟨_, roi1, log ++ [Event.fill_camera_info 0, Event.publish 0
      (fillImage flags.use_ptp_stamp msg b s0.frame_id s0.sensor roi1)] ++ ext, rfl,
      a1, a2, a3, a4, rfl, rfl, rfl, ?_, ?_, ?_, ?_, rfl⟩
    · rw [e4]; exact hroi
    · rw [e1]; simp
    · intro e he
      simp only [List.mem_append, List.mem_cons, List.mem_singleton, List.not_mem_nil,
        or_false] at he
      rcases he with (he | he | he) | he
      · exact Or.inl (a5 e he)
      · subst he; exact Or.inl rfl
      · subst he; exact Or.inl rfl
      · exact Or.inl (e2 e he)
    · rw [publications_append, publications_append, a6, e3]
      rfl
  | some f =>
    have hp : w.stream.p_buffer_pool.isSome = true := by
      rcases hconv with h | h
      · rw [hc] at h; simp at h
      · exact h
    simp only [hp, if_true]
    obtain ⟨dext, d1, d2, d3⟩ := dropThreadImage_spec thread
      (emit (Event.call_convert_format 0)
        (setSubstream 0 { s0 with roi := roi1 } { w with trace := w.trace ++ log }))
    obtain ⟨ext, e1, e2, e3, e4⟩ := publishImage_trace flags 0
      (f (fillImage flags.use_ptp_stamp msg b s0.frame_id s0.sensor roi1) destination)
      (dropThreadImage thread (emit (Event.call_convert_format 0)
        (setSubstream 0 { s0 with roi := roi1 } { w with trace := w.trace ++ log })))
    refine ⟨_, roi1, log ++ [Event.call_convert_format 0] ++ dext ++
      [Event.fill_camera_info 0, Event.publish 0
        (f (fillImage flags.use_ptp_stamp msg b s0.frame_id s0.sensor roi1) destination)] ++ ext,
      rfl, a1, a2, a3, a4, rfl, rfl, rfl, ?_, ?_, ?_, ?_, rfl⟩
    · rw [e4, d3 0]; exact hroi
    · rw [e1, d1]; simp
    · intro e he
      simp only [List.mem_append, List.mem_cons, List.mem_singleton, List.not_mem_nil,
        or_false] at he
      rcases he with (((he | he) | he) | he | he) | he
      · exact Or.inl (a5 e he)
      · subst he; exact Or.inl rfl
      · exact Or.inr (d2 e he)
      · subst he; exact Or.inl rfl
      · subst he; exact Or.inl rfl
      · exact Or.inl (e2 e he)
    · have hd : publications dext = [] := by
        clear d1 d3
        induction dext with
        | nil => rfl
        | cons x xs ih =>
          obtain ⟨h, hh⟩ := d2 x (List.mem_cons_self _ _)
          subst hh
          exact ih (fun e he => d2 e (List.mem_cons_of_mem _ he))
      rw [publications_append, publications_append, publications_append, publications_append,
        a6, e3, hd]
      rfl
/-- C11, as stated, fails: for a buffer whose observed region has the width -1 both
processing functions stamp and publish the width 4294967295, the `int32` of the ROI stored
into the `uint32` field of the image, while the cached ROI holds -1. -/
theorem processing_stamps_negative_width_as_uint32 :
    exampleNegativeWidth.parts[0]? = some { width := -1, height := 480 } ∧
    (processImageBuffer {} (fun _ => none) {} exampleNegativeWidth 0 0 {}
      exampleProcessingWorld).map
      (fun r => (r.published.width, r.published.height,
        (r.world.stream.substreams[0]?).map (fun (s : Substream) => s.roi.width))) =
      some (4294967295, 480, some (-1)) ∧
    (processPartBuffer {} (fun _ => none) {} {} {} exampleNegativeWidth 0 0
      exampleProcessingWorld).map
      (fun r => (r.published.width, r.published.height)) = some (4294967295, 480) := by
  refine ⟨by rfl, by rfl, by rfl⟩

/-- C11, amended. In `processImageBuffer` (substream 0, part 0) and in `processPartBuffer`
(substream and part `i`) the ROI is reconciled before the image is stamped: whatever the cached ROI was,
the image that is handed to the conversion, or to `publish` when there is none, has the
width and height of the observed region (as `uint32`, hence the observed values themselves
when they are not negative), the pixel format of the sensor as encoding and the frame id of
the substream, and the cached ROI holds the observed region afterwards. -/
theorem processing_stamps_reconciled_region (flags : NodeletFlags)
    (convert_format : Nat → Option ConversionFunction)
    (recycled destination wrapped msg : Image) (b : ArvBuffer) (stream_id thread i : Nat)
    (w : World) :
    (∀ s0 part, w.stream.substreams[0]? = some s0 → b.parts[0]? = some part →
      (convert_format 0 = none ∨ w.stream.p_buffer_pool.isSome = true) →
      ∃ r roi1, processImageBuffer flags convert_format destination b stream_id thread msg w =
          some r ∧
        r.source.width = toUInt32 part.width ∧ r.source.height = toUInt32 part.height ∧
        (0 ≤ part.width → part.width < 2147483648 → (r.source.width : Int) = part.width) ∧
        (0 ≤ part.height → part.height < 2147483648 → (r.source.height : Int) = part.height) ∧
        r.source.encoding = s0.sensor.pixel_format ∧ r.source.header_frame_id = s0.frame_id ∧
        (convert_format 0 = none → r.published = r.source) ∧
        (∀ f, convert_format 0 = some f → r.published = f r.source destination) ∧
        (r.world.stream.substreams[0]?).map (fun (s : Substream) => s.roi) = some roi1 ∧
        roi1.x = part.x ∧ roi1.y = part.y ∧ roi1.width = part.width ∧
        roi1.height = part.height) ∧
    (∀ s part, w.stream.substreams[i]? = some s → s.p_buffer_pool.isSome = true →
      b.parts[i]? = some part →
      ∃ r roi1, processPartBuffer flags convert_format recycled destination wrapped b
          stream_id i w = some r ∧
        r.source.width = toUInt32 part.width ∧ r.source.height = toUInt32 part.height ∧
        (0 ≤ part.width → part.width < 2147483648 → (r.source.width : Int) = part.width) ∧
        (0 ≤ part.height → part.height < 2147483648 → (r.source.height : Int) = part.height) ∧
        r.source.encoding = s.sensor.pixel_format ∧ r.source.header_frame_id = s.frame_id ∧
        (convert_format i = none → r.published = r.source) ∧
        (∀ f, convert_format i = some f → r.published = f r.source destination) ∧
        (r.world.stream.substreams[i]?).map (fun (s : Substream) => s.roi) = some roi1 ∧
        roi1.x = part.x ∧ roi1.y = part.y ∧ roi1.width = part.width ∧
        roi1.height = part.height) := by
  have hnat : ∀ v : Int, 0 ≤ v → v < 2147483648 → ((toUInt32 v : Nat) : Int) = v := by
    intro v h0 h1
    rw [toUInt32_of_nonneg v h0 (by omega)]
    exact Int.toNat_of_nonneg h0
  constructor
  · intro s0 part hs hpart hconv
    obtain ⟨r, roi1, ext, a0, a1, a2, a3, a4, a5, _, a7, a8, _, _, _, _⟩ :=
      processImageBuffer_spec flags convert_format destination msg b stream_id thread w s0 part
        hs hpart hconv
    have hw : r.source.width = toUInt32 part.width := by rw [a5, ← a3]; rfl
    have hh : r.source.height = toUInt32 part.height := by rw [a5, ← a4]; rfl
    refine ⟨r, roi1, a0, hw, hh, fun h0 h1 => by rw [hw]; exact hnat _ h0 h1,
      fun h0 h1 => by rw [hh]; exact hnat _ h0 h1, by rw [a5]; rfl, by rw [a5]; rfl,
      ?_, ?_, a8, a1, a2, a3, a4⟩
    · intro hc
      rw [a7, hc]
    · intro f hc
      rw [a7, hc]
  · intro s part hs hpool hpart
    obtain ⟨r, roi1, ext, a0, a1, a2, a3, a4, a5, _, a7, a8, _, _, _, _⟩ :=
      processPartBuffer_spec flags convert_format recycled destination wrapped b stream_id i w
        s part hs hpool hpart
    have hw : r.source.width = toUInt32 part.width := by rw [a5, ← a3]; rfl
    have hh : r.source.height = toUInt32 part.height := by rw [a5, ← a4]; rfl
    refine ⟨r, roi1, a0, hw, hh, fun h0 h1 => by rw [hw]; exact hnat _ h0 h1,
      fun h0 h1 => by rw [hh]; exact hnat _ h0 h1, by rw [a5]; rfl, by rw [a5]; rfl,
      ?_, ?_, ?_, a1, a2, a3, a4⟩
    · intro hc
      rw [a7, hc]
    · intro f hc
      rw [a7, hc]
    · rw [a8, getElem?_set_same _ _ _ _ hs]
      rfl

theorem processing_stamps_reconciled_region_witness :
    exampleProcessingWorld.stream.substreams[0]? = some exampleMono8 ∧
    exampleOnePart.parts[0]? = some { width := 640, height := 480, data := [1, 2, 3] } ∧
    exampleMono8.roi.width = 800 ∧
    (processImageBuffer {} (fun _ => none) {} exampleOnePart 0 0 {}
      exampleProcessingWorld).map (fun r => (r.published.width, r.published.height)) =
      some (640, 480) ∧
    exampleProcessingWorld.stream.substreams[1]? = some exampleMono16 ∧
    exampleMono16.p_buffer_pool.isSome = true ∧
    exampleTwoParts.parts[1]? = some { x := 1, width := 32, height := 16, data := [7, 8] } ∧
    (processPartBuffer {} (fun _ => none) {} {} {} exampleTwoParts 0 1
      exampleProcessingWorld).map (fun r => (r.published.width, r.published.height)) =
      some (32, 16) := by
  have t := processing_stamps_reconciled_region {} (fun _ => none) {} {} {} {} exampleOnePart
    0 0 0 exampleProcessingWorld
  have u := processing_stamps_reconciled_region {} (fun _ => none) {} {} {} {} exampleTwoParts
    0 0 1 exampleProcessingWorld
  obtain ⟨r, _, h0, h1, h2, _, _, _, _, h7, _⟩ := t.1 exampleMono8 _ rfl rfl (Or.inl rfl)
  obtain ⟨q, _, g0, g1, g2, _, _, _, _, g7, _⟩ := u.2 exampleMono16 _ rfl rfl rfl
  refine ⟨rfl, rfl, rfl, ?_, rfl, rfl, rfl, ?_⟩
  · rw [h0, Option.map_some', h7 rfl, h1, h2]
    rfl
  · rw [g0, Option.map_some', g7 rfl, g1, g2]
    rfl
/-- C12. For every multipart buffer and substream index `i` for which the buffer has the
part and the substream its own pool, `processPartBuffer` returns after filling the private
image `recycled` that the pool of substream `i` handed out: its data is exactly the bytes of
part `i` (same length, same contents, same order), the other fields are those `fillImage`
stamped. The pool of the stream is not used (the same happens without it), and the shared
wrapped image of the buffer is not written. -/
theorem processPartBuffer_copies_part (flags : NodeletFlags)
    (convert_format : Nat → Option ConversionFunction)
    (recycled destination wrapped : Image) (b : ArvBuffer) (stream_id i : Nat) (w : World)
    (s : Substream) (part : ArvBufferPart)
    (hs : w.stream.substreams[i]? = some s) (hpool : s.p_buffer_pool.isSome = true)
    (hpart : b.parts[i]? = some part) :
    ∃ r roi1, processPartBuffer flags convert_format recycled destination wrapped b
        stream_id i w = some r ∧
      r.source = { fillImage flags.use_ptp_stamp recycled b s.frame_id s.sensor roi1 with
        data := part.data } ∧
      r.source.data = part.data ∧ r.source.data.length = part.data.length ∧
      (∀ k : Nat, r.source.data[k]? = part.data[k]?) ∧
      r.wrapped = wrapped ∧
      (convert_format i = none → r.published.data = part.data) ∧
      ∃ r1, processPartBuffer flags convert_format recycled destination wrapped b stream_id i
          { w with stream := { w.stream with p_buffer_pool := none } } = some r1 ∧
        r1.source = r.source ∧ r1.wrapped = wrapped := by
  obtain ⟨r, roi1, ext, a0, _, _, _, _, a5, a6, a7, _, _, _, _, a12⟩ :=
    processPartBuffer_spec flags convert_format recycled destination wrapped b stream_id i w
      s part hs hpool hpart
  obtain ⟨r1, roi2, ext1, b0, _, _, _, _, b5, b6, _, _, _, _, _, b12⟩ :=
    processPartBuffer_spec flags convert_format recycled destination wrapped b stream_id i
      { w with stream := { w.stream with p_buffer_pool := none } } s part hs hpool hpart
  have hd : r.source.data = part.data := by rw [a5]
  have hroi : roi2 = roi1 := Option.some.inj (b12.symm.trans a12)
  refine ⟨r, roi1, a0, a5, hd, by rw [hd], fun k => by rw [hd], a6, ?_, r1, b0, ?_, b6⟩
  · intro hc
    rw [a7, hc]
    exact hd
  · rw [b5, a5, hroi]

theorem processPartBuffer_copies_part_witness :
    exampleProcessingWorld.stream.substreams[1]? = some exampleMono16 ∧
    exampleMono16.p_buffer_pool.isSome = true ∧
    exampleTwoParts.parts[1]? = some { x := 1, width := 32, height := 16, data := [7, 8] } ∧
    (processPartBuffer {} (fun _ => none) { data := [9] } {} { data := [5] } exampleTwoParts 0 1
      exampleProcessingWorld).map (fun r => (r.source.data, r.wrapped.data)) =
      some ([7, 8], [5]) := by
  obtain ⟨r, _, h0, _, h2, _, _, h5, _⟩ :=
    processPartBuffer_copies_part {} (fun _ => none) { data := [9] } {} { data := [5] }
      exampleTwoParts 0 1 exampleProcessingWorld exampleMono16 _ rfl rfl rfl
  refine ⟨rfl, rfl, rfl, ?_⟩
  rw [h0, Option.map_some', h2, h5]
  rfl
/-- C13, as stated, fails in `processPartBuffer`: with no conversion registered the published
image is not the image as `fillImage` left it, since the bytes of the part are copied into
its data after `fillImage`. -/
theorem processPartBuffer_published_differs_from_stamped :
    (processPartBuffer {} (fun _ => none) { data := [9] } {} {} exampleTwoParts 0 1
      exampleProcessingWorld).map (fun r => r.published) =
      some { header_stamp := 77, header_seq := 9, header_frame_id := "cam/b", height := 16,
             width := 32, encoding := "Mono16", step := 64, data := [7, 8] } ∧
    fillImage false { data := [9] } exampleTwoParts exampleMono16.frame_id exampleMono16.sensor
      { x := 1, width := 32, height := 16 } =
      { header_stamp := 77, header_seq := 9, header_frame_id := "cam/b", height := 16,
        width := 32, encoding := "Mono16", step := 64, data := [9] } ∧
    ({ header_stamp := 77, header_seq := 9, header_frame_id := "cam/b", height := 16,
       width := 32, encoding := "Mono16", step := 64, data := [7, 8] } : Image) ≠
      { header_stamp := 77, header_seq := 9, header_frame_id := "cam/b", height := 16,
        width := 32, encoding := "Mono16", step := 64, data := [9] } := by
  refine ⟨rfl, rfl, by decide⟩

/-- C13, amended. In `processImageBuffer` and `processPartBuffer`, when the substream has a
registered conversion function the published image is the destination image of the pool as
that function leaves it when invoked on (source, destination); when none is registered the
published image is the source image itself. The source is the image as `fillImage` left it
in `processImageBuffer`, and in `processPartBuffer` the image `fillImage` stamped with the
bytes of the part copied into its data. Either function publishes exactly this one image. -/
theorem published_image_is_converted_or_source (flags : NodeletFlags)
    (convert_format : Nat → Option ConversionFunction)
    (recycled destination wrapped msg : Image) (b : ArvBuffer) (stream_id thread i : Nat)
    (w : World) :
    (∀ s0 part, w.stream.substreams[0]? = some s0 → b.parts[0]? = some part →
      (convert_format 0 = none ∨ w.stream.p_buffer_pool.isSome = true) →
      ∃ r roi1, processImageBuffer flags convert_format destination b stream_id thread msg w =
          some r ∧
        (adaptROI b s0.roi stream_id 0).map Prod.fst = some roi1 ∧
        r.source = fillImage flags.use_ptp_stamp msg b s0.frame_id s0.sensor roi1 ∧
        (∀ f, convert_format 0 = some f → r.published = f r.source destination) ∧
        (convert_format 0 = none → r.published = r.source) ∧
        publications r.world.trace = publications w.trace ++ [(0, r.published)]) ∧
    (∀ s part, w.stream.substreams[i]? = some s → s.p_buffer_pool.isSome = true →
      b.parts[i]? = some part →
      ∃ r roi1, processPartBuffer flags convert_format recycled destination wrapped b
          stream_id i w = some r ∧
        (adaptROI b s.roi stream_id i).map Prod.fst = some roi1 ∧
        r.source = { fillImage flags.use_ptp_stamp recycled b s.frame_id s.sensor roi1 with
          data := part.data } ∧
        (∀ f, convert_format i = some f → r.published = f r.source destination) ∧
        (convert_format i = none → r.published = r.source) ∧
        publications r.world.trace = publications w.trace ++ [(i, r.published)]) := by
  constructor
  · intro s0 part hs hpart hconv
    obtain ⟨r, roi1, ext, a0, _, _, _, _, a5, _, a7, _, a9, _, a11, a12⟩ :=
      processImageBuffer_spec flags convert_format destination msg b stream_id thread w s0 part
        hs hpart hconv
    refine ⟨r, roi1, a0, a12, a5, ?_, ?_, ?_⟩
    · intro f hc
      rw [a7, hc]
    · intro hc
      rw [a7, hc]
    · rw [a9, publications_append, a11]
  · intro s part hs hpool hpart
    obtain ⟨r, roi1, ext, a0, _, _, _, _, a5, _, a7, _, a9, _, a11, a12⟩ :=
      processPartBuffer_spec flags convert_format recycled destination wrapped b stream_id i w
        s part hs hpool hpart
    refine ⟨r, roi1, a0, a12, a5, ?_, ?_, ?_⟩
    · intro f hc
      rw [a7, hc]
    · intro hc
      rw [a7, hc]
    · rw [a9, publications_append, a11]

theorem published_image_is_converted_or_source_witness :
    exampleProcessingWorld.stream.substreams[0]? = some exampleMono8 ∧
    exampleOnePart.parts[0]? = some { width := 640, height := 480, data := [1, 2, 3] } ∧
    exampleProcessingWorld.stream.p_buffer_pool.isSome = true ∧
    (processImageBuffer {} (fun _ => some exampleConversion) {} exampleOnePart 0 0 {}
      exampleProcessingWorld).map (fun r => (r.source.data, r.published.data)) =
      some ([], []) ∧
    exampleProcessingWorld.stream.substreams[1]? = some exampleMono16 ∧
    exampleMono16.p_buffer_pool.isSome = true ∧
    exampleTwoParts.parts[1]? = some { x := 1, width := 32, height := 16, data := [7, 8] } ∧
    (processPartBuffer {} (fun _ => some exampleConversion) {} {} {} exampleTwoParts 0 1
      exampleProcessingWorld).map (fun r => (r.source.data, r.published.data)) =
      some ([7, 8], [8, 7]) := by
  have t := published_image_is_converted_or_source {} (fun _ => some exampleConversion)
    {} {} {} {} exampleOnePart 0 0 0 exampleProcessingWorld
  have u := published_image_is_converted_or_source {} (fun _ => some exampleConversion)
    {} {} {} {} exampleTwoParts 0 0 1 exampleProcessingWorld
  obtain ⟨r, _, h0, _, h2, h3, _⟩ := t.1 exampleMono8 _ rfl rfl (Or.inr rfl)
  obtain ⟨q, _, g0, _, g2, g3, _⟩ := u.2 exampleMono16 _ rfl rfl rfl
  refine ⟨rfl, rfl, rfl, ?_, rfl, rfl, rfl, ?_⟩
  · rw [h0, Option.map_some', h3 exampleConversion rfl, h2]
    rfl
  · rw [g0, Option.map_some', g3 exampleConversion rfl, g2]
    rfl

/-! ## C14: the pool grows by one buffer per starved callback -/

theorem allocated_append (l1 l2 : List Event) :
    allocated (l1 ++ l2) = allocated l1 + allocated l2 := by
  simp [allocated]

theorem allocated_emit (e : Event) (w : World) :
    allocated (emit e w).trace = allocated w.trace + allocatedBy e := by
  simp [allocated]

theorem allocated_releaseImage (img : Option ImagePtr) (w : World) :
    allocated (releaseImage img w).trace = allocated w.trace := by
  rw [releaseImage_trace, allocated_append]
  cases img with
  | none => rfl
  | some p =>
    simp only
    split <;> rfl

theorem allocated_of_dropOrPush_or_notify (l : List Event)
    (h : ∀ e ∈ l, isDropOrPush e = true ∨ ∃ j, e = Event.notify j) : allocated l = 0 := by
  induction l with
  | nil => rfl
  | cons a rest ih =>
    have hr := ih (fun e he => h e (List.mem_cons_of_mem a he))
    have ha : allocatedBy a = 0 := by
      rcases h a (List.mem_cons_self a rest) with h1 | ⟨j, h1⟩
      · cases a <;> first | rfl | simp [isDropOrPush] at h1
      · subst h1; rfl
    simp only [allocated, List.map_cons, List.sum_cons] at hr ⊢
    omega

/-- The start of the callback: the pool and the trace after the test of
`n_available_buffers`. -/
theorem allocateIfStarved_some (n : Int) (w wa : World)
    (h : (if n = 0 then allocateBuffers 1 w else some w) = some wa) :
    wa.stream.p_buffer_pool =
      w.stream.p_buffer_pool.map (fun p => { p with n_buffers := p.n_buffers + starved n }) ∧
    allocated wa.trace = allocated w.trace + starved n ∧
    (starved n = 0 ∨ w.stream.p_buffer_pool.isSome = true) := by
  by_cases hn : n = 0
  · simp only [hn, if_true] at h
    unfold allocateBuffers at h
    cases hp : w.stream.p_buffer_pool with
    | none => simp [hp] at h
    | some pool =>
      simp only [hp, Option.some.injEq] at h
      subst h
      simp only [emit_stream, emit_trace, Option.map_some', starved, hn, if_true]
      refine ⟨trivial, ?_, Or.inr rfl⟩
      rw [allocated_append]; rfl
  · simp only [hn, if_false, Option.some.injEq] at h
    subst h
    simp only [starved, hn, if_false, Nat.add_zero]
    refine ⟨?_, trivial, Or.inl trivial⟩
    cases w.stream.p_buffer_pool <;> rfl

theorem delegateBufferN_some_le (b : ArvBuffer) (k : Nat) (u w1 : World)
    (hk : delegateBufferN b k u = some w1) :
    k ≤ u.stream.substreams.length ∧ u.stream.p_buffer_pool.isSome = true := by
  have hpool : u.stream.p_buffer_pool.isSome = true := by
    cases hp : u.stream.p_buffer_pool with
    | none => simp [delegateBufferN, hp] at hk
    | some _ => rfl
  refine ⟨?_, hpool⟩
  by_cases h0 : k = 0
  · omega
  · unfold delegateBufferN at hk
    cases hp : u.stream.p_buffer_pool with
    | none => simp [hp] at hpool
    | some _ =>
      simp only [hp] at hk
      cases hl : depositLoop b (wrapBuffer b u).1 0 k (wrapBuffer b u).2 with
      | none => simp [hl] at hk
      | some w2 =>
        have := depositLoop_some_le _ _ _ _ _ _ hl (by omega)
        simpa [wrapBuffer] using this

theorem delegateBufferN_some_pool (b : ArvBuffer) (k : Nat) (u w1 : World)
    (hk : delegateBufferN b k u = some w1) :
    w1.stream.p_buffer_pool = u.stream.p_buffer_pool ∧ allocated w1.trace = allocated u.trace := by
  obtain ⟨hle, hpool⟩ := delegateBufferN_some_le b k u w1 hk
  obtain ⟨w2, ext, e0, _, e2, _, _, e5, _, e7⟩ := delegateBufferN_spec b k u hle hpool
  have e : w2 = w1 := Option.some.inj (e0.symm.trans hk)
  subst e
  refine ⟨e2, ?_⟩
  rw [e5, allocated_append, allocated_append, allocated_of_dropOrPush_or_notify ext e7]
  rfl

theorem delegateBuffer_some_pool (b : ArvBuffer) (u w1 : World)
    (h : delegateBuffer b u = some w1) :
    w1.stream.p_buffer_pool = u.stream.p_buffer_pool ∧ allocated w1.trace = allocated u.trace := by
  unfold delegateBuffer at h
  simp only at h
  have hN : ∀ k, delegateBufferN b k (emit (Event.call_delegateBuffer b.handle) u) = some w1 →
      w1.stream.p_buffer_pool = u.stream.p_buffer_pool ∧
        allocated w1.trace = allocated u.trace := by
    intro k hk
    obtain ⟨a1, a2⟩ := delegateBufferN_some_pool b k _ w1 hk
    rw [a1, a2, allocated_emit]
    exact ⟨rfl, rfl⟩
  cases hp : b.payload_type with
  | image => rw [hp] at h; exact hN 1 h
  | multipart => rw [hp] at h; exact hN _ h
  | chunk_data =>
    rw [hp] at h
    simp only [delegateChunkDataBuffer, Option.some.injEq] at h
    subst h
    exact ⟨rfl, by simp only [allocated_emit]; rfl⟩
  | other code =>
    rw [hp] at h
    simp only [Option.some.injEq] at h
    subst h
    exact ⟨rfl, by simp only [allocated_emit]; rfl⟩

theorem delegateBufferBegin_some_pool (b : ArvBuffer) (u w1 : World)
    (h : delegateBufferBegin b u = some w1) :
    w1.stream.p_buffer_pool = u.stream.p_buffer_pool ∧ allocated w1.trace = allocated u.trace := by
  unfold delegateBufferBegin at h
  simp only at h
  have hN : ∀ k : Nat, (match (emit (Event.call_delegateBuffer b.handle) u).stream.p_buffer_pool with
      | none => none
      | some _ => some { (wrapBuffer b (emit (Event.call_delegateBuffer b.handle) u)).2 with
          producer := some ⟨b, (wrapBuffer b (emit (Event.call_delegateBuffer b.handle) u)).1, 0, k⟩ }) =
        some w1 →
      w1.stream.p_buffer_pool = u.stream.p_buffer_pool ∧
        allocated w1.trace = allocated u.trace := by
    intro k hk
    cases hp : u.stream.p_buffer_pool with
    | none => simp [hp] at hk
    | some pool =>
      simp only [emit_stream, hp, Option.some.injEq] at hk
      subst hk
      exact ⟨hp, by simp only [wrapBuffer, allocated_emit]; rfl⟩
  cases hp : b.payload_type with
  | image => rw [hp] at h; exact hN 1 h
  | multipart => rw [hp] at h; exact hN _ h
  | chunk_data =>
    rw [hp] at h
    simp only [delegateChunkDataBuffer, Option.some.injEq] at h
    subst h
    exact ⟨rfl, by simp only [allocated_emit]; rfl⟩
  | other code =>
    rw [hp] at h
    simp only [Option.some.injEq] at h
    subst h
    exact ⟨rfl, by simp only [allocated_emit]; rfl⟩

theorem newBufferReady_pool (popped : Option ArvBuffer) (n : Int) (w w1 : World)
    (h : newBufferReady popped n w = some w1) :
    w1.stream.p_buffer_pool =
      w.stream.p_buffer_pool.map (fun p => { p with n_buffers := p.n_buffers + starved n }) ∧
    allocated w1.trace = allocated w.trace + starved n ∧
    (starved n = 0 ∨ w.stream.p_buffer_pool.isSome = true) := by
  unfold newBufferReady at h
  cases popped with
  | none =>
    simp only at h
    cases ha : (if n = 0 then allocateBuffers 1 w else some w) with
    | none => simp [ha] at h
    | some wa =>
      simp only [ha, Option.some.injEq] at h
      subst h
      exact allocateIfStarved_some n w wa ha
  | some b =>
    simp only at h
    cases ha : (if n = 0 then allocateBuffers 1 (emit (Event.pop b.handle) w)
        else some (emit (Event.pop b.handle) w)) with
    | none => simp [ha] at h
    | some wa =>
      obtain ⟨a1, a2, a4⟩ := allocateIfStarved_some n _ wa ha
      rw [emit_stream] at a1
      rw [allocated_emit] at a2
      have a3 : allocated wa.trace = allocated w.trace + starved n := by rw [a2]; rfl
      simp only [ha] at h
      cases hs : wa.stream.substreams[0]? with
      | none => simp [hs] at h
      | some s0 =>
        simp only [hs] at h
        have hu : (if (!decide (b.status = ArvBufferStatus.success)) = true then
            emit (Event.warn_frame_error b.handle) wa else wa).stream.p_buffer_pool =
              wa.stream.p_buffer_pool ∧
            allocated (if (!decide (b.status = ArvBufferStatus.success)) = true then
            emit (Event.warn_frame_error b.handle) wa else wa).trace = allocated wa.trace := by
          split
          · exact ⟨rfl, by simp only [allocated_emit]; rfl⟩
          · exact ⟨rfl, rfl⟩
        generalize (if (!decide (b.status = ArvBufferStatus.success)) = true then
            emit (Event.warn_frame_error b.handle) wa else wa) = u at h hu
        split at h
        · simp only [Option.some.injEq] at h
          subst h
          refine ⟨?_, ?_, a4⟩
          · rw [emit_stream, hu.1, a1]
          · rw [allocated_emit, hu.2, a3]; rfl
        · obtain ⟨d1, d2⟩ := delegateBuffer_some_pool b u w1 h
          exact ⟨by rw [d1, hu.1, a1], by rw [d2, hu.2, a3], a4⟩

theorem newBufferReadyBegin_pool (popped : Option ArvBuffer) (n : Int) (w w1 : World)
    (h : newBufferReadyBegin popped n w = some w1) :
    w1.stream.p_buffer_pool =
      w.stream.p_buffer_pool.map (fun p => { p with n_buffers := p.n_buffers + starved n }) ∧
    allocated w1.trace = allocated w.trace + starved n ∧
    (starved n = 0 ∨ w.stream.p_buffer_pool.isSome = true) := by
  unfold newBufferReadyBegin at h
  cases popped with
  | none =>
    simp only at h
    cases ha : (if n = 0 then allocateBuffers 1 w else some w) with
    | none => simp [ha] at h
    | some wa =>
      simp only [ha, Option.some.injEq] at h
      subst h
      exact allocateIfStarved_some n w wa ha
  | some b =>
    simp only at h
    cases ha : (if n = 0 then allocateBuffers 1 (emit (Event.pop b.handle) w)
        else some (emit (Event.pop b.handle) w)) with
    | none => simp [ha] at h
    | some wa =>
      obtain ⟨a1, a2, a4⟩ := allocateIfStarved_some n _ wa ha
      rw [emit_stream] at a1
      rw [allocated_emit] at a2
      have a3 : allocated wa.trace = allocated w.trace + starved n := by rw [a2]; rfl
      simp only [ha] at h
      cases hs : wa.stream.substreams[0]? with
      | none => simp [hs] at h
      | some s0 =>
        simp only [hs] at h
        have hu : (if (!decide (b.status = ArvBufferStatus.success)) = true then
            emit (Event.warn_frame_error b.handle) wa else wa).stream.p_buffer_pool =
              wa.stream.p_buffer_pool ∧
            allocated (if (!decide (b.status = ArvBufferStatus.success)) = true then
            emit (Event.warn_frame_error b.handle) wa else wa).trace = allocated wa.trace := by
          split
          · exact ⟨rfl, by simp only [allocated_emit]; rfl⟩
          · exact ⟨rfl, rfl⟩
        generalize (if (!decide (b.status = ArvBufferStatus.success)) = true then
            emit (Event.warn_frame_error b.handle) wa else wa) = u at h hu
        split at h
        · simp only [Option.some.injEq] at h
          subst h
          refine ⟨?_, ?_, a4⟩
          · rw [emit_stream, hu.1, a1]
          · rw [allocated_emit, hu.2, a3]; rfl
        · obtain ⟨d1, d2⟩ := delegateBufferBegin_some_pool b u w1 h
          exact ⟨by rw [d1, hu.1, a1], by rw [d2, hu.2, a3], a4⟩

theorem poolSize_of_map (w w1 : World) (k : Nat)
    (h : w1.stream.p_buffer_pool =
      w.stream.p_buffer_pool.map (fun p => { p with n_buffers := p.n_buffers + k }))
    (hk : k = 0 ∨ w.stream.p_buffer_pool.isSome = true) :
    poolSize w1 = poolSize w + k := by
  unfold poolSize
  rw [h]
  cases hp : w.stream.p_buffer_pool with
  | none =>
    rcases hk with hk | hk
    · subst hk; rfl
    · simp [hp] at hk
  | some pool => rfl

theorem poolSize_eq_of_pool_eq (w w1 : World)
    (h : w1.stream.p_buffer_pool = w.stream.p_buffer_pool) : poolSize w1 = poolSize w := by
  unfold poolSize
  rw [h]

theorem deposit_pool (b : ArvBuffer) (m : ImagePtr) (i : Nat) (w w1 : World)
    (h : deposit b m i w = some w1) :
    w1.stream.p_buffer_pool = w.stream.p_buffer_pool ∧ allocated w1.trace = allocated w.trace := by
  cases hs : w.stream.substreams[i]? with
  | none => simp [deposit, hs] at h
  | some s =>
    obtain ⟨w2, ext, d0, _, d2, _, _, d5, d6, _⟩ := deposit_spec b m i w s hs
    have e : w2 = w1 := Option.some.inj (d0.symm.trans h)
    subst e
    refine ⟨d2, ?_⟩
    rw [d5, allocated_append, allocated_append,
      allocated_of_dropOrPush_or_notify ext (fun e he => Or.inl (d6 e he))]
    rfl

/-- One step of a run adds to the pool what a starved callback allocates and nothing else. -/
theorem step_pool (w w1 : World) (s : Step) (h : step w s = some w1) :
    poolSize w1 = poolSize w + starvedCallbacks [s] ∧
    allocated w1.trace = allocated w.trace + starvedCallbacks [s] := by
  cases s with
  | callback popped n =>
    simp only [step] at h
    split at h
    · obtain ⟨a1, a2, a3⟩ := newBufferReadyBegin_pool popped n w w1 h
      exact ⟨poolSize_of_map w w1 _ a1 a3, a2⟩
    · simp at h
  | route =>
    simp only [step, routeStep] at h
    cases hp : w.producer with
    | none => simp [hp] at h
    | some r =>
      simp only [hp] at h
      split at h
      · cases hd : deposit r.p_buffer r.msg_ptr r.i w with
        | none => simp [hd] at h
        | some w2 =>
          simp only [hd, Option.some.injEq] at h
          subst h
          obtain ⟨d1, d2⟩ := deposit_pool _ _ _ _ _ hd
          exact ⟨poolSize_eq_of_pool_eq _ _ d1, d2⟩
      · simp only [Option.some.injEq] at h
        subst h
        refine ⟨poolSize_eq_of_pool_eq _ _ ?_, ?_⟩
        · show (releaseImage (some r.msg_ptr) w).stream.p_buffer_pool = _
          rw [releaseImage_stream]
        · exact allocated_releaseImage _ _
  | wake i =>
    simp only [step] at h
    cases hs : w.stream.substreams[i]? with
    | none => simp [hs] at h
    | some s =>
      simp only [hs] at h
      split at h
      · simp only [threadWake, hs, Option.some.injEq] at h
        subst h
        refine ⟨poolSize_eq_of_pool_eq _ _ ?_, ?_⟩
        · simp
        · rw [setSubstream_trace, allocated_releaseImage, copyImage_trace]; rfl
      · simp at h
  | timeout i ros_ok =>
    simp only [step] at h
    cases hs : w.stream.substreams[i]? with
    | none => simp [hs] at h
    | some s =>
      simp only [hs] at h
      split at h
      · simp only [threadTimeout, hs, Option.some.injEq] at h
        subst h
        exact ⟨rfl, rfl⟩
      · simp at h
  | done i =>
    simp only [step, threadDone] at h
    cases hs : w.stream.substreams[i]? with
    | none => simp [hs] at h
    | some s =>
      simp only [hs] at h
      split at h
      · simp only [Option.some.injEq] at h
        subst h
        refine ⟨poolSize_eq_of_pool_eq _ _ ?_, ?_⟩
        · simp
        · rw [setSubstream_trace, allocated_releaseImage]; rfl
      · simp at h
  | subscribers i k =>
    simp only [step] at h
    cases hs : w.stream.substreams[i]? with
    | none => simp [hs] at h
    | some s =>
      simp only [hs, Option.some.injEq] at h
      subst h
      exact ⟨rfl, rfl⟩
  | stop i =>
    simp only [step] at h
    cases hs : w.stream.substreams[i]? with
    | none => simp [hs] at h
    | some s =>
      simp only [hs, Option.some.injEq] at h
      subst h
      exact ⟨rfl, rfl⟩

theorem starvedCallbacks_cons (s : Step) (rest : List Step) :
    starvedCallbacks (s :: rest) = starvedCallbacks [s] + starvedCallbacks rest := by
  cases s <;> simp [starvedCallbacks]

theorem run_pool (steps : List Step) (w w1 : World) (h : run w steps = some w1) :
    poolSize w1 = poolSize w + starvedCallbacks steps ∧
    allocated w1.trace = allocated w.trace + starvedCallbacks steps := by
  induction steps generalizing w with
  | nil =>
    simp only [run, Option.some.injEq] at h
    subst h
    exact ⟨rfl, rfl⟩
  | cons s rest ih =>
    simp only [run] at h
    cases hs : step w s with
    | none => simp [hs] at h
    | some w2 =>
      simp only [hs] at h
      obtain ⟨a1, a2⟩ := step_pool w w2 s hs
      obtain ⟨b1, b2⟩ := ih w2 h
      rw [starvedCallbacks_cons]
      omega

theorem newBufferReady_returns (popped : Option ArvBuffer) (n : Int) (w : World)
    (hpool : w.stream.p_buffer_pool.isSome = true)
    (hb : ∀ b, popped = some b → w.stream.substreams ≠ [] ∧
      (b.payload_type = ArvBufferPayloadType.multipart →
        b.n_parts ≤ w.stream.substreams.length)) :
    ∃ w1, newBufferReady popped n w = some w1 := by
  cases popped with
  | none =>
    unfold newBufferReady allocateBuffers
    cases hp : w.stream.p_buffer_pool with
    | none => simp [hp] at hpool
    | some pool =>
      simp only [hp]
      by_cases hn : n = 0
      · simp only [hn, if_true]
        exact ⟨_, rfl⟩
      · simp only [hn, if_false]
        exact ⟨_, rfl⟩
  | some b =>
    obtain ⟨hN, hparts⟩ := hb b rfl
    obtain ⟨u, u1, _, _, u4, _, u6⟩ := newBufferReady_guard b n w hN (fun _ => hpool)
    rw [u6]
    split
    · exact ⟨_, rfl⟩
    · have hlen : 1 ≤ u.stream.substreams.length := by
        rw [u1]
        cases hl : w.stream.substreams with
        | nil => exact absurd hl hN
        | cons a rest => simp
      have hN2 : ∀ k, k ≤ u.stream.substreams.length →
          ∃ w1, delegateBufferN b k (emit (Event.call_delegateBuffer b.handle) u) = some w1 := by
        intro k hk
        obtain ⟨w1, _, e0, _⟩ := delegateBufferN_spec b k
          (emit (Event.call_delegateBuffer b.handle) u) hk (by rw [emit_stream, u4]; exact hpool)
        exact ⟨w1, e0⟩
      unfold delegateBuffer
      simp only
      cases hp : b.payload_type with
      | image => exact hN2 1 hlen
      | multipart => exact hN2 _ (by rw [u1]; exact hparts hp)
      | chunk_data => exact ⟨_, rfl⟩
      | other code => exact ⟨_, rfl⟩

/-- C14. An execution of `newBufferReady` on a stream with a pool adds exactly one buffer
to the pool when the hardware reported 0 available buffers and none when the reported
count is not 0: the pool afterwards has `starved n` more buffers and the trace has that many
more allocated buffers, whatever was popped. The callback returns whenever the stream has a
substream for every part of the popped buffer. Over every run of callbacks and thread
steps the size of the pool is its size at the start plus the number of callbacks that were
reported 0 available buffers, so that it never decreases. -/
theorem newBufferReady_grows_pool_when_starved (popped : Option ArvBuffer) (n : Int)
    (w : World) (pool : CameraBufferPool) (hpool : w.stream.p_buffer_pool = some pool) :
    (∀ w1, newBufferReady popped n w = some w1 →
      w1.stream.p_buffer_pool =
        some { pool with n_buffers := pool.n_buffers + (if n = 0 then 1 else 0) } ∧
      allocated w1.trace = allocated w.trace + (if n = 0 then 1 else 0)) ∧
    ((∀ b, popped = some b → w.stream.substreams ≠ [] ∧
        (b.payload_type = ArvBufferPayloadType.multipart →
          b.n_parts ≤ w.stream.substreams.length)) →
      ∃ w1, newBufferReady popped n w = some w1) ∧
    (∀ steps w1, run w steps = some w1 →
      poolSize w1 = pool.n_buffers + starvedCallbacks steps ∧
      pool.n_buffers ≤ poolSize w1 ∧
      allocated w1.trace = allocated w.trace + starvedCallbacks steps) := by
  refine ⟨?_, ?_, ?_⟩
  · intro w1 h
    obtain ⟨a1, a2, _⟩ := newBufferReady_pool popped n w w1 h
    rw [hpool] at a1
    exact ⟨a1, a2⟩
  · intro hb
    exact newBufferReady_returns popped n w (by rw [hpool]; rfl) hb
  · intro steps w1 h
    obtain ⟨a1, a2⟩ := run_pool steps w w1 h
    have hs : poolSize w = pool.n_buffers := by
      unfold poolSize
      rw [hpool]
    rw [hs] at a1
    exact ⟨a1, by omega, a2⟩

theorem newBufferReady_grows_pool_when_starved_witness :
    exampleWorld.stream.p_buffer_pool = some {} ∧
    newBufferReady (some (exampleImage 1)) 0 exampleWorld = some exampleStarved ∧
    exampleStarved.stream.p_buffer_pool = some { n_buffers := 1 } ∧
    allocated exampleStarved.trace = 1 ∧
    run exampleWorld exampleRun = some exampleFinal ∧
    poolSize exampleFinal = 1 := by
  have t := newBufferReady_grows_pool_when_starved (some (exampleImage 1)) 0 exampleWorld {} rfl
  have h0 : newBufferReady (some (exampleImage 1)) 0 exampleWorld = some exampleStarved := rfl
  have h1 : run exampleWorld exampleRun = some exampleFinal := rfl
  exact ⟨rfl, h0, (t.1 exampleStarved h0).1, (t.1 exampleStarved h0).2, h1,
    (t.2.2 exampleRun exampleFinal h1).1⟩

/-! ## C15: the hand-over under the lock -/

theorem processImageBuffer_some_trace (flags : NodeletFlags)
    (convert_format : Nat → Option ConversionFunction) (destination msg : Image)
    (b : ArvBuffer) (stream_id thread : Nat) (w : World) (r : Processed)
    (h : processImageBuffer flags convert_format destination b stream_id thread msg w = some r) :
    ∃ ext, r.world.trace = w.trace ++ ext ∧
      ∀ e ∈ ext, isProcessingEvent e = true ∨ ∃ x, e = Event.push x := by
  cases hs : w.stream.substreams[0]? with
  | none => simp [processImageBuffer, hs] at h
  | some s0 =>
    cases hpart : b.parts[0]? with
    | none => simp [processImageBuffer, hs, adaptROI, hpart] at h
    | some part =>
      have hconv : convert_format 0 = none ∨ w.stream.p_buffer_pool.isSome = true := by
        cases hc : convert_format 0 with
        | none => exact Or.inl rfl
        | some f =>
          right
          cases hp : w.stream.p_buffer_pool with
          | some _ => rfl
          | none =>
            obtain ⟨roi1, log, a0, _⟩ := adaptROI_some b s0.roi stream_id 0 part hpart
            simp [processImageBuffer, hs, a0, hc, hp] at h
      obtain ⟨r1, _, ext, a0, _, _, _, _, _, _, _, _, a9, a10, _⟩ :=
        processImageBuffer_spec flags convert_format destination msg b stream_id thread w s0 part
          hs hpart hconv
      have e : r1 = r := Option.some.inj (a0.symm.trans h)
      subst e
      exact ⟨ext, a9, a10⟩

theorem processPartBuffer_some_trace (flags : NodeletFlags)
    (convert_format : Nat → Option ConversionFunction) (recycled destination wrapped : Image)
    (b : ArvBuffer) (stream_id i : Nat) (w : World) (r : Processed)
    (h : processPartBuffer flags convert_format recycled destination wrapped b stream_id i w =
      some r) :
    ∃ ext, r.world.trace = w.trace ++ ext ∧
      ∀ e ∈ ext, isProcessingEvent e = true ∨ ∃ x, e = Event.push x := by
  cases hs : w.stream.substreams[i]? with
  | none => simp [processPartBuffer, hs] at h
  | some s =>
    cases hpool : s.p_buffer_pool.isSome with
    | false => simp [processPartBuffer, hs, hpool] at h
    | true =>
      cases hpart : b.parts[i]? with
      | none => simp [processPartBuffer, hs, hpool, adaptROI, hpart] at h
      | some part =>
        obtain ⟨r1, _, ext, a0, _, _, _, _, _, _, _, _, a9, a10, _⟩ :=
          processPartBuffer_spec flags convert_format recycled destination wrapped b stream_id i w
            s part hs hpool hpart
        have e : r1 = r := Option.some.inj (a0.symm.trans h)
        subst e
        exact ⟨ext, a9, fun e he => Or.inl (a10 e he)⟩

theorem processTaken_some_trace (flags : NodeletFlags)
    (convert_format : Nat → Option ConversionFunction) (recycled destination wrapped : Image)
    (stream_id i : Nat) (u w2 : World)
    (h : processTaken flags convert_format recycled destination wrapped stream_id i u = some w2) :
    ∃ ext, w2.trace = u.trace ++ ext ∧
      ∀ e ∈ ext, isProcessingEvent e = true ∨ ∃ x, e = Event.push x := by
  unfold processTaken at h
  cases hs : u.stream.substreams[i]? with
  | none => simp [hs] at h
  | some s =>
    simp only [hs] at h
    cases ht : s.buffer_thread with
    | waiting => simp [ht] at h
    | finished => simp [ht] at h
    | processing p_buffer img =>
      simp only [ht] at h
      cases hp : processingOf p_buffer with
      | processImageBuffer b =>
        simp only [hp, Option.map_eq_some'] at h
        obtain ⟨r, h1, h2⟩ := h
        subst h2
        exact processImageBuffer_some_trace _ _ _ _ _ _ _ _ _ h1
      | processPartBuffer b =>
        simp only [hp, Option.map_eq_some'] at h
        obtain ⟨r, h1, h2⟩ := h
        subst h2
        exact processPartBuffer_some_trace _ _ _ _ _ _ _ _ _ _ h1
      | ignoreUnsupported =>
        simp only [hp, Option.some.injEq] at h
        subst h
        refine ⟨[Event.error_unsupported (takenPayloadType p_buffer)], rfl, ?_⟩
        intro e he
        simp only [List.mem_singleton] at he
        subst he
        exact Or.inl rfl

theorem threadWake_spec (i : Nat) (w : World) (s : Substream)
    (hs : w.stream.substreams[i]? = some s) :
    ∃ w1 pre, threadWake i w = some w1 ∧
      w1.stream.substreams = w.stream.substreams.set i
        { s with p_buffer := none, p_buffer_image := none,
                 buffer_thread := ThreadState.processing s.p_buffer s.p_buffer_image } ∧
      w1.stream.p_buffer_pool = w.stream.p_buffer_pool ∧
      w1.trace = w.trace ++ pre ∧ ∀ e ∈ pre, ∃ x, e = Event.push x := by
  unfold threadWake
  simp only [hs]
  refine ⟨_, (match s.p_buffer_image with
      | none => []
      | some p => if (copyImage s.p_buffer_image w).use_count p.wraps = 1 then
          [Event.push p.wraps] else []), rfl, by simp, by simp, ?_, ?_⟩
  · rw [setSubstream_trace, releaseImage_trace, copyImage_trace]
  · intro e he
    cases himg : s.p_buffer_image with
    | none => simp [himg] at he
    | some p =>
      simp only [himg] at he
      split at he
      · simp only [List.mem_singleton] at he
        exact ⟨_, he⟩
      · simp at he

/-- C15. When the thread of substream `i` is signalled, the hand-over is defined for every
content of the slot; after it the thread holds, as its locals, exactly the buffer pointer
and the image reference the slot held before, and the slot is empty (pointer null, image
reference reset). The hand-over logs no processing event, the iteration continues with
`lock.unlock()` and only then with the dispatch, so that in every iteration that returns
the trace is the old one, what the hand-over logged, the unlock, and after it all the
events of the processing, conversion and publication. -/
theorem threadSignalled_takes_pair_then_unlocks (flags : NodeletFlags)
    (convert_format : Nat → Option ConversionFunction) (recycled destination wrapped : Image)
    (stream_id i : Nat) (w : World) (s : Substream)
    (hs : w.stream.substreams[i]? = some s) :
    ∃ w1 pre, threadWake i w = some w1 ∧
      w1.stream.substreams[i]? = some
        { s with p_buffer := none, p_buffer_image := none,
                 buffer_thread := ThreadState.processing s.p_buffer s.p_buffer_image } ∧
      w1.trace = w.trace ++ pre ∧
      (∀ e ∈ pre, isProcessingEvent e = false ∧ e ≠ Event.unlock i) ∧
      threadSignalled flags convert_format recycled destination wrapped stream_id i w =
        processTaken flags convert_format recycled destination wrapped stream_id i
          (emit (Event.unlock i) w1) ∧
      ∀ w2, threadSignalled flags convert_format recycled destination wrapped stream_id i w =
          some w2 →
        ∃ rest, w2.trace = w.trace ++ pre ++ [Event.unlock i] ++ rest ∧
          Event.unlock i ∉ rest ∧
          publications w2.trace = publications w.trace ++ publications rest := by
  obtain ⟨w1, pre, a0, a1, _, a3, a4⟩ := threadWake_spec i w s hs
  have hpre : ∀ e ∈ pre, isProcessingEvent e = false ∧ e ≠ Event.unlock i := by
    intro e he
    obtain ⟨x, hx⟩ := a4 e he
    subst hx
    exact ⟨rfl, fun c => by cases c⟩
  have hpub : publications pre = [] := by
    clear a3
    induction pre with
    | nil => rfl
    | cons a rest ih =>
      obtain ⟨x, hx⟩ := a4 a (List.mem_cons_self a rest)
      subst hx
      exact ih (fun e he => a4 e (List.mem_cons_of_mem _ he))
        (fun e he => hpre e (List.mem_cons_of_mem _ he))
  have hsig : threadSignalled flags convert_format recycled destination wrapped stream_id i w =
      processTaken flags convert_format recycled destination wrapped stream_id i
        (emit (Event.unlock i) w1) := by
    unfold threadSignalled
    rw [a0]
  refine ⟨w1, pre, a0, ?_, a3, hpre, hsig, ?_⟩
  · rw [a1]
    exact getElem?_set_same _ _ _ _ hs
  · intro w2 h2
    rw [hsig] at h2
    obtain ⟨rest, b1, b2⟩ := processTaken_some_trace _ _ _ _ _ _ _ _ _ h2
    refine ⟨rest, ?_, ?_, ?_⟩
    · rw [b1, emit_trace, a3]
    · intro hmem
      rcases b2 _ hmem with h | ⟨x, h⟩
      · simp [isProcessingEvent] at h
      · cases h
    · rw [b1, emit_trace, a3, publications_append, publications_append, publications_append,
        hpub]
      simp [publications]

theorem threadSignalled_takes_pair_then_unlocks_witness :
    (exampleDeposited.stream.substreams[0]?).map
        (fun (s : Substream) => (s.p_buffer, s.p_buffer_image)) =
      some (some exampleOnePart, some ⟨5⟩) ∧
    threadWake 0 exampleDeposited = some exampleHandedOver ∧
    (exampleHandedOver.stream.substreams[0]?).map
        (fun (s : Substream) => (s.p_buffer, s.p_buffer_image, s.buffer_thread)) =
      some (none, none, ThreadState.processing (some exampleOnePart) (some ⟨5⟩)) ∧
    threadSignalled {} (fun _ => none) {} {} {} 0 0 exampleDeposited = some exampleProcessed ∧
    exampleProcessed.trace.drop exampleDeposited.trace.length =
      [Event.unlock 0, Event.warn_roi_mismatch 0 0 0 0 640 480, Event.fill_camera_info 0,
       Event.publish 0
         { header_stamp := 78, header_seq := 10, header_frame_id := "cam/a", height := 480,
           width := 640, encoding := "Mono8", step := 640 }] := by
  obtain ⟨w1, pre, h0, h1, _, _, _, h5⟩ :=
    threadSignalled_takes_pair_then_unlocks {} (fun _ => none) {} {} {} 0 0 exampleDeposited
      ((exampleDeposited.stream.substreams[0]?).getD {}) (by rfl)
  have e1 : w1 = exampleHandedOver := Option.some.inj (h0.symm.trans rfl)
  subst e1
  refine ⟨rfl, rfl, ?_, rfl, rfl⟩
  rw [h1]
  rfl

/-! ## C16, C17: the stop flag -/

theorem newBufferReadyBegin_substreams (popped : Option ArvBuffer) (n : Int) (w w1 : World)
    (hp : w.producer = none) (h : newBufferReadyBegin popped n w = some w1) :
    w1.stream.substreams = w.stream.substreams := by
  cases popped with
  | some b => exact (newBufferReadyBegin_some b n w w1 hp h).1
  | none =>
    unfold newBufferReadyBegin at h
    simp only at h
    by_cases hn : n = 0
    · simp only [hn, if_true] at h
      cases ha : allocateBuffers 1 w with
      | none => simp [ha] at h
      | some wa =>
        simp only [ha, Option.some.injEq] at h
        subst h
        exact (allocateBuffers_some _ _ _ ha).1
    · simp only [hn, if_false, Option.some.injEq] at h
      subst h
      rfl

/-- What one step of a run does to the thread and the stop flag of substream `i`: the flag
stays set, and only the steps of that thread move it, each one nearer to the end of
`substreamThreadMain`. -/
theorem step_thread (w w1 : World) (st : Step) (i : Nat) (s : Substream)
    (h : step w st = some w1) (hs : w.stream.substreams[i]? = some s)
    (hstop : s.buffer_thread_stop = true) :
    ∃ s1, w1.stream.substreams[i]? = some s1 ∧ s1.buffer_thread_stop = true ∧
      2 * timeoutOf i st + wakeOf i st + doneOf i st + threadRank s1.buffer_thread =
        threadRank s.buffer_thread ∧
      timeoutOf i st + wakeOf i st + waitsLeft s1.buffer_thread = waitsLeft s.buffer_thread := by
  have same : ∀ s1 : Substream, w1.stream.substreams[i]? = some s1 →
      s1.buffer_thread_stop = s.buffer_thread_stop → s1.buffer_thread = s.buffer_thread →
      timeoutOf i st = 0 → wakeOf i st = 0 → doneOf i st = 0 →
      ∃ s1, w1.stream.substreams[i]? = some s1 ∧ s1.buffer_thread_stop = true ∧
      2 * timeoutOf i st + wakeOf i st + doneOf i st + threadRank s1.buffer_thread =
        threadRank s.buffer_thread ∧
      timeoutOf i st + wakeOf i st + waitsLeft s1.buffer_thread = waitsLeft s.buffer_thread := by
    intro s1 h1 h2 h3 h4 h5 h6
    refine ⟨s1, h1, by rw [h2, hstop], ?_, ?_⟩
    · rw [h3, h4, h5, h6]; omega
    · rw [h3, h4, h5]; omega
  cases st with
  | callback popped n =>
    simp only [step] at h
    split at h
    · rename_i hg
      simp only [Bool.and_eq_true, Option.isNone_iff_eq_none] at hg
      have e := newBufferReadyBegin_substreams popped n w w1 hg.1 h
      exact same s (by rw [e, hs]) rfl rfl rfl rfl rfl
    · simp at h
  | route =>
    simp only [step, routeStep] at h
    cases hp : w.producer with
    | none => simp [hp] at h
    | some r =>
      simp only [hp] at h
      split at h
      · cases hd : deposit r.p_buffer r.msg_ptr r.i w with
        | none => simp [hd] at h
        | some w2 =>
          simp only [hd, Option.some.injEq] at h
          subst h
          by_cases hi : r.i = i
          · obtain ⟨w3, _, d0, d1, _⟩ := deposit_spec r.p_buffer r.msg_ptr r.i w s (by rw [hi, hs])
            have e : w3 = w2 := Option.some.inj (d0.symm.trans hd)
            subst e
            refine same { s with p_buffer := some r.p_buffer, p_buffer_image := some r.msg_ptr }
              ?_ rfl rfl rfl rfl rfl
            show w3.stream.substreams[i]? = _
            rw [d1, hi]
            exact getElem?_set_same _ _ _ _ hs
          · cases hr : w.stream.substreams[r.i]? with
            | none => simp [deposit, hr] at hd
            | some sr =>
              obtain ⟨w3, _, d0, d1, _⟩ := deposit_spec r.p_buffer r.msg_ptr r.i w sr hr
              have e : w3 = w2 := Option.some.inj (d0.symm.trans hd)
              subst e
              refine same s ?_ rfl rfl rfl rfl rfl
              show w3.stream.substreams[i]? = _
              rw [d1, getElem?_set_other _ _ _ _ hi, hs]
      · simp only [Option.some.injEq] at h
        subst h
        refine same s ?_ rfl rfl rfl rfl rfl
        show (releaseImage (some r.msg_ptr) w).stream.substreams[i]? = _
        rw [releaseImage_stream, hs]
  | wake j =>
    by_cases hi : j = i
    · subst hi
      simp only [step, hs] at h
      split at h
      · rename_i hw
        simp only [threadWake, hs, Option.some.injEq] at h
        subst h
        refine ⟨{ s with p_buffer := none, p_buffer_image := none,
                         buffer_thread := ThreadState.processing s.p_buffer s.p_buffer_image },
          ?_, hstop, ?_, ?_⟩
        · rw [setSubstream_substreams, releaseImage_stream, copyImage_stream]
          exact getElem?_set_same _ _ _ _ hs
        · rw [hw]; simp [timeoutOf, wakeOf, doneOf, threadRank]
        · rw [hw]; simp [timeoutOf, wakeOf, waitsLeft]
      · simp at h
    · simp only [step] at h
      cases hj : w.stream.substreams[j]? with
      | none => simp [hj] at h
      | some sj =>
        simp only [hj] at h
        split at h
        · simp only [threadWake, hj, Option.some.injEq] at h
          subst h
          refine same s ?_ rfl rfl rfl ?_ rfl
          · rw [setSubstream_substreams, releaseImage_stream, copyImage_stream,
              getElem?_set_other _ _ _ _ hi, hs]
          · simp [wakeOf, hi]
        · simp at h
  | timeout j ros_ok =>
    by_cases hi : j = i
    · subst hi
      simp only [step, hs] at h
      split at h
      · rename_i hw
        simp only [threadTimeout, hs, Option.some.injEq] at h
        subst h
        refine ⟨{ s with buffer_thread := ThreadState.finished }, ?_, hstop, ?_, ?_⟩
        · rw [setSubstream_substreams]
          simp only [hstop, Bool.true_or, if_true]
          exact getElem?_set_same _ _ _ _ hs
        · rw [hw]; simp [timeoutOf, wakeOf, doneOf, threadRank]
        · rw [hw]; simp [timeoutOf, wakeOf, waitsLeft]
      · simp at h
    · simp only [step] at h
      cases hj : w.stream.substreams[j]? with
      | none => simp [hj] at h
      | some sj =>
        simp only [hj] at h
        split at h
        · simp only [threadTimeout, hj, Option.some.injEq] at h
          subst h
          refine same s ?_ rfl rfl ?_ rfl rfl
          · rw [setSubstream_substreams, getElem?_set_other _ _ _ _ hi, hs]
          · simp [timeoutOf, hi]
        · simp at h
  | done j =>
    by_cases hi : j = i
    · subst hi
      simp only [step, threadDone, hs] at h
      split at h
      · rename_i pb img hw
        simp only [Option.some.injEq] at h
        subst h
        refine ⟨{ s with buffer_thread := ThreadState.finished }, ?_, hstop, ?_, ?_⟩
        · rw [setSubstream_substreams, releaseImage_stream]
          simp only [hstop, if_true]
          exact getElem?_set_same _ _ _ _ hs
        · rw [hw]; simp [timeoutOf, wakeOf, doneOf, threadRank]
        · rw [hw]; simp [timeoutOf, wakeOf, waitsLeft]
      · simp at h
    · simp only [step, threadDone] at h
      cases hj : w.stream.substreams[j]? with
      | none => simp [hj] at h
      | some sj =>
        simp only [hj] at h
        split at h
        · simp only [Option.some.injEq] at h
          subst h
          refine same s ?_ rfl rfl rfl rfl ?_
          · rw [setSubstream_substreams, releaseImage_stream, getElem?_set_other _ _ _ _ hi, hs]
          · simp [doneOf, hi]
        · simp at h
  | subscribers j k =>
    by_cases hi : j = i
    · subst hi
      simp only [step, hs, Option.some.injEq] at h
      subst h
      refine same { s with num_subscribers := k } ?_ rfl rfl rfl rfl rfl
      rw [setSubstream_substreams]
      exact getElem?_set_same _ _ _ _ hs
    · simp only [step] at h
      cases hj : w.stream.substreams[j]? with
      | none => simp [hj] at h
      | some sj =>
        simp only [hj, Option.some.injEq] at h
        subst h
        refine same s ?_ rfl rfl rfl rfl rfl
        rw [setSubstream_substreams, getElem?_set_other _ _ _ _ hi, hs]
  | stop j =>
    by_cases hi : j = i
    · subst hi
      simp only [step, hs, Option.some.injEq] at h
      subst h
      refine same { s with buffer_thread_stop := true } ?_ (by rw [hstop]) rfl rfl rfl rfl
      rw [setSubstream_substreams]
      exact getElem?_set_same _ _ _ _ hs
    · simp only [step] at h
      cases hj : w.stream.substreams[j]? with
      | none => simp [hj] at h
      | some sj =>
        simp only [hj, Option.some.injEq] at h
        subst h
        refine same s ?_ rfl rfl rfl rfl rfl
        rw [setSubstream_substreams, getElem?_set_other _ _ _ _ hi, hs]

theorem run_thread (steps : List Step) (w w1 : World) (i : Nat) (s : Substream)
    (h : run w steps = some w1) (hs : w.stream.substreams[i]? = some s)
    (hstop : s.buffer_thread_stop = true) :
    ∃ s1, w1.stream.substreams[i]? = some s1 ∧ s1.buffer_thread_stop = true ∧
      2 * timeoutsOf i steps + wakesOf i steps + donesOf i steps + threadRank s1.buffer_thread =
        threadRank s.buffer_thread ∧
      timeoutsOf i steps + wakesOf i steps + waitsLeft s1.buffer_thread =
        waitsLeft s.buffer_thread := by
  induction steps generalizing w s with
  | nil =>
    simp only [run, Option.some.injEq] at h
    subst h
    exact ⟨s, hs, hstop, by simp [timeoutsOf, wakesOf, donesOf], by simp [timeoutsOf, wakesOf]⟩
  | cons st rest ih =>
    simp only [run] at h
    cases h1 : step w st with
    | none => simp [h1] at h
    | some w2 =>
      simp only [h1] at h
      obtain ⟨s2, a1, a2, a3, a4⟩ := step_thread w w2 st i s h1 hs hstop
      obtain ⟨s1, b1, b2, b3, b4⟩ := ih w2 s2 h a1 a2
      refine ⟨s1, b1, b2, ?_, ?_⟩
      · simp only [timeoutsOf, wakesOf, donesOf, List.map_cons, List.sum_cons] at b3 ⊢
        omega
      · simp only [timeoutsOf, wakesOf, List.map_cons, List.sum_cons] at b4 ⊢
        omega

theorem threadRank_eq_zero (t : ThreadState) (h : threadRank t = 0) :
    t = ThreadState.finished := by
  cases t <;> simp [threadRank] at h ⊢

/-- C16. If the stop flag of substream `i` is set when the bounded wait of its thread times
out, the thread leaves its loop: the timeout changes nothing but the state of the thread,
which is finished, so that nothing is taken from the mailbox and nothing is logged or
processed. In every run that starts with the stop flag set, the flag stays set and the wait
of the thread times out at most once; a run with a timeout ends with the thread finished
and has no hand-over and no processing by that thread. While the thread has not finished,
its next step finishes it: the timeout when it waits, the end of the iteration when it
processes. -/
theorem worker_exits_at_timeout_once_stopped (i : Nat) (w : World) (s : Substream)
    (hs : w.stream.substreams[i]? = some s) (hstop : s.buffer_thread_stop = true) :
    (∀ ros_ok, threadTimeout i ros_ok w =
      some (setSubstream i { s with buffer_thread := ThreadState.finished } w)) ∧
    (∀ steps w1, run w steps = some w1 →
      ∃ s1, w1.stream.substreams[i]? = some s1 ∧ s1.buffer_thread_stop = true ∧
        timeoutsOf i steps ≤ 1 ∧
        (timeoutsOf i steps = 1 → s1.buffer_thread = ThreadState.finished ∧
          wakesOf i steps = 0 ∧ donesOf i steps = 0) ∧
        (s1.buffer_thread = ThreadState.waiting → ∀ ros_ok,
          step w1 (Step.timeout i ros_ok) =
            some (setSubstream i { s1 with buffer_thread := ThreadState.finished } w1)) ∧
        (∀ p_buffer p_buffer_image,
          s1.buffer_thread = ThreadState.processing p_buffer p_buffer_image →
          step w1 (Step.done i) =
            some (setSubstream i { s1 with buffer_thread := ThreadState.finished }
              (releaseImage p_buffer_image w1)))) := by
  refine ⟨?_, ?_⟩
  · intro ros_ok
    simp only [threadTimeout, hs, hstop, Bool.true_or, if_true]
  · intro steps w1 h
    obtain ⟨s1, a1, a2, a3, a4⟩ := run_thread steps w w1 i s h hs hstop
    have hr : threadRank s.buffer_thread ≤ 2 := by
      cases s.buffer_thread <;> simp [threadRank]
    refine ⟨s1, a1, a2, by omega, ?_, ?_, ?_⟩
    · intro ht
      exact ⟨threadRank_eq_zero _ (by omega), by omega, by omega⟩
    · intro hw ros_ok
      simp only [step, a1, hw, if_true, threadTimeout, a2, Bool.true_or]
    · intro pb img hp
      simp only [step, threadDone, a1, hp, a2, if_true]

theorem worker_exits_at_timeout_once_stopped_witness :
    (step exampleWorld (Step.stop 0)).bind (threadTimeout 0 true) = some exampleStopped ∧
    run exampleWorld exampleStopRun = some exampleStopped ∧
    (exampleStopped.stream.substreams[0]?).map (fun (s : Substream) => s.buffer_thread) =
      some ThreadState.finished ∧
    (exampleStopped.stream.substreams[0]?).map
      (fun (s : Substream) => (s.p_buffer, s.p_buffer_image)) = some (none, none) ∧
    timeoutsOf 0 exampleStopRun = 1 ∧
    exampleStopped.trace = [] := by
  have t := worker_exits_at_timeout_once_stopped 0
    ((step exampleWorld (Step.stop 0)).getD exampleWorld)
    { num_subscribers := 1, buffer_thread_stop := true } rfl rfl
  have h1 : run ((step exampleWorld (Step.stop 0)).getD exampleWorld) [Step.timeout 0 true] =
      some exampleStopped := rfl
  obtain ⟨s1, a1, _, _, a4, _⟩ := t.2 [Step.timeout 0 true] exampleStopped h1
  have hf := (a4 rfl).1
  refine ⟨rfl, rfl, ?_, rfl, rfl, rfl⟩
  rw [a1, Option.map_some', hf]

/-- C17, as stated, fails: in the run `exampleLateRun` the stop flag of the first substream
is set while its mailbox is empty and its thread waits, the callback then deposits the
buffer `exampleOnePart`, and the thread, woken by the notification before its wait times
out, takes the pair and publishes its image. -/
theorem late_deposit_is_processed :
    (run exampleProcessingWorld [Step.stop 0]).map
      (fun w => (w.stream.substreams[0]?).map
        (fun (s : Substream) => (s.buffer_thread_stop, s.p_buffer, s.buffer_thread))) =
      some (some (true, none, ThreadState.waiting)) ∧
    run exampleProcessingWorld exampleLateRun = some exampleLateTaken ∧
    (exampleLateTaken.stream.substreams[0]?).map
      (fun (s : Substream) => (s.buffer_thread_stop, s.buffer_thread)) =
      some (true, ThreadState.processing (some exampleOnePart) (some ⟨5⟩)) ∧
    (processTaken {} (fun _ => none) {} {} {} 0 0 exampleLateTaken).map
      (fun w => publications w.trace) =
      some [(0, { header_stamp := 78, header_seq := 10, header_frame_id := "cam/a",
                  height := 480, width := 640, encoding := "Mono8", step := 640 })] := by
  refine ⟨rfl, rfl, rfl, rfl⟩

/-- C17, amended. In every interleaving of producer and thread steps that follows the
setting of the stop flag of substream `i`, the thread of that substream takes the content
of its mailbox at most once, and only instead of a timeout of its wait: a thread that is
processing or has left its loop when the flag is set never takes, and so never processes,
what is deposited afterwards, and a thread that has left its loop stays there. -/
theorem worker_takes_at_most_once_after_stop (i : Nat) (w : World) (s : Substream)
    (steps : List Step) (w1 : World)
    (hs : w.stream.substreams[i]? = some s) (hstop : s.buffer_thread_stop = true)
    (hrun : run w steps = some w1) :
    wakesOf i steps ≤ 1 ∧
    wakesOf i steps + timeoutsOf i steps ≤ 1 ∧
    (s.buffer_thread ≠ ThreadState.waiting → wakesOf i steps = 0) ∧
    (s.buffer_thread = ThreadState.finished →
      donesOf i steps = 0 ∧
      (w1.stream.substreams[i]?).map (fun (s1 : Substream) => s1.buffer_thread) =
        some ThreadState.finished) := by
  obtain ⟨s1, a1, _, a3, a4⟩ := run_thread steps w w1 i s hrun hs hstop
  have hr : waitsLeft s.buffer_thread ≤ 1 := by
    cases s.buffer_thread <;> simp [waitsLeft]
  refine ⟨by omega, by omega, ?_, ?_⟩
  · intro hne
    have h0 : waitsLeft s.buffer_thread = 0 := by
      cases hc : s.buffer_thread with
      | waiting => exact absurd hc hne
      | processing _ _ => rfl
      | finished => rfl
    omega
  · intro hf
    rw [hf] at a3
    have h0 : threadRank ThreadState.finished = 0 := rfl
    have h1 : threadRank s1.buffer_thread = 0 := by omega
    refine ⟨by omega, ?_⟩
    rw [a1, Option.map_some', threadRank_eq_zero _ h1]

theorem worker_takes_at_most_once_after_stop_witness :
    run ((step exampleProcessingWorld (Step.stop 0)).getD exampleProcessingWorld)
      exampleLateRun.tail = some exampleLateTaken ∧
    wakesOf 0 exampleLateRun.tail = 1 ∧
    wakesOf 0 exampleLateRun.tail + timeoutsOf 0 exampleLateRun.tail ≤ 1 :=
  ⟨rfl, rfl,
    (worker_takes_at_most_once_after_stop 0
      ((step exampleProcessingWorld (Step.stop 0)).getD exampleProcessingWorld)
      { exampleMono8 with buffer_thread_stop := true } exampleLateRun.tail exampleLateTaken
      rfl rfl rfl).2.1⟩

/-! ## The order of the calls of a function -/

theorem keyLe_refl (a : Key) : keyLe a a := by
  unfold keyLe
  omega

/-- In a list sorted by the places of its calls, a call whose place is strictly before
that of another call stands before it. -/
theorem position_lt_of_key (key : Action → Key) (l : List Action)
    (hs : sortedBy key l) (a b : Nat) (x y : Action)
    (ha : l[a]? = some x) (hb : l[b]? = some y) (hlt : ¬ keyLe (key y) (key x)) : a < b := by
  by_contra hc
  have hba : b ≤ a := by omega
  rcases Nat.lt_or_eq_of_le hba with h | h
  · obtain ⟨hb1, hb2⟩ := List.getElem?_eq_some.1 hb
    obtain ⟨ha1, ha2⟩ := List.getElem?_eq_some.1 ha
    have := List.pairwise_iff_getElem.1 hs b a hb1 ha1 h
    rw [hb2, ha2] at this
    exact hlt this
  · subst h
    have e : x = y := Option.some.inj (ha.symm.trans hb)
    subst e
    exact hlt (keyLe_refl _)

theorem nextIs_of_not_mem (x y : Action) (l : List Action) (h : x ∉ l) : nextIs x y l := by
  induction l with
  | nil => trivial
  | cons a rest ih =>
    refine ⟨?_, ih (fun hm => h (List.mem_cons_of_mem _ hm))⟩
    intro e
    exact absurd (e ▸ List.mem_cons_self a rest) h

theorem nextIs_append (x y : Action) (l1 l2 : List Action) (h1 : nextIs x y l1)
    (h2 : nextIs x y l2) : nextIs x y (l1 ++ l2) := by
  induction l1 with
  | nil => exact h2
  | cons a rest ih =>
    obtain ⟨ha, hr⟩ := h1
    refine ⟨?_, ih hr⟩
    intro e
    have := ha e
    cases rest with
    | nil => simp at this
    | cons b rest2 => simpa using this

theorem nextIs_getElem (x y : Action) (l : List Action) (h : nextIs x y l) (a : Nat)
    (ha : l[a]? = some x) : l[a + 1]? = some y := by
  induction l generalizing a with
  | nil => simp at ha
  | cons c rest ih =>
    obtain ⟨hc, hr⟩ := h
    cases a with
    | zero =>
      simp only [List.getElem?_cons_zero, Option.some.injEq] at ha
      have := hc ha
      cases rest with
      | nil => simp at this
      | cons b rest2 => simpa using this
    | succ k =>
      simp only [List.getElem?_cons_succ] at ha ⊢
      exact ih hr k ha

theorem sortedBy_append_phase (key : Action → Key) (l1 l2 : List Action) (c : Nat)
    (h1 : sortedBy key l1) (p1 : ∀ x ∈ l1, (key x).phase = c)
    (h2 : sortedBy key l2 ∧ ∀ y ∈ l2, c < (key y).phase) :
    sortedBy key (l1 ++ l2) ∧ ∀ y ∈ l1 ++ l2, c ≤ (key y).phase := by
  refine ⟨List.pairwise_append.2 ⟨h1, h2.1, ?_⟩, ?_⟩
  · intro x hx y hy
    have a := p1 x hx
    have b := h2.2 y hy
    unfold keyLe
    omega
  · intro y hy
    rcases List.mem_append.1 hy with h | h
    · have := p1 y h; omega
    · have := h2.2 y h; omega

/-! ## The loops of the destructor -/

theorem mem_disableSignals (x : Action) (l : List StreamSetup) (i : Nat) :
    x ∈ disableSignals i l ↔
      ∃ k st, l[k]? = some st ∧ st.p_stream = true ∧ x = Action.set_emit_signals (i + k) false := by
  induction l generalizing i with
  | nil => simp [disableSignals]
  | cons st rest ih =>
    simp only [disableSignals, List.mem_append, ih]
    constructor
    · rintro (h | ⟨k, st1, h1, h2, h3⟩)
      · by_cases hp : st.p_stream = true
        · simp only [hp, if_true, List.mem_singleton] at h
          exact ⟨0, st, by simp, hp, h⟩
        · simp [hp] at h
      · exact ⟨k + 1, st1, by simpa using h1, h2, by rw [h3]; congr 1; omega⟩
    · rintro ⟨k, st1, h1, h2, h3⟩
      cases k with
      | zero =>
        simp only [List.getElem?_cons_zero, Option.some.injEq] at h1
        subst h1
        left
        simp [h2, h3]
      | succ k1 =>
        right
        exact ⟨k1, st1, by simpa using h1, h2, by rw [h3]; congr 1; omega⟩

theorem mem_joinSubstreams (x : Action) (i : Nat) (l : List SubstreamSetup) (j : Nat) :
    x ∈ joinSubstreams i j l ↔
      ∃ k sub, l[k]? = some sub ∧ sub.joinable = true ∧
        (x = Action.set_buffer_thread_stop i (j + k) ∨ x = Action.join_buffer_thread i (j + k) ∨
          x = Action.log_joined i (j + k)) := by
  induction l generalizing j with
  | nil => simp [joinSubstreams]
  | cons sub rest ih =>
    simp only [joinSubstreams, List.mem_append, ih]
    constructor
    · rintro (h | ⟨k, s1, h1, h2, h3⟩)
      · by_cases hp : sub.joinable = true
        · simp only [hp, if_true, List.mem_cons, List.mem_singleton, List.not_mem_nil,
            or_false] at h
          exact ⟨0, sub, by simp, hp, h⟩
        · simp [hp] at h
      · refine ⟨k + 1, s1, by simpa using h1, h2, ?_⟩
        have e : j + 1 + k = j + (k + 1) := by omega
        rw [e] at h3
        exact h3
    · rintro ⟨k, s1, h1, h2, h3⟩
      cases k with
      | zero =>
        simp only [List.getElem?_cons_zero, Option.some.injEq] at h1
        subst h1
        left
        simp only [h2, if_true, List.mem_cons, List.mem_singleton, List.not_mem_nil, or_false]
        exact h3
      | succ k1 =>
        right
        refine ⟨k1, s1, by simpa using h1, h2, ?_⟩
        have e : j + 1 + k1 = j + (k1 + 1) := by omega
        rw [e]
        exact h3

theorem mem_joinThreads (x : Action) (l : List StreamSetup) (i : Nat) :
    x ∈ joinThreads i l ↔
      ∃ k st m sub, l[k]? = some st ∧ st.substreams[m]? = some sub ∧ sub.joinable = true ∧
        (x = Action.set_buffer_thread_stop (i + k) m ∨ x = Action.join_buffer_thread (i + k) m ∨
          x = Action.log_joined (i + k) m) := by
  induction l generalizing i with
  | nil => simp [joinThreads]
  | cons st rest ih =>
    simp only [joinThreads, List.mem_append, ih, mem_joinSubstreams]
    constructor
    · rintro (⟨m, sub, h1, h2, h3⟩ | ⟨k, st1, m, sub, h0, h1, h2, h3⟩)
      · exact ⟨0, st, m, sub, by simp, h1, h2, by simpa using h3⟩
      · refine ⟨k + 1, st1, m, sub, by simpa using h0, h1, h2, ?_⟩
        have e : i + 1 + k = i + (k + 1) := by omega
        rw [e] at h3
        exact h3
    · rintro ⟨k, st1, m, sub, h0, h1, h2, h3⟩
      cases k with
      | zero =>
        simp only [List.getElem?_cons_zero, Option.some.injEq] at h0
        subst h0
        left
        exact ⟨m, sub, h1, h2, by simpa using h3⟩
      | succ k1 =>
        right
        refine ⟨k1, st1, m, sub, by simpa using h0, h1, h2, ?_⟩
        have e : i + 1 + k1 = i + (k1 + 1) := by omega
        rw [e]
        exact h3

theorem mem_logStatistics (x : Action) (gv : Bool) (l : List StreamSetup) (i : Nat) :
    x ∈ logStatistics gv i l ↔
      ∃ k, k < l.length ∧
        (x = Action.get_statistics (i + k) ∨ (gv = true ∧ x = Action.get_gv_statistics (i + k))) := by
  induction l generalizing i with
  | nil => simp [logStatistics]
  | cons st rest ih =>
    simp only [logStatistics, List.mem_append, ih, List.mem_singleton, List.length_cons]
    constructor
    · rintro ((h | h) | ⟨k, h1, h2⟩)
      · exact ⟨0, by omega, Or.inl h⟩
      · by_cases hg : gv = true
        · simp only [hg, if_true, List.mem_singleton] at h
          exact ⟨0, by omega, Or.inr ⟨hg, h⟩⟩
        · simp [hg] at h
      · refine ⟨k + 1, by omega, ?_⟩
        have e : i + 1 + k = i + (k + 1) := by omega
        rw [e] at h2
        exact h2
    · rintro ⟨k, h1, h2⟩
      cases k with
      | zero =>
        left
        rcases h2 with h2 | ⟨hg, h2⟩
        · exact Or.inl h2
        · right
          simp [hg, h2]
      | succ k1 =>
        right
        refine ⟨k1, by omega, ?_⟩
        have e : i + 1 + k1 = i + (k1 + 1) := by omega
        rw [e]
        exact h2

theorem mem_unrefStreams (x : Action) (l : List StreamSetup) (i : Nat) :
    x ∈ unrefStreams i l ↔ ∃ k, k < l.length ∧ x = Action.unref_stream (i + k) := by
  induction l generalizing i with
  | nil => simp [unrefStreams]
  | cons st rest ih =>
    simp only [unrefStreams, List.mem_append, ih, List.mem_singleton, List.length_cons]
    constructor
    · rintro (h | ⟨k, h1, h2⟩)
      · exact ⟨0, by omega, h⟩
      · refine ⟨k + 1, by omega, ?_⟩
        have e : i + 1 + k = i + (k + 1) := by omega
        rw [e] at h2
        exact h2
    · rintro ⟨k, h1, h2⟩
      cases k with
      | zero => exact Or.inl h2
      | succ k1 =>
        right
        refine ⟨k1, by omega, ?_⟩
        have e : i + 1 + k1 = i + (k1 + 1) := by omega
        rw [e]
        exact h2

theorem sortedBy_disableSignals (l : List StreamSetup) (i : Nat) :
    sortedBy destructorKey (disableSignals i l) := by
  induction l generalizing i with
  | nil => exact List.Pairwise.nil
  | cons st rest ih =>
    refine List.pairwise_append.2 ⟨?_, ih (i + 1), ?_⟩
    · split
      · exact List.pairwise_singleton _ _
      · exact List.Pairwise.nil
    · intro x hx y hy
      obtain ⟨k, _, _, _, e⟩ := (mem_disableSignals y rest (i + 1)).1 hy
      by_cases hp : st.p_stream = true
      · simp only [hp, if_true, List.mem_singleton] at hx
        subst hx e
        dsimp only [keyLe, destructorKey]
        omega
      · simp [hp] at hx

theorem sortedBy_joinSubstreams (i : Nat) (l : List SubstreamSetup) (j : Nat) :
    sortedBy destructorKey (joinSubstreams i j l) := by
  induction l generalizing j with
  | nil => exact List.Pairwise.nil
  | cons sub rest ih =>
    refine List.pairwise_append.2 ⟨?_, ih (j + 1), ?_⟩
    · split
      · simp [keyLe, destructorKey]
      · exact List.Pairwise.nil
    · intro x hx y hy
      obtain ⟨k, _, _, _, e⟩ := (mem_joinSubstreams y i rest (j + 1)).1 hy
      by_cases hp : sub.joinable = true
      · simp only [hp, if_true, List.mem_cons, List.mem_singleton, List.not_mem_nil,
          or_false] at hx
        rcases hx with hx | hx | hx <;> rcases e with e | e | e <;> subst hx e <;>
          (dsimp only [keyLe, destructorKey]; omega)
      · simp [hp] at hx

theorem sortedBy_joinThreads (l : List StreamSetup) (i : Nat) :
    sortedBy destructorKey (joinThreads i l) := by
  induction l generalizing i with
  | nil => exact List.Pairwise.nil
  | cons st rest ih =>
    refine List.pairwise_append.2 ⟨sortedBy_joinSubstreams i st.substreams 0, ih (i + 1), ?_⟩
    intro x hx y hy
    obtain ⟨_, _, _, _, hx⟩ := (mem_joinSubstreams x i st.substreams 0).1 hx
    obtain ⟨k, _, m, _, _, _, _, e⟩ := (mem_joinThreads y rest (i + 1)).1 hy
    rcases hx with hx | hx | hx <;> rcases e with e | e | e <;> subst hx e <;>
      (dsimp only [keyLe, destructorKey]; omega)

theorem sortedBy_logStatistics (gv : Bool) (l : List StreamSetup) (i : Nat) :
    sortedBy destructorKey (logStatistics gv i l) := by
  induction l generalizing i with
  | nil => exact List.Pairwise.nil
  | cons st rest ih =>
    refine List.pairwise_append.2 ⟨?_, ih (i + 1), ?_⟩
    · cases gv <;> simp [keyLe, destructorKey]
    · intro x hx y hy
      obtain ⟨k, _, e⟩ := (mem_logStatistics y gv rest (i + 1)).1 hy
      have hx2 : x = Action.get_statistics i ∨ x = Action.get_gv_statistics i := by
        simp only [List.mem_append, List.mem_singleton] at hx
        rcases hx with hx | hx
        · exact Or.inl hx
        · by_cases hg : gv = true
          · simp only [hg, if_true, List.mem_singleton] at hx
            exact Or.inr hx
          · simp [hg] at hx
      rcases hx2 with hx | hx <;> rcases e with e | ⟨_, e⟩ <;> subst hx e <;>
        (dsimp only [keyLe, destructorKey]; omega)

theorem sortedBy_unrefStreams (l : List StreamSetup) (i : Nat) :
    sortedBy destructorKey (unrefStreams i l) := by
  induction l generalizing i with
  | nil => exact List.Pairwise.nil
  | cons st rest ih =>
    refine List.pairwise_append.2 ⟨List.pairwise_singleton _ _, ih (i + 1), ?_⟩
    intro x hx y hy
    obtain ⟨k, _, e⟩ := (mem_unrefStreams y rest (i + 1)).1 hy
    simp only [List.mem_singleton] at hx
    subst hx e
    dsimp only [keyLe, destructorKey]
    omega

theorem sortedBy_stopHelperThreads (n : Nodelet) :
    sortedBy destructorKey (stopHelperThreads n) ∧
      ∀ x ∈ stopHelperThreads n, (destructorKey x).phase = 1 := by
  unfold stopHelperThreads sortedBy
  cases n.spawn_stream_thread_joinable <;> cases n.software_trigger_thread_joinable <;>
    simp [keyLe, destructorKey]

/-- The calls of the destructor stand in the order of their places in its text. -/
theorem sortedBy_destructor (n : Nodelet) : sortedBy destructorKey (destructor n) := by
  unfold destructor
  have h6 : sortedBy destructorKey [Action.unref_camera] ∧
      ∀ y ∈ [Action.unref_camera], 5 < (destructorKey y).phase := by
    refine ⟨List.pairwise_singleton _ _, ?_⟩
    intro y hy
    simp only [List.mem_singleton] at hy
    subst hy
    simp [destructorKey]
  have h5 := sortedBy_append_phase destructorKey (unrefStreams 0 n.streams_) _ 5
    (sortedBy_unrefStreams _ 0)
    (fun x hx => by
      obtain ⟨k, _, e⟩ := (mem_unrefStreams x _ 0).1 hx
      subst e; rfl) h6
  have h4 := sortedBy_append_phase destructorKey
    (if n.p_device_ then [Action.acquisition_stop] else []) _ 4
    (by split
        · exact List.pairwise_singleton _ _
        · exact List.Pairwise.nil)
    (fun x hx => by
      by_cases hp : n.p_device_ = true
      · simp only [hp, if_true, List.mem_singleton] at hx
        subst hx; rfl
      · simp [hp] at hx)
    ⟨h5.1, fun y hy => by have := h5.2 y hy; omega⟩
  have h3 := sortedBy_append_phase destructorKey (logStatistics n.is_gv_device 0 n.streams_) _ 3
    (sortedBy_logStatistics _ _ 0)
    (fun x hx => by
      obtain ⟨k, _, e⟩ := (mem_logStatistics x _ _ 0).1 hx
      rcases e with e | ⟨_, e⟩ <;> subst e <;> rfl)
    ⟨h4.1, fun y hy => by have := h4.2 y hy; omega⟩
  have h2 := sortedBy_append_phase destructorKey (joinThreads 0 n.streams_) _ 2
    (sortedBy_joinThreads _ 0)
    (fun x hx => by
      obtain ⟨k, _, m, _, _, _, _, e⟩ := (mem_joinThreads x _ 0).1 hx
      rcases e with e | e | e <;> subst e <;> rfl)
    ⟨h3.1, fun y hy => by have := h3.2 y hy; omega⟩
  have h1 := sortedBy_append_phase destructorKey (stopHelperThreads n) _ 1
    (sortedBy_stopHelperThreads n).1 (sortedBy_stopHelperThreads n).2
    ⟨h2.1, fun y hy => by have := h2.2 y hy; omega⟩
  have h0 := sortedBy_append_phase destructorKey (disableSignals 0 n.streams_) _ 0
    (sortedBy_disableSignals _ 0)
    (fun x hx => by
      obtain ⟨k, _, _, _, e⟩ := (mem_disableSignals x _ 0).1 hx
      subst e; rfl)
    ⟨h1.1, fun y hy => by have := h1.2 y hy; omega⟩
  exact h0.1

/-! ## C18, C19: the order of the shutdown -/

theorem nextIs_joinSubstreams (i j k : Nat) (l : List SubstreamSetup) (m : Nat) :
    nextIs (Action.set_buffer_thread_stop i j) (Action.join_buffer_thread i j)
      (joinSubstreams k m l) := by
  induction l generalizing m with
  | nil => trivial
  | cons sub rest ih =>
    refine nextIs_append _ _ _ _ ?_ (ih (m + 1))
    split
    · refine ⟨?_, ?_, ?_, trivial⟩
      · intro e
        cases e
        rfl
      · intro e
        cases e
      · intro e
        cases e
    · trivial

theorem nextIs_joinThreads (i j : Nat) (l : List StreamSetup) (k : Nat) :
    nextIs (Action.set_buffer_thread_stop i j) (Action.join_buffer_thread i j)
      (joinThreads k l) := by
  induction l generalizing k with
  | nil => trivial
  | cons st rest ih =>
    exact nextIs_append _ _ _ _ (nextIs_joinSubstreams i j k st.substreams 0) (ih (k + 1))

theorem nextIs_destructor (n : Nodelet) (i j : Nat) :
    nextIs (Action.set_buffer_thread_stop i j) (Action.join_buffer_thread i j)
      (destructor n) := by
  unfold destructor
  refine nextIs_append _ _ _ _ (nextIs_of_not_mem _ _ _ ?_)
    (nextIs_append _ _ _ _ (nextIs_of_not_mem _ _ _ ?_)
      (nextIs_append _ _ _ _ (nextIs_joinThreads i j _ 0)
        (nextIs_append _ _ _ _ (nextIs_of_not_mem _ _ _ ?_)
          (nextIs_append _ _ _ _ (nextIs_of_not_mem _ _ _ ?_)
            (nextIs_append _ _ _ _ (nextIs_of_not_mem _ _ _ ?_)
              (nextIs_of_not_mem _ _ _ ?_))))))
  · intro h
    obtain ⟨_, _, _, _, e⟩ := (mem_disableSignals _ _ 0).1 h
    cases e
  · intro h
    have := (sortedBy_stopHelperThreads n).2 _ h
    simp [destructorKey] at this
  · intro h
    obtain ⟨_, _, e⟩ := (mem_logStatistics _ _ _ 0).1 h
    rcases e with e | ⟨_, e⟩ <;> cases e
  · intro h
    split at h <;> simp at h
  · intro h
    obtain ⟨_, _, e⟩ := (mem_unrefStreams _ _ 0).1 h
    cases e
  · intro h
    simp at h

theorem mem_destructor_joinThreads (n : Nodelet) (x : Action)
    (h : x ∈ joinThreads 0 n.streams_) : x ∈ destructor n := by
  unfold destructor
  simp only [List.mem_append]
  exact Or.inr (Or.inr (Or.inl h))

theorem mem_joinThreads_of_destructor (n : Nodelet) (x : Action) (h : x ∈ destructor n)
    (hp : (destructorKey x).phase = 2) : x ∈ joinThreads 0 n.streams_ := by
  unfold destructor at h
  simp only [List.mem_append] at h
  rcases h with h | h | h | h | h | h | h
  · obtain ⟨_, _, _, _, e⟩ := (mem_disableSignals _ _ 0).1 h
    subst e
    simp [destructorKey] at hp
  · have := (sortedBy_stopHelperThreads n).2 _ h
    omega
  · exact h
  · obtain ⟨_, _, e⟩ := (mem_logStatistics _ _ _ 0).1 h
    rcases e with e | ⟨_, e⟩ <;> subst e <;> simp [destructorKey] at hp
  · split at h
    · simp only [List.mem_singleton] at h
      subst h
      simp [destructorKey] at hp
    · simp at h
  · obtain ⟨_, _, e⟩ := (mem_unrefStreams _ _ 0).1 h
    subst e
    simp [destructorKey] at hp
  · simp only [List.mem_singleton] at h
    subst h
    simp [destructorKey] at hp

/-- C18. In the sequence of calls of the destructor, `arv_stream_set_emit_signals(FALSE)` is
called on every stream that has a `p_stream`, and every such call stands before every call
that sets a stop flag or joins a substream thread. The stop flag of a substream is set and
its thread is joined exactly when the thread is joinable, and the setting of the flag of a
substream stands before every join of the thread of that substream. Every join of a
substream thread stands before the statistics, the AcquisitionStop command, and the unref
of the streams and of the camera. -/
theorem destructor_disables_then_stops_then_joins (n : Nodelet) :
    (∀ (i : Nat) (st : StreamSetup), n.streams_[i]? = some st → st.p_stream = true →
      Action.set_emit_signals i false ∈ destructor n) ∧
    (∀ a b i k j : Nat, (destructor n)[a]? = some (Action.set_emit_signals i false) →
      ((destructor n)[b]? = some (Action.set_buffer_thread_stop k j) ∨
        (destructor n)[b]? = some (Action.join_buffer_thread k j)) → a < b) ∧
    (∀ i j : Nat, (Action.set_buffer_thread_stop i j ∈ destructor n ↔
        ∃ st sub, n.streams_[i]? = some st ∧ st.substreams[j]? = some sub ∧
          sub.joinable = true) ∧
      (Action.join_buffer_thread i j ∈ destructor n ↔
        ∃ st sub, n.streams_[i]? = some st ∧ st.substreams[j]? = some sub ∧
          sub.joinable = true)) ∧
    (∀ a b i j : Nat, (destructor n)[a]? = some (Action.set_buffer_thread_stop i j) →
      (destructor n)[b]? = some (Action.join_buffer_thread i j) → a < b) ∧
    (∀ a b i j k : Nat, (destructor n)[a]? = some (Action.join_buffer_thread i j) →
      ((destructor n)[b]? = some (Action.get_statistics k) ∨
        (destructor n)[b]? = some (Action.get_gv_statistics k) ∨
        (destructor n)[b]? = some Action.acquisition_stop ∨
        (destructor n)[b]? = some (Action.unref_stream k) ∨
        (destructor n)[b]? = some Action.unref_camera) → a < b) := by
  have hs := sortedBy_destructor n
  refine ⟨?_, ?_, ?_, ?_, ?_⟩
  · intro i st h1 h2
    unfold destructor
    refine List.mem_append_left _ ((mem_disableSignals _ _ 0).2 ⟨i, st, h1, h2, ?_⟩)
    rw [Nat.zero_add]
  · intro a b i k j ha hb
    rcases hb with hb | hb <;>
      exact position_lt_of_key destructorKey _ hs a b _ _ ha hb
        (by dsimp only [keyLe, destructorKey]; omega)
  · intro i j
    have key : ∀ x, (x = Action.set_buffer_thread_stop i j ∨ x = Action.join_buffer_thread i j) →
        (x ∈ destructor n ↔
          ∃ st sub, n.streams_[i]? = some st ∧ st.substreams[j]? = some sub ∧
            sub.joinable = true) := by
      intro x hx
      constructor
      · intro h
        have hp : (destructorKey x).phase = 2 := by
          rcases hx with hx | hx <;> subst hx <;> rfl
        obtain ⟨k, st, m, sub, h0, h1, h2, e⟩ :=
          (mem_joinThreads _ _ 0).1 (mem_joinThreads_of_destructor n x h hp)
        rw [Nat.zero_add] at e
        have hkm : i = k ∧ j = m := by
          rcases hx with hx | hx <;> subst hx <;> rcases e with e | e | e <;> cases e <;>
            exact ⟨rfl, rfl⟩
        rw [hkm.1, hkm.2]
        exact ⟨st, sub, h0, h1, h2⟩
      · rintro ⟨st, sub, h0, h1, h2⟩
        refine mem_destructor_joinThreads n x
          ((mem_joinThreads _ _ 0).2 ⟨i, st, j, sub, h0, h1, h2, ?_⟩)
        rw [Nat.zero_add]
        rcases hx with hx | hx
        · exact Or.inl hx
        · exact Or.inr (Or.inl hx)
    exact ⟨key _ (Or.inl rfl), key _ (Or.inr rfl)⟩
  · intro a b i j ha hb
    exact position_lt_of_key destructorKey _ hs a b _ _ ha hb
      (by dsimp only [keyLe, destructorKey]; omega)
  · intro a b i j k ha hb
    rcases hb with hb | hb | hb | hb | hb <;>
      exact position_lt_of_key destructorKey _ hs a b _ _ ha hb
        (by dsimp only [keyLe, destructorKey]; omega)

theorem destructor_disables_then_stops_then_joins_witness :
    destructor exampleNodelet =
      [Action.set_emit_signals 0 false, Action.clear_spawning, Action.join_spawn_stream_thread,
       Action.clear_software_trigger_active,
       Action.set_buffer_thread_stop 0 0, Action.join_buffer_thread 0 0, Action.log_joined 0 0,
       Action.set_buffer_thread_stop 0 1, Action.join_buffer_thread 0 1, Action.log_joined 0 1,
       Action.get_statistics 0, Action.acquisition_stop, Action.unref_stream 0,
       Action.unref_camera] ∧
    Action.set_emit_signals 0 false ∈ destructor exampleNodelet ∧
    Action.join_buffer_thread 0 1 ∈ destructor exampleNodelet :=
  ⟨rfl,
   (destructor_disables_then_stops_then_joins exampleNodelet).1 0
     { substreams := [{}, { num_subscribers := 1 }] } rfl rfl,
   ((destructor_disables_then_stops_then_joins exampleNodelet).2.2.1 0 1).2.2
     ⟨{ substreams := [{}, { num_subscribers := 1 }] }, { num_subscribers := 1 }, rfl, rfl, rfl⟩⟩

theorem phase_le_of_mem_destructor (n : Nodelet) (x : Action) (h : x ∈ destructor n) :
    (destructorKey x).phase ≤ 6 := by
  unfold destructor at h
  simp only [List.mem_append] at h
  rcases h with h | h | h | h | h | h | h
  · obtain ⟨_, _, _, _, e⟩ := (mem_disableSignals _ _ 0).1 h
    subst e
    simp [destructorKey]
  · have := (sortedBy_stopHelperThreads n).2 _ h
    omega
  · obtain ⟨_, _, _, _, _, _, _, e⟩ := (mem_joinThreads _ _ 0).1 h
    rcases e with e | e | e <;> subst e <;> simp [destructorKey]
  · obtain ⟨_, _, e⟩ := (mem_logStatistics _ _ _ 0).1 h
    rcases e with e | ⟨_, e⟩ <;> subst e <;> simp [destructorKey]
  · split at h
    · simp only [List.mem_singleton] at h
      subst h
      simp [destructorKey]
    · simp at h
  · obtain ⟨_, _, e⟩ := (mem_unrefStreams _ _ 0).1 h
    subst e
    simp [destructorKey]
  · simp only [List.mem_singleton] at h
    subst h
    simp [destructorKey]

/-- C19, as stated, fails: with two substreams whose threads run, the destructor joins the
thread of the first substream (call 5) before it sets the stop flag of the second one
(call 7). -/
theorem destructor_joins_before_later_stop_flag :
    (destructor exampleNodelet)[5]? = some (Action.join_buffer_thread 0 0) ∧
    (destructor exampleNodelet)[7]? = some (Action.set_buffer_thread_stop 0 1) :=
  ⟨rfl, rfl⟩

/-- C19, amended. Every call of the destructor belongs to one of the phases of
`destructorKey`: 0 disable the emission of signals, 1 stop the spawn and trigger threads,
2 stop and join the substream threads, 3 log the statistics, 4 stop the acquisition,
5 release the streams, 6 release the camera; and every call of an earlier phase stands
before every call of a later one. Inside phase 2 the substreams are taken one after the
other: the call that sets the stop flag of a substream is followed at once by the join of
the thread of that substream, and this join stands before the setting of the stop flag of
every later substream. -/
theorem destructor_runs_phase_by_phase (n : Nodelet) :
    (∀ x ∈ destructor n, (destructorKey x).phase ≤ 6) ∧
    (∀ (a b : Nat) (x y : Action), (destructor n)[a]? = some x → (destructor n)[b]? = some y →
      (destructorKey x).phase < (destructorKey y).phase → a < b) ∧
    (∀ a i j : Nat, (destructor n)[a]? = some (Action.set_buffer_thread_stop i j) →
      (destructor n)[a + 1]? = some (Action.join_buffer_thread i j)) ∧
    (∀ a b i j k m : Nat, (destructor n)[a]? = some (Action.join_buffer_thread i j) →
      (destructor n)[b]? = some (Action.set_buffer_thread_stop k m) →
      (i < k ∨ (i = k ∧ j < m)) → a < b) := by
  have hs := sortedBy_destructor n
  refine ⟨phase_le_of_mem_destructor n, ?_, ?_, ?_⟩
  · intro a b x y ha hb hlt
    exact position_lt_of_key destructorKey _ hs a b _ _ ha hb
      (by unfold keyLe; omega)
  · intro a i j ha
    exact nextIs_getElem _ _ _ (nextIs_destructor n i j) a ha
  · intro a b i j k m ha hb hlt
    exact position_lt_of_key destructorKey _ hs a b _ _ ha hb
      (by dsimp only [keyLe, destructorKey]; omega)

theorem destructor_runs_phase_by_phase_witness :
    (destructor exampleNodelet)[7]? = some (Action.set_buffer_thread_stop 0 1) ∧
    (destructor exampleNodelet)[7 + 1]? = some (Action.join_buffer_thread 0 1) :=
  ⟨rfl, (destructor_runs_phase_by_phase exampleNodelet).2.2.1 7 0 1 rfl⟩

/-! ## The loops of `spawnStream` -/

theorem sortedBy_of_const (key : Action → Key) (c : Key) (l : List Action)
    (h : ∀ x ∈ l, key x = c) : sortedBy key l := by
  induction l with
  | nil => exact List.Pairwise.nil
  | cons a rest ih =>
    refine List.Pairwise.cons ?_ (ih (fun x hx => h x (List.mem_cons_of_mem _ hx)))
    intro y hy
    rw [h a (List.mem_cons_self a rest), h y (List.mem_cons_of_mem _ hy)]
    exact keyLe_refl c

theorem key_failedAttempts (gv : Bool) (i k : Nat) :
    ∀ x ∈ failedAttempts gv i k, spawnKey x = { phase := 0, stream := i, stage := 0 } := by
  induction k with
  | zero => simp [failedAttempts]
  | succ k ih =>
    intro x hx
    simp only [failedAttempts, List.mem_append, List.mem_cons, List.mem_singleton,
      List.not_mem_nil, or_false] at hx
    rcases hx with (hx | hx | hx | hx) | hx
    · cases gv
      · simp at hx
      · simp only [if_true, List.mem_singleton] at hx
        subst hx; rfl
    · subst hx; rfl
    · subst hx; rfl
    · subst hx; rfl
    · exact ih x hx

theorem mem_spawnSubstreams (x : Action) (i : Nat) (l : List SubstreamSetup) (j : Nat) :
    x ∈ spawnSubstreams i j l ↔
      ∃ k, k < l.length ∧
        (x = Action.create_substream_pool i (j + k) ∨ x = Action.spawn_buffer_thread i (j + k)) := by
  induction l generalizing j with
  | nil => simp [spawnSubstreams]
  | cons sub rest ih =>
    simp only [spawnSubstreams, List.mem_append, ih, List.mem_cons, List.mem_singleton,
      List.not_mem_nil, or_false, List.length_cons]
    constructor
    · rintro (h | ⟨k, h1, h2⟩)
      · exact ⟨0, by omega, h⟩
      · refine ⟨k + 1, by omega, ?_⟩
        have e : j + 1 + k = j + (k + 1) := by omega
        rw [e] at h2
        exact h2
    · rintro ⟨k, h1, h2⟩
      cases k with
      | zero => exact Or.inl h2
      | succ k1 =>
        right
        refine ⟨k1, by omega, ?_⟩
        have e : j + 1 + k1 = j + (k1 + 1) := by omega
        rw [e]
        exact h2

theorem sortedBy_spawnSubstreams (i : Nat) (l : List SubstreamSetup) (j : Nat) :
    sortedBy spawnKey (spawnSubstreams i j l) := by
  induction l generalizing j with
  | nil => exact List.Pairwise.nil
  | cons sub rest ih =>
    refine List.pairwise_append.2 ⟨?_, ih (j + 1), ?_⟩
    · simp [keyLe, spawnKey]
    · intro x hx y hy
      obtain ⟨k, _, e⟩ := (mem_spawnSubstreams y i rest (j + 1)).1 hy
      simp only [List.mem_cons, List.mem_singleton, List.not_mem_nil, or_false] at hx
      rcases hx with hx | hx <;> rcases e with e | e <;> subst hx e <;>
        (dsimp only [keyLe, spawnKey]; omega)

theorem key_createdStream (gv : Bool) (i : Nat) (st : StreamSetup) :
    ∀ x ∈ createdStream gv i st,
      (spawnKey x).phase = 0 ∧ (spawnKey x).stream = i := by
  intro x hx
  simp only [createdStream, List.mem_append, List.mem_singleton] at hx
  rcases hx with (hx | hx | hx | hx) | hx | hx | hx
  · cases gv
    · simp at hx
    · simp only [if_true, List.mem_singleton] at hx
      subst hx; exact ⟨rfl, rfl⟩
  · subst hx; exact ⟨rfl, rfl⟩
  · cases gv
    · simp at hx
    · simp only [if_true, List.mem_singleton] at hx
      subst hx; exact ⟨rfl, rfl⟩
  · subst hx; exact ⟨rfl, rfl⟩
  · subst hx; exact ⟨rfl, rfl⟩
  · obtain ⟨k, _, e⟩ := (mem_spawnSubstreams x i _ 0).1 hx
    rcases e with e | e <;> subst e <;> exact ⟨rfl, rfl⟩
  · cases gv
    · simp at hx
    · simp only [if_true, List.mem_singleton] at hx
      subst hx; exact ⟨rfl, rfl⟩

theorem sortedBy_createdStream (gv : Bool) (i : Nat) (st : StreamSetup) :
    sortedBy spawnKey (createdStream gv i st) := by
  unfold createdStream
  have hhead : ∀ x ∈ (if gv then [Action.select_stream_channel i] else []) ++
      ([Action.create_stream i true] ++
        ((if gv then [Action.select_stream_channel i] else []) ++ [Action.get_payload i])),
      spawnKey x = { phase := 0, stream := i, stage := 0 } := by
    intro x hx
    cases gv <;>
      simp only [if_true, Bool.false_eq_true, if_false, List.nil_append, List.mem_append,
        List.mem_singleton, List.mem_cons, List.not_mem_nil, or_false] at hx
    · rcases hx with hx | hx <;> subst hx <;> rfl
    · rcases hx with hx | hx | hx | hx <;> subst hx <;> rfl
  have htail : sortedBy spawnKey ([Action.create_stream_pool i] ++
      (spawnSubstreams i 0 st.substreams ++
        (if gv then [Action.tune_gv_stream i] else []))) ∧
      ∀ y ∈ [Action.create_stream_pool i] ++
      (spawnSubstreams i 0 st.substreams ++
        (if gv then [Action.tune_gv_stream i] else [])),
        (spawnKey y).phase = 0 ∧ (spawnKey y).stream = i ∧ 1 ≤ (spawnKey y).stage := by
    have hsub : ∀ y ∈ spawnSubstreams i 0 st.substreams,
        (spawnKey y).phase = 0 ∧ (spawnKey y).stream = i ∧ (spawnKey y).stage = 2 := by
      intro y hy
      obtain ⟨k, _, e⟩ := (mem_spawnSubstreams y i _ 0).1 hy
      rcases e with e | e <;> subst e <;> exact ⟨rfl, rfl, rfl⟩
    have htune : ∀ y ∈ (if gv then [Action.tune_gv_stream i] else []),
        y = Action.tune_gv_stream i := by
      intro y hy
      cases gv
      · simp at hy
      · simpa using hy
    refine ⟨List.pairwise_append.2 ⟨List.pairwise_singleton _ _,
      List.pairwise_append.2 ⟨sortedBy_spawnSubstreams i _ 0, ?_, ?_⟩, ?_⟩, ?_⟩
    · split
      · exact List.pairwise_singleton _ _
      · exact List.Pairwise.nil
    · intro x hx y hy
      obtain ⟨a1, a2, a3⟩ := hsub x hx
      have e := htune y hy
      subst e
      dsimp only [keyLe, spawnKey] at a1 a2 a3 ⊢
      omega
    · intro x hx y hy
      simp only [List.mem_singleton] at hx
      subst hx
      rcases List.mem_append.1 hy with hy | hy
      · obtain ⟨a1, a2, a3⟩ := hsub y hy
        dsimp only [keyLe, spawnKey] at a1 a2 a3 ⊢
        omega
      · have e := htune y hy
        subst e
        dsimp only [keyLe, spawnKey]
        omega
    · intro y hy
      simp only [List.mem_append, List.mem_singleton] at hy
      rcases hy with hy | hy | hy
      · subst hy; exact ⟨rfl, rfl, Nat.le_refl 1⟩
      · obtain ⟨a1, a2, a3⟩ := hsub y hy
        exact ⟨a1, a2, by omega⟩
      · have e := htune y hy
        subst e
        exact ⟨rfl, rfl, by dsimp only [spawnKey]; omega⟩
  refine List.pairwise_append.2 ⟨sortedBy_of_const spawnKey _ _ hhead, htail.1, ?_⟩
  intro x hx y hy
  have a := hhead x hx
  obtain ⟨b1, b2, b3⟩ := htail.2 y hy
  rw [a]
  dsimp only [keyLe] at b1 b2 b3 ⊢
  omega

theorem sortedBy_openStream (gv : Bool) (i : Nat) (st : StreamSetup) :
    sortedBy spawnKey (openStream gv i st) ∧
      ∀ x ∈ openStream gv i st, (spawnKey x).phase = 0 ∧ (spawnKey x).stream = i := by
  unfold openStream
  have hc : ∀ x ∈ (if st.created then createdStream gv i st else []),
      (spawnKey x).phase = 0 ∧ (spawnKey x).stream = i := by
    intro x hx
    split at hx
    · exact key_createdStream gv i st x hx
    · simp at hx
  refine ⟨List.pairwise_append.2 ⟨sortedBy_of_const spawnKey _ _ (key_failedAttempts gv i _),
    ?_, ?_⟩, ?_⟩
  · split
    · exact sortedBy_createdStream gv i st
    · exact List.Pairwise.nil
  · intro x hx y hy
    have a := key_failedAttempts gv i _ x hx
    obtain ⟨b1, b2⟩ := hc y hy
    rw [a]
    dsimp only [keyLe] at b1 b2 ⊢
    omega
  · intro x hx
    rcases List.mem_append.1 hx with hx | hx
    · rw [key_failedAttempts gv i _ x hx]
      exact ⟨rfl, rfl⟩
    · exact hc x hx

theorem sortedBy_openStreams (gv : Bool) (l : List StreamSetup) (i : Nat) :
    sortedBy spawnKey (openStreams gv i l) ∧
      ∀ x ∈ openStreams gv i l, (spawnKey x).phase = 0 ∧ i ≤ (spawnKey x).stream := by
  induction l generalizing i with
  | nil => exact ⟨List.Pairwise.nil, by simp [openStreams]⟩
  | cons st rest ih =>
    obtain ⟨r1, r2⟩ := ih (i + 1)
    obtain ⟨s1, s2⟩ := sortedBy_openStream gv i st
    refine ⟨List.pairwise_append.2 ⟨s1, r1, ?_⟩, ?_⟩
    · intro x hx y hy
      obtain ⟨a1, a2⟩ := s2 x hx
      obtain ⟨b1, b2⟩ := r2 y hy
      dsimp only [keyLe] at a1 a2 b1 b2 ⊢
      omega
    · intro x hx
      rcases List.mem_append.1 hx with hx | hx
      · obtain ⟨a1, a2⟩ := s2 x hx
        exact ⟨a1, by omega⟩
      · obtain ⟨b1, b2⟩ := r2 x hx
        exact ⟨b1, by omega⟩

theorem mem_advertiseSubstreams (x : Action) (i : Nat) (l : List SubstreamSetup) (j : Nat) :
    x ∈ advertiseSubstreams i j l ↔ ∃ k, k < l.length ∧ x = Action.advertise_camera i (j + k) := by
  induction l generalizing j with
  | nil => simp [advertiseSubstreams]
  | cons sub rest ih =>
    simp only [advertiseSubstreams, List.mem_append, ih, List.mem_singleton, List.length_cons]
    constructor
    · rintro (h | ⟨k, h1, h2⟩)
      · exact ⟨0, by omega, h⟩
      · refine ⟨k + 1, by omega, ?_⟩
        have e : j + 1 + k = j + (k + 1) := by omega
        rw [e] at h2
        exact h2
    · rintro ⟨k, h1, h2⟩
      cases k with
      | zero => exact Or.inl h2
      | succ k1 =>
        right
        refine ⟨k1, by omega, ?_⟩
        have e : j + 1 + k1 = j + (k1 + 1) := by omega
        rw [e]
        exact h2

theorem sortedBy_advertiseSubstreams (i : Nat) (l : List SubstreamSetup) (j : Nat) :
    sortedBy spawnKey (advertiseSubstreams i j l) := by
  induction l generalizing j with
  | nil => exact List.Pairwise.nil
  | cons sub rest ih =>
    refine List.pairwise_append.2 ⟨List.pairwise_singleton _ _, ih (j + 1), ?_⟩
    intro x hx y hy
    obtain ⟨k, _, e⟩ := (mem_advertiseSubstreams y i rest (j + 1)).1 hy
    simp only [List.mem_singleton] at hx
    subst hx e
    dsimp only [keyLe, spawnKey]
    omega

theorem sortedBy_advertiseCameras (l : List StreamSetup) (i : Nat) :
    sortedBy spawnKey (advertiseCameras i l) ∧
      ∀ x ∈ advertiseCameras i l, (spawnKey x).phase = 1 ∧ i ≤ (spawnKey x).stream := by
  induction l generalizing i with
  | nil => exact ⟨List.Pairwise.nil, by simp [advertiseCameras]⟩
  | cons st rest ih =>
    obtain ⟨r1, r2⟩ := ih (i + 1)
    have s2 : ∀ x ∈ advertiseSubstreams i 0 st.substreams,
        (spawnKey x).phase = 1 ∧ (spawnKey x).stream = i := by
      intro x hx
      obtain ⟨k, _, e⟩ := (mem_advertiseSubstreams x i _ 0).1 hx
      subst e
      exact ⟨rfl, rfl⟩
    refine ⟨List.pairwise_append.2 ⟨sortedBy_advertiseSubstreams i _ 0, r1, ?_⟩, ?_⟩
    · intro x hx y hy
      obtain ⟨a1, a2⟩ := s2 x hx
      obtain ⟨b1, b2⟩ := r2 y hy
      dsimp only [keyLe] at a1 a2 b1 b2 ⊢
      omega
    · intro x hx
      rcases List.mem_append.1 hx with hx | hx
      · obtain ⟨a1, a2⟩ := s2 x hx
        exact ⟨a1, by omega⟩
      · obtain ⟨b1, b2⟩ := r2 x hx
        exact ⟨b1, by omega⟩

theorem mem_connectSignals (x : Action) (l : List StreamSetup) (i : Nat) :
    x ∈ connectSignals i l ↔ ∃ k, k < l.length ∧ x = Action.connect_new_buffer (i + k) := by
  induction l generalizing i with
  | nil => simp [connectSignals]
  | cons st rest ih =>
    simp only [connectSignals, List.mem_append, ih, List.mem_singleton, List.length_cons]
    constructor
    · rintro (h | ⟨k, h1, h2⟩)
      · exact ⟨0, by omega, h⟩
      · refine ⟨k + 1, by omega, ?_⟩
        have e : i + 1 + k = i + (k + 1) := by omega
        rw [e] at h2
        exact h2
    · rintro ⟨k, h1, h2⟩
      cases k with
      | zero => exact Or.inl h2
      | succ k1 =>
        right
        refine ⟨k1, by omega, ?_⟩
        have e : i + 1 + k1 = i + (k1 + 1) := by omega
        rw [e]
        exact h2

theorem sortedBy_connectSignals (l : List StreamSetup) (i : Nat) :
    sortedBy spawnKey (connectSignals i l) := by
  induction l generalizing i with
  | nil => exact List.Pairwise.nil
  | cons st rest ih =>
    refine List.pairwise_append.2 ⟨List.pairwise_singleton _ _, ih (i + 1), ?_⟩
    intro x hx y hy
    obtain ⟨k, _, e⟩ := (mem_connectSignals y rest (i + 1)).1 hy
    simp only [List.mem_singleton] at hx
    subst hx e
    dsimp only [keyLe, spawnKey]
    omega

theorem mem_enableSignals (x : Action) (l : List StreamSetup) (i : Nat) :
    x ∈ enableSignals i l ↔ ∃ k, k < l.length ∧ x = Action.set_emit_signals (i + k) true := by
  induction l generalizing i with
  | nil => simp [enableSignals]
  | cons st rest ih =>
    simp only [enableSignals, List.mem_append, ih, List.mem_singleton, List.length_cons]
    constructor
    · rintro (h | ⟨k, h1, h2⟩)
      · exact ⟨0, by omega, h⟩
      · refine ⟨k + 1, by omega, ?_⟩
        have e : i + 1 + k = i + (k + 1) := by omega
        rw [e] at h2
        exact h2
    · rintro ⟨k, h1, h2⟩
      cases k with
      | zero => exact Or.inl h2
      | succ k1 =>
        right
        refine ⟨k1, by omega, ?_⟩
        have e : i + 1 + k1 = i + (k1 + 1) := by omega
        rw [e]
        exact h2

theorem sortedBy_enableSignals (l : List StreamSetup) (i : Nat) :
    sortedBy spawnKey (enableSignals i l) := by
  induction l generalizing i with
  | nil => exact List.Pairwise.nil
  | cons st rest ih =>
    refine List.pairwise_append.2 ⟨List.pairwise_singleton _ _, ih (i + 1), ?_⟩
    intro x hx y hy
    obtain ⟨k, _, e⟩ := (mem_enableSignals y rest (i + 1)).1 hy
    simp only [List.mem_singleton] at hx
    subst hx e
    dsimp only [keyLe, spawnKey]
    omega

/-- The calls of `spawnStream` stand in the order of their places in its text. -/
theorem sortedBy_spawnStream (n : Nodelet) : sortedBy spawnKey (spawnStream n) := by
  unfold spawnStream
  have h6 : sortedBy spawnKey [Action.advertise_services, Action.log_done] ∧
      ∀ y ∈ [Action.advertise_services, Action.log_done], 5 < (spawnKey y).phase := by
    refine ⟨by simp [sortedBy, keyLe, spawnKey], ?_⟩
    intro y hy
    simp only [List.mem_cons, List.mem_singleton, List.not_mem_nil, or_false] at hy
    rcases hy with hy | hy <;> subst hy <;> simp [spawnKey]
  have h5 := sortedBy_append_phase spawnKey
    (if anySubscriber n.streams_ then [Action.start_acquisition] else []) _ 5
    (by split
        · exact List.pairwise_singleton _ _
        · exact List.Pairwise.nil)
    (fun x hx => by
      by_cases hp : anySubscriber n.streams_ = true
      · simp only [hp, if_true, List.mem_singleton] at hx
        subst hx; rfl
      · simp [hp] at hx) h6
  have h4 := sortedBy_append_phase spawnKey (enableSignals 0 n.streams_) _ 4
    (sortedBy_enableSignals _ 0)
    (fun x hx => by
      obtain ⟨k, _, e⟩ := (mem_enableSignals x _ 0).1 hx
      subst e; rfl)
    ⟨h5.1, fun y hy => by have := h5.2 y hy; omega⟩
  have h3 := sortedBy_append_phase spawnKey [Action.connect_control_lost] _ 3
    (List.pairwise_singleton _ _)
    (fun x hx => by
      simp only [List.mem_singleton] at hx
      subst hx; rfl)
    ⟨h4.1, fun y hy => by have := h4.2 y hy; omega⟩
  have h2 := sortedBy_append_phase spawnKey (connectSignals 0 n.streams_) _ 2
    (sortedBy_connectSignals _ 0)
    (fun x hx => by
      obtain ⟨k, _, e⟩ := (mem_connectSignals x _ 0).1 hx
      subst e; rfl)
    ⟨h3.1, fun y hy => by have := h3.2 y hy; omega⟩
  have h1 := sortedBy_append_phase spawnKey (advertiseCameras 0 n.streams_) _ 1
    (sortedBy_advertiseCameras _ 0).1 (fun x hx => ((sortedBy_advertiseCameras _ 0).2 x hx).1)
    ⟨h2.1, fun y hy => by have := h2.2 y hy; omega⟩
  have h0 := sortedBy_append_phase spawnKey (openStreams n.is_gv_device 0 n.streams_) _ 0
    (sortedBy_openStreams _ _ 0).1 (fun x hx => ((sortedBy_openStreams _ _ 0).2 x hx).1)
    ⟨h1.1, fun y hy => by have := h1.2 y hy; omega⟩
  exact h0.1

theorem mem_openStreams_of_created (gv : Bool) (l : List StreamSetup) (i k : Nat)
    (st : StreamSetup) (x : Action) (hk : l[k]? = some st) (hc : st.created = true)
    (hx : x ∈ createdStream gv (i + k) st) : x ∈ openStreams gv i l := by
  induction l generalizing i k with
  | nil => simp at hk
  | cons st0 rest ih =>
    simp only [openStreams, List.mem_append]
    cases k with
    | zero =>
      simp only [List.getElem?_cons_zero, Option.some.injEq] at hk
      subst hk
      left
      simp only [openStream, hc, if_true, List.mem_append]
      exact Or.inr hx
    | succ k1 =>
      right
      refine ih (i + 1) k1 (by simpa using hk) ?_
      have e : i + 1 + k1 = i + (k1 + 1) := by omega
      rw [e]
      exact hx

theorem anySubscriber_iff (l : List StreamSetup) :
    anySubscriber l = true ↔
      ∃ st ∈ l, ∃ sub ∈ st.substreams, 0 < sub.num_subscribers := by
  simp [anySubscriber]

/-! ## C20: the order of the start-up -/

theorem start_acquisition_mem_spawnStream (n : Nodelet) :
    Action.start_acquisition ∈ spawnStream n ↔ anySubscriber n.streams_ = true := by
  unfold spawnStream
  simp only [List.mem_append]
  constructor
  · rintro (h | h | h | h | h | h | h)
    · have := ((sortedBy_openStreams _ _ 0).2 _ h).1
      simp [spawnKey] at this
    · have := ((sortedBy_advertiseCameras _ 0).2 _ h).1
      simp [spawnKey] at this
    · obtain ⟨_, _, e⟩ := (mem_connectSignals _ _ 0).1 h
      cases e
    · simp at h
    · obtain ⟨_, _, e⟩ := (mem_enableSignals _ _ 0).1 h
      cases e
    · by_cases hp : anySubscriber n.streams_ = true
      · exact hp
      · simp [hp] at h
    · simp at h
  · intro hp
    right; right; right; right; right; left
    simp [hp]

/-- C20, as stated, fails: with two substreams `spawnStream` spawns the thread of the first
substream (call 4) before it creates the private pool of the second one (call 5). -/
theorem spawnStream_spawns_thread_before_later_pool :
    (spawnStream exampleNodelet)[4]? = some (Action.spawn_buffer_thread 0 0) ∧
    (spawnStream exampleNodelet)[5]? = some (Action.create_substream_pool 0 1) :=
  ⟨rfl, rfl⟩

/-- C20, amended. In the sequence of calls of `spawnStream`, for every stream the call
that opens the stream stands before the creation of the pool of the stream, which stands
before the creation of the private pool of each of its substreams; the private pool of a
substream is created before the thread of that substream is spawned, and the thread of a
substream is spawned before the private pool of every later substream of the stream is
created. Every thread is spawned before the new-buffer signal of any stream is connected,
every such connection stands before every call that enables the emission of signals, and
these stand before the start of the acquisition, which is called if and only if some
substream of some stream has a subscriber. For a stream that was opened all these calls are
made, and the connection and the enabling are made for every stream. -/
theorem spawnStream_opens_pools_threads_then_signals (n : Nodelet) :
    (∀ a b i : Nat, (spawnStream n)[a]? = some (Action.create_stream i true) →
      (spawnStream n)[b]? = some (Action.create_stream_pool i) → a < b) ∧
    (∀ a b i j : Nat, (spawnStream n)[a]? = some (Action.create_stream_pool i) →
      (spawnStream n)[b]? = some (Action.create_substream_pool i j) → a < b) ∧
    (∀ a b i j : Nat, (spawnStream n)[a]? = some (Action.create_substream_pool i j) →
      (spawnStream n)[b]? = some (Action.spawn_buffer_thread i j) → a < b) ∧
    (∀ a b i j m : Nat, (spawnStream n)[a]? = some (Action.spawn_buffer_thread i j) →
      (spawnStream n)[b]? = some (Action.create_substream_pool i m) → j < m → a < b) ∧
    (∀ a b i j k : Nat, (spawnStream n)[a]? = some (Action.spawn_buffer_thread i j) →
      (spawnStream n)[b]? = some (Action.connect_new_buffer k) → a < b) ∧
    (∀ a b i k : Nat, (spawnStream n)[a]? = some (Action.connect_new_buffer i) →
      (spawnStream n)[b]? = some (Action.set_emit_signals k true) → a < b) ∧
    (∀ a b i : Nat, (spawnStream n)[a]? = some (Action.set_emit_signals i true) →
      (spawnStream n)[b]? = some Action.start_acquisition → a < b) ∧
    (Action.start_acquisition ∈ spawnStream n ↔
      ∃ st ∈ n.streams_, ∃ sub ∈ st.substreams, 0 < sub.num_subscribers) ∧
    (∀ (i : Nat) (st : StreamSetup), n.streams_[i]? = some st → st.created = true →
      Action.create_stream i true ∈ spawnStream n ∧
      Action.create_stream_pool i ∈ spawnStream n ∧
      ∀ j, j < st.substreams.length →
        Action.create_substream_pool i j ∈ spawnStream n ∧
        Action.spawn_buffer_thread i j ∈ spawnStream n) ∧
    (∀ i, i < n.streams_.length →
      Action.connect_new_buffer i ∈ spawnStream n ∧
      Action.set_emit_signals i true ∈ spawnStream n) := by
  have hs := sortedBy_spawnStream n
  refine ⟨?_, ?_, ?_, ?_, ?_, ?_, ?_, ?_, ?_, ?_⟩
  · intro a b i ha hb
    exact position_lt_of_key spawnKey _ hs a b _ _ ha hb
      (by dsimp only [keyLe, spawnKey]; omega)
  · intro a b i j ha hb
    exact position_lt_of_key spawnKey _ hs a b _ _ ha hb
      (by dsimp only [keyLe, spawnKey]; omega)
  · intro a b i j ha hb
    exact position_lt_of_key spawnKey _ hs a b _ _ ha hb
      (by dsimp only [keyLe, spawnKey]; omega)
  · intro a b i j m ha hb hlt
    exact position_lt_of_key spawnKey _ hs a b _ _ ha hb
      (by dsimp only [keyLe, spawnKey]; omega)
  · intro a b i j k ha hb
    exact position_lt_of_key spawnKey _ hs a b _ _ ha hb
      (by dsimp only [keyLe, spawnKey]; omega)
  · intro a b i k ha hb
    exact position_lt_of_key spawnKey _ hs a b _ _ ha hb
      (by dsimp only [keyLe, spawnKey]; omega)
  · intro a b i ha hb
    exact position_lt_of_key spawnKey _ hs a b _ _ ha hb
      (by dsimp only [keyLe, spawnKey]; omega)
  · rw [start_acquisition_mem_spawnStream, anySubscriber_iff]
  · intro i st h1 h2
    have hin : ∀ x, x ∈ createdStream n.is_gv_device i st → x ∈ spawnStream n := by
      intro x hx
      unfold spawnStream
      refine List.mem_append_left _
        (mem_openStreams_of_created _ _ 0 i st x h1 h2 (by rw [Nat.zero_add]; exact hx))
    refine ⟨hin _ ?_, hin _ ?_, ?_⟩
    · simp [createdStream]
    · simp [createdStream]
    · intro j hj
      have hm : ∀ x, (x = Action.create_substream_pool i j ∨ x = Action.spawn_buffer_thread i j) →
          x ∈ createdStream n.is_gv_device i st := by
        intro x hx
        unfold createdStream
        refine List.mem_append_right _ (List.mem_append_right _ (List.mem_append_left _
          ((mem_spawnSubstreams x i _ 0).2 ⟨j, hj, ?_⟩)))
        rw [Nat.zero_add]
        exact hx
      exact ⟨hin _ (hm _ (Or.inl rfl)), hin _ (hm _ (Or.inr rfl))⟩
  · intro i hi
    unfold spawnStream
    simp only [List.mem_append]
    refine ⟨Or.inr (Or.inr (Or.inl ((mem_connectSignals _ _ 0).2 ⟨i, hi, by rw [Nat.zero_add]⟩))),
      Or.inr (Or.inr (Or.inr (Or.inr (Or.inl
        ((mem_enableSignals _ _ 0).2 ⟨i, hi, by rw [Nat.zero_add]⟩)))))⟩

theorem spawnStream_opens_pools_threads_then_signals_witness :
    spawnStream exampleNodelet =
      [Action.create_stream 0 true, Action.get_payload 0, Action.create_stream_pool 0,
       Action.create_substream_pool 0 0, Action.spawn_buffer_thread 0 0,
       Action.create_substream_pool 0 1, Action.spawn_buffer_thread 0 1,
       Action.advertise_camera 0 0, Action.advertise_camera 0 1,
       Action.connect_new_buffer 0, Action.connect_control_lost,
       Action.set_emit_signals 0 true, Action.start_acquisition,
       Action.advertise_services, Action.log_done] ∧
    Action.start_acquisition ∈ spawnStream exampleNodelet ∧
    Action.spawn_buffer_thread 0 1 ∈ spawnStream exampleNodelet :=
  ⟨rfl,
   (spawnStream_opens_pools_threads_then_signals exampleNodelet).2.2.2.2.2.2.2.1.2
     ⟨{ substreams := [{}, { num_subscribers := 1 }] }, by simp [exampleNodelet],
      { num_subscribers := 1 }, by simp, by decide⟩,
   (((spawnStream_opens_pools_threads_then_signals exampleNodelet).2.2.2.2.2.2.2.2.1 0
     { substreams := [{}, { num_subscribers := 1 }] } rfl rfl).2.2 1 (by decide)).2⟩

/-! ## C21: the worker processes a subsequence of the deposits -/

theorem slotBuffers_of_getElem (w : World) (i : Nat) (s : Substream)
    (hs : w.stream.substreams[i]? = some s) : slotBuffers w i = s.p_buffer.toList := by
  unfold slotBuffers
  rw [hs]

/-- What one step of a run does to the mailbox of substream `i`: what the thread takes and
what is left in the slot was in the slot or is deposited by the step. -/
theorem step_mailbox (w w1 : World) (st : Step) (i : Nat) (s : Substream)
    (h : step w st = some w1) (hs : w.stream.substreams[i]? = some s) :
    (∃ s1, w1.stream.substreams[i]? = some s1) ∧
    (takenBy i w st ++ slotBuffers w1 i).Sublist (slotBuffers w i ++ depositedBy i w st) := by
  have same : ∀ s1 : Substream, w1.stream.substreams[i]? = some s1 →
      s1.p_buffer = s.p_buffer → takenBy i w st = [] → depositedBy i w st = [] →
      (∃ s1, w1.stream.substreams[i]? = some s1) ∧
      (takenBy i w st ++ slotBuffers w1 i).Sublist (slotBuffers w i ++ depositedBy i w st) := by
    intro s1 h1 h2 h3 h4
    refine ⟨⟨s1, h1⟩, ?_⟩
    rw [h3, h4, slotBuffers_of_getElem w1 i s1 h1, slotBuffers_of_getElem w i s hs, h2]
    simp
  cases st with
  | callback popped n =>
    simp only [step] at h
    split at h
    · rename_i hg
      simp only [Bool.and_eq_true, Option.isNone_iff_eq_none] at hg
      have e := newBufferReadyBegin_substreams popped n w w1 hg.1 h
      exact same s (by rw [e, hs]) rfl rfl rfl
    · simp at h
  | route =>
    simp only [step, routeStep] at h
    cases hp : w.producer with
    | none => simp [hp] at h
    | some r =>
      simp only [hp] at h
      split at h
      · rename_i hlt
        cases hd : deposit r.p_buffer r.msg_ptr r.i w with
        | none => simp [hd] at h
        | some w2 =>
          simp only [hd, Option.some.injEq] at h
          subst h
          by_cases hi : r.i = i
          · obtain ⟨w3, _, d0, d1, _⟩ := deposit_spec r.p_buffer r.msg_ptr r.i w s (by rw [hi, hs])
            have e : w3 = w2 := Option.some.inj (d0.symm.trans hd)
            subst e
            have h1 : w3.stream.substreams[i]? =
                some { s with p_buffer := some r.p_buffer, p_buffer_image := some r.msg_ptr } := by
              rw [d1, hi]
              exact getElem?_set_same _ _ _ _ hs
            refine ⟨⟨_, h1⟩, ?_⟩
            have e1 : slotBuffers { w3 with producer := some { r with i := r.i + 1 } } i =
                [r.p_buffer] := by
              unfold slotBuffers
              show (match w3.stream.substreams[i]? with
                | none => []
                | some s => s.p_buffer.toList) = _
              rw [h1]
              rfl
            have e2 : depositedBy i w Step.route = [r.p_buffer] := by
              simp only [depositedBy, hp]
              rw [if_pos ⟨hlt, hi⟩]
            have e3 : takenBy i w Step.route = [] := rfl
            rw [e1, e2, e3]
            simp
          · cases hr : w.stream.substreams[r.i]? with
            | none => simp [deposit, hr] at hd
            | some sr =>
              obtain ⟨w3, _, d0, d1, _⟩ := deposit_spec r.p_buffer r.msg_ptr r.i w sr hr
              have e : w3 = w2 := Option.some.inj (d0.symm.trans hd)
              subst e
              refine same s ?_ rfl rfl ?_
              · show w3.stream.substreams[i]? = _
                rw [d1, getElem?_set_other _ _ _ _ hi, hs]
              · simp only [depositedBy, hp]
                rw [if_neg (fun c => hi c.2)]
      · rename_i hlt
        simp only [Option.some.injEq] at h
        subst h
        refine same s ?_ rfl rfl ?_
        · show (releaseImage (some r.msg_ptr) w).stream.substreams[i]? = _
          rw [releaseImage_stream, hs]
        · simp only [depositedBy, hp]
          rw [if_neg (fun c => hlt c.1)]
  | wake j =>
    by_cases hi : j = i
    · subst hi
      simp only [step, hs] at h
      split at h
      · simp only [threadWake, hs, Option.some.injEq] at h
        subst h
        have h1 : (setSubstream j
            { s with p_buffer := none, p_buffer_image := none,
                     buffer_thread := ThreadState.processing s.p_buffer s.p_buffer_image }
            (releaseImage s.p_buffer_image (copyImage s.p_buffer_image w))).stream.substreams[j]? =
            some { s with p_buffer := none, p_buffer_image := none,
                          buffer_thread := ThreadState.processing s.p_buffer s.p_buffer_image } := by
          rw [setSubstream_substreams, releaseImage_stream, copyImage_stream]
          exact getElem?_set_same _ _ _ _ hs
        refine ⟨⟨_, h1⟩, ?_⟩
        rw [slotBuffers_of_getElem _ j _ h1]
        simp [takenBy, depositedBy]
      · simp at h
    · simp only [step] at h
      cases hj : w.stream.substreams[j]? with
      | none => simp [hj] at h
      | some sj =>
        simp only [hj] at h
        split at h
        · simp only [threadWake, hj, Option.some.injEq] at h
          subst h
          refine same s ?_ rfl ?_ rfl
          · rw [setSubstream_substreams, releaseImage_stream, copyImage_stream,
              getElem?_set_other _ _ _ _ hi, hs]
          · simp [takenBy, hi]
        · simp at h
  | timeout j ros_ok =>
    by_cases hi : j = i
    · subst hi
      simp only [step, hs] at h
      split at h
      · simp only [threadTimeout, hs, Option.some.injEq] at h
        subst h
        refine same { s with buffer_thread :=
            if (s.buffer_thread_stop || !ros_ok) = true then ThreadState.finished
            else ThreadState.waiting } ?_ rfl rfl rfl
        rw [setSubstream_substreams]
        exact getElem?_set_same _ _ _ _ hs
      · simp at h
    · simp only [step] at h
      cases hj : w.stream.substreams[j]? with
      | none => simp [hj] at h
      | some sj =>
        simp only [hj] at h
        split at h
        · simp only [threadTimeout, hj, Option.some.injEq] at h
          subst h
          refine same s ?_ rfl rfl rfl
          rw [setSubstream_substreams, getElem?_set_other _ _ _ _ hi, hs]
        · simp at h
  | done j =>
    by_cases hi : j = i
    · subst hi
      simp only [step, threadDone, hs] at h
      split at h
      · simp only [Option.some.injEq] at h
        subst h
        refine same { s with buffer_thread :=
            if s.buffer_thread_stop = true then ThreadState.finished
            else ThreadState.waiting } ?_ rfl rfl rfl
        rw [setSubstream_substreams, releaseImage_stream]
        exact getElem?_set_same _ _ _ _ hs
      · simp at h
    · simp only [step, threadDone] at h
      cases hj : w.stream.substreams[j]? with
      | none => simp [hj] at h
      | some sj =>
        simp only [hj] at h
        split at h
        · simp only [Option.some.injEq] at h
          subst h
          refine same s ?_ rfl rfl rfl
          rw [setSubstream_substreams, releaseImage_stream, getElem?_set_other _ _ _ _ hi, hs]
        · simp at h
  | subscribers j k =>
    by_cases hi : j = i
    · subst hi
      simp only [step, hs, Option.some.injEq] at h
      subst h
      refine same { s with num_subscribers := k } ?_ rfl rfl rfl
      rw [setSubstream_substreams]
      exact getElem?_set_same _ _ _ _ hs
    · simp only [step] at h
      cases hj : w.stream.substreams[j]? with
      | none => simp [hj] at h
      | some sj =>
        simp only [hj, Option.some.injEq] at h
        subst h
        refine same s ?_ rfl rfl rfl
        rw [setSubstream_substreams, getElem?_set_other _ _ _ _ hi, hs]
  | stop j =>
    by_cases hi : j = i
    · subst hi
      simp only [step, hs, Option.some.injEq] at h
      subst h
      refine same { s with buffer_thread_stop := true } ?_ rfl rfl rfl
      rw [setSubstream_substreams]
      exact getElem?_set_same _ _ _ _ hs
    · simp only [step] at h
      cases hj : w.stream.substreams[j]? with
      | none => simp [hj] at h
      | some sj =>
        simp only [hj, Option.some.injEq] at h
        subst h
        refine same s ?_ rfl rfl rfl
        rw [setSubstream_substreams, getElem?_set_other _ _ _ _ hi, hs]

theorem run_mailbox (steps : List Step) (w w1 : World) (i : Nat) (s : Substream)
    (h : run w steps = some w1) (hs : w.stream.substreams[i]? = some s) :
    (takenIn i w steps ++ slotBuffers w1 i).Sublist (slotBuffers w i ++ depositedIn i w steps) := by
  induction steps generalizing w s with
  | nil =>
    simp only [run, Option.some.injEq] at h
    subst h
    simp [takenIn, depositedIn]
  | cons st rest ih =>
    simp only [run] at h
    cases h1 : step w st with
    | none => simp [h1] at h
    | some w2 =>
      simp only [h1] at h
      obtain ⟨⟨s2, a1⟩, a2⟩ := step_mailbox w w2 st i s h1 hs
      have b := ih w2 s2 h a1
      simp only [takenIn, depositedIn, h1]
      have c1 : (takenBy i w st ++ (takenIn i w2 rest ++ slotBuffers w1 i)).Sublist
          (takenBy i w st ++ (slotBuffers w2 i ++ depositedIn i w2 rest)) :=
        List.Sublist.append_left b _
      have c2 : ((takenBy i w st ++ slotBuffers w2 i) ++ depositedIn i w2 rest).Sublist
          ((slotBuffers w i ++ depositedBy i w st) ++ depositedIn i w2 rest) :=
        List.Sublist.append_right a2 _
      simp only [List.append_assoc] at c2 ⊢
      exact c1.trans c2

/-- C21. In every run of producer and thread steps that starts with the mailbox of
substream `i` empty, the sequence of buffers the thread of substream `i` takes for
processing is a subsequence of the sequence of buffers deposited into that mailbox: the
buffers are taken in the order of their deposits and no deposit is taken twice. The same
holds with the buffer that is still in the slot at the end of the run appended to the
sequence of the buffers taken. -/
theorem worker_processes_subsequence_of_deposits (w : World) (steps : List Step) (w1 : World)
    (i : Nat) (s : Substream) (hs : w.stream.substreams[i]? = some s)
    (hempty : s.p_buffer = none) (hrun : run w steps = some w1) :
    (takenIn i w steps).Sublist (depositedIn i w steps) ∧
    (takenIn i w steps ++ slotBuffers w1 i).Sublist (depositedIn i w steps) := by
  have h := run_mailbox steps w w1 i s hrun hs
  rw [slotBuffers_of_getElem w i s hs, hempty] at h
  simp only [Option.toList, List.nil_append] at h
  exact ⟨(List.sublist_append_left _ _).trans h, h⟩

theorem worker_processes_subsequence_of_deposits_witness :
    run exampleWorld exampleRun = some exampleFinal ∧
    depositedIn 0 exampleWorld exampleRun =
      [exampleImage 1, exampleImage 2, exampleMultipart 1] ∧
    takenIn 0 exampleWorld exampleRun = [exampleImage 2, exampleMultipart 1] ∧
    (takenIn 0 exampleWorld exampleRun).Sublist (depositedIn 0 exampleWorld exampleRun) :=
  ⟨rfl, rfl, rfl,
    (worker_processes_subsequence_of_deposits exampleWorld exampleRun exampleFinal 0
      { num_subscribers := 1 } rfl rfl rfl).1⟩

/-! ## C22: a timeout leaves the mailbox alone -/

/-- C22, as stated, fails: when the wait times out with the stop flag false but `ros::ok()`
false, the thread does not go back to waiting, it leaves its loop. -/
theorem threadTimeout_exits_when_ros_not_ok :
    (threadTimeout 0 false exampleWorld).map
      (fun w => (w.stream.substreams[0]?).map
        (fun (s : Substream) => (s.buffer_thread_stop, s.buffer_thread))) =
      some (some (false, ThreadState.finished)) := rfl

/-- C22, amended. When the wait of the thread of substream `i` times out and the stop flag is
false, the thread goes back to waiting if `ros::ok()` holds and leaves its loop otherwise;
in both cases the step changes nothing but the state of the thread: the slot of the mailbox
(pointer and image reference), the trace and the reference counts are exactly as they were,
whatever the slot holds. In particular a pair deposited while the thread was processing is
still in the slot after the end of that iteration and a following timeout. -/
theorem threadTimeout_leaves_mailbox (i : Nat) (w : World) (s : Substream)
    (hs : w.stream.substreams[i]? = some s) (hstop : s.buffer_thread_stop = false) :
    (∀ ros_ok, threadTimeout i ros_ok w =
      some (setSubstream i
        { s with buffer_thread := if ros_ok then ThreadState.waiting else ThreadState.finished }
        w)) ∧
    (s.buffer_thread = ThreadState.waiting →
      step w (Step.timeout i true) =
        some (setSubstream i { s with buffer_thread := ThreadState.waiting } w)) ∧
    (∀ p_buffer p_buffer_image,
      s.buffer_thread = ThreadState.processing p_buffer p_buffer_image →
      ∃ w1, run w [Step.done i, Step.timeout i true] = some w1 ∧
        w1.stream.substreams[i]? = some { s with buffer_thread := ThreadState.waiting } ∧
        slotBuffers w1 i = slotBuffers w i) := by
  refine ⟨?_, ?_, ?_⟩
  · intro ros_ok
    have e : (s.buffer_thread_stop || !ros_ok) = !ros_ok := by rw [hstop]; rfl
    simp only [threadTimeout, hs]
    rw [e]
    cases ros_ok <;> rfl
  · intro hw
    have e : (s.buffer_thread_stop || !true) = false := by rw [hstop]; rfl
    simp only [step, hs, hw, if_true, threadTimeout]
    rw [e]
    rfl
  · intro pb img hp
    have h1 : step w (Step.done i) =
        some (setSubstream i { s with buffer_thread := ThreadState.waiting }
          (releaseImage img w)) := by
      simp only [step, threadDone, hs, hp]
      rw [if_neg (by rw [hstop]; decide)]
    have h2 : (setSubstream i { s with buffer_thread := ThreadState.waiting }
        (releaseImage img w)).stream.substreams[i]? =
        some { s with buffer_thread := ThreadState.waiting } := by
      rw [setSubstream_substreams, releaseImage_stream]
      exact getElem?_set_same _ _ _ _ hs
    refine ⟨setSubstream i { s with buffer_thread := ThreadState.waiting }
      (setSubstream i { s with buffer_thread := ThreadState.waiting }
        (releaseImage img w)), ?_, ?_, ?_⟩
    · have e : (s.buffer_thread_stop || !true) = false := by rw [hstop]; rfl
      have h4 : step (setSubstream i { s with buffer_thread := ThreadState.waiting }
          (releaseImage img w)) (Step.timeout i true) =
          some (setSubstream i { s with buffer_thread := ThreadState.waiting }
            (setSubstream i { s with buffer_thread := ThreadState.waiting }
              (releaseImage img w))) := by
        simp only [step, h2, if_true, threadTimeout]
        rw [e]
        rfl
      simp only [run, h1, h4]
    · rw [setSubstream_substreams]
      exact getElem?_set_same _ _ _ _ h2
    · have h3 : (setSubstream i { s with buffer_thread := ThreadState.waiting }
          (setSubstream i { s with buffer_thread := ThreadState.waiting }
            (releaseImage img w))).stream.substreams[i]? =
          some { s with buffer_thread := ThreadState.waiting } := by
        rw [setSubstream_substreams]
        exact getElem?_set_same _ _ _ _ h2
      rw [slotBuffers_of_getElem _ i _ h3, slotBuffers_of_getElem _ i _ hs]

theorem threadTimeout_leaves_mailbox_witness :
    (exampleBusy.stream.substreams[0]?).map
      (fun (s : Substream) => (s.buffer_thread_stop, s.buffer_thread, s.p_buffer)) =
      some (false, ThreadState.processing (some (exampleImage 1)) (some ⟨1⟩),
        some (exampleImage 2)) ∧
    ((run exampleBusy [Step.done 0, Step.timeout 0 true]).map
      (fun w => (w.stream.substreams[0]?).map
        (fun (s : Substream) => (s.buffer_thread, s.p_buffer, s.p_buffer_image)))) =
      some (some (ThreadState.waiting, some (exampleImage 2), some ⟨2⟩)) := by
  obtain ⟨w1, h0, h1, _⟩ :=
    (threadTimeout_leaves_mailbox 0 exampleBusy
      ((exampleBusy.stream.substreams[0]?).getD {}) (by rfl) (by rfl)).2.2
      (some (exampleImage 1)) (some ⟨1⟩) (by rfl)
  refine ⟨rfl, ?_⟩
  rw [h0, Option.map_some', h1]
  rfl

/-! ## C27, C28, C29: indices, empty hand-overs and the absent pool -/

/-- C27 fails on the code: a multipart buffer with three parts on a stream with two
substreams makes the loop of `delegateBuffer` index `substreams[2]`, which does not exist,
while the same loop over two parts stays inside the vector. -/
theorem delegateBuffer_indexes_past_substreams :
    exampleThreeParts.n_parts = 3 ∧ exampleWorld.stream.substreams.length = 2 ∧
    exampleWorld.stream.substreams[2]? = none ∧
    (delegateBufferN exampleThreeParts 2 exampleWorld).isSome = true ∧
    ((delegateBufferN exampleThreeParts 2 exampleWorld).bind
      (deposit exampleThreeParts ⟨6⟩ 2)).isSome = false ∧
    (delegateBuffer exampleThreeParts exampleWorld).isSome = false := by
  refine ⟨rfl, rfl, rfl, rfl, rfl, rfl⟩

/-- Where the loop stays inside the vector. For every multipart buffer with K parts
delivered on a stream with a pool and N substreams, K ≤ N: `delegateBuffer` returns, and the
substreams it deposits into are 0, ..., K - 1 in this order, every one of them below N. -/
theorem delegateBuffer_deposits_below_substream_count (b : ArvBuffer) (w : World)
    (hm : b.payload_type = ArvBufferPayloadType.multipart)
    (hpool : w.stream.p_buffer_pool.isSome = true)
    (hk : b.n_parts ≤ w.stream.substreams.length) :
    ∃ w1 ext, delegateBuffer b w = some w1 ∧
      w1.trace = w.trace ++ [Event.call_delegateBuffer b.handle, Event.wrap b.handle] ++ ext ∧
      deposits ext = List.range b.n_parts ∧
      (∀ i ∈ deposits ext, i < w.stream.substreams.length) ∧
      w1.stream.substreams.length = w.stream.substreams.length := by
  obtain ⟨w1, ext, e0, e1, _, _, _, e5, e6, _⟩ :=
    delegateBufferN_spec b b.n_parts (emit (Event.call_delegateBuffer b.handle) w) hk hpool
  refine ⟨w1, ext, ?_, ?_, e6, ?_, e1⟩
  · unfold delegateBuffer
    simp only [hm]
    exact e0
  · rw [e5, emit_trace]
    simp
  · intro i hi
    rw [e6, List.mem_range] at hi
    omega

theorem delegateBuffer_deposits_below_substream_count_witness :
    (exampleMultipart 7).payload_type = ArvBufferPayloadType.multipart ∧
    (exampleMultipart 7).n_parts ≤ exampleWorld.stream.substreams.length ∧
    delegateBuffer (exampleMultipart 7) exampleWorld = some exampleFanOut ∧
    deposits exampleFanOut.trace = [0, 1] := by
  obtain ⟨w1, ext, h0, h1, h2, _⟩ :=
    delegateBuffer_deposits_below_substream_count (exampleMultipart 7) exampleWorld rfl rfl
      (by decide)
  exact ⟨rfl, by decide, rfl, rfl⟩

/-- C28 fails on the code: when `wait_for` returns without a timeout although nothing was
deposited (a wake-up no deposit caused), the thread of the first substream of
`exampleWorld` takes the empty pair, its local `p_buffer` is null, and it goes on to the
dispatch, which logs the payload type -1 of the null pointer as unsupported. -/
theorem wake_without_deposit_takes_empty_pair :
    (exampleWorld.stream.substreams[0]?).map
      (fun (s : Substream) => (s.buffer_thread, s.p_buffer, s.p_buffer_image)) =
      some (ThreadState.waiting, none, none) ∧
    (run exampleWorld [Step.wake 0]).map
      (fun w => (w.stream.substreams[0]?).map (fun (s : Substream) => s.buffer_thread)) =
      some (some (ThreadState.processing none none)) ∧
    (threadSignalled {} (fun _ => none) {} {} {} 0 0 exampleWorld).map (fun w => w.trace) =
      some [Event.unlock 0, Event.error_unsupported (ArvBufferPayloadType.other (-1))] := by
  refine ⟨rfl, rfl, rfl⟩

theorem segments_ne_nil (c : Char) (s : CppString) : segments c s ≠ [] := by
  cases s with
  | nil => simp [segments]
  | cons x rest =>
    simp only [segments]
    split
    · simp
    · split <;> simp

theorem segments_length (c : Char) (s : CppString) :
    (segments c s).length = s.count c + 1 := by
  induction s with
  | nil => rfl
  | cons x rest ih =>
    simp only [segments]
    by_cases hx : x = c
    · subst hx
      simp [ih]
    · have hne : segments c rest ≠ [] := segments_ne_nil c rest
      rw [if_neg hx, List.count_cons_of_ne (fun e => hx e.symm)]
      cases hseg : segments c rest with
      | nil => exact absurd hseg hne
      | cons seg segs =>
        rw [hseg] at ih
        simpa using ih

theorem segments_eq_splitOn (c : Char) (s : CppString) : segments c s = s.splitOn c := by
  unfold List.splitOn
  induction s with
  | nil => rfl
  | cons x rest ih =>
    rw [List.splitOnP_cons]
    simp only [segments]
    by_cases hx : x = c
    · subst hx
      simp [ih]
    · have hb : (x == c) = false := by simpa using hx
      rw [if_neg hx, hb, ← ih]
      have hne : segments c rest ≠ [] := segments_ne_nil c rest
      cases hseg : segments c rest with
      | nil => exact absurd hseg hne
      | cons seg segs => simp

/-- One `getline` extracts the first segment; the stream stays good exactly when a
separator ended the segment, and the other segments are those of what is left unread. -/
theorem getline_segments (c : Char) (s : CppString) :
    segments c s = (getline c s).1 ::
      (if (getline c s).2.2 = true then segments c (getline c s).2.1 else []) ∧
    ((getline c s).2.2 = true → (getline c s).2.1.length < s.length) := by
  induction s with
  | nil => simp [segments, getline]
  | cons x rest ih =>
    by_cases hx : x = c
    · simp [segments, getline, hx]
    · obtain ⟨i1, i2⟩ := ih
      simp only [segments, getline, if_neg hx]
      constructor
      · rw [i1]
      · intro hg
        have := i2 hg
        simp only [List.length_cons]
        omega

theorem readArgs_eq (c : Char) (fuel : Nat) (ss : CppString) (out_args : List CppString)
    (h : ss.length < fuel) :
    readArgs c fuel true ss out_args =
      some (out_args ++ (segments c ss).map (fun t => trim_right (trim_left t))) := by
  induction fuel generalizing ss out_args with
  | zero => omega
  | succ k ih =>
    obtain ⟨g1, g2⟩ := getline_segments c ss
    simp only [readArgs]
    by_cases hg : (getline c ss).2.2 = true
    · rw [hg, ih _ _ (by have := g2 hg; omega), g1]
      simp [hg]
    · have hf : (getline c ss).2.2 = false := by simpa using hg
      rw [hf, g1]
      simp [readArgs, hf]

theorem parseStringArgs_of_length (s : CppString) (out_args : List CppString) (c : Char)
    (hlen : s.length ≠ npos) :
    parseStringArgs s out_args c =
      some (out_args ++ (segments c s).map (fun t => trim_right (trim_left t))) := by
  unfold parseStringArgs
  have h0 : ¬ (0 = npos ∨ s.length = npos) := by
    intro h
    rcases h with h | h
    · simp [npos] at h
    · exact hlen h
  simp only [if_neg h0, List.drop_zero, Nat.sub_zero, List.take_length]
  exact readArgs_eq c _ s out_args (by omega)

theorem parseStringArgs_some (s : CppString) (out_args : List CppString) (c : Char) :
    ∃ tokens, parseStringArgs s out_args c = some (out_args ++ tokens) ∧ tokens ≠ [] := by
  by_cases hlen : s.length = npos
  · refine ⟨[s], ?_, by simp⟩
    unfold parseStringArgs
    simp [hlen]
  · refine ⟨_, parseStringArgs_of_length s out_args c hlen, ?_⟩
    intro h
    exact segments_ne_nil c s (List.map_eq_nil_iff.1 h)

theorem parseRows_some (streams : List CppString) (out_args : List (List CppString)) :
    ∃ rows, parseRows streams out_args = some (out_args ++ rows) ∧
      rows.length = streams.length ∧ ∀ row ∈ rows, row ≠ [] := by
  induction streams generalizing out_args with
  | nil => exact ⟨[], by simp [parseRows], rfl, by simp⟩
  | cons st rest ih =>
    obtain ⟨tokens, h1, h2⟩ := parseStringArgs_some st [] comma
    obtain ⟨rows, r1, r2, r3⟩ := ih (out_args ++ [tokens])
    refine ⟨tokens :: rows, ?_, by simp [r2], ?_⟩
    · simp only [parseRows, h1, List.nil_append, r1]
      simp
    · intro row hrow
      simp only [List.mem_cons] at hrow
      rcases hrow with hrow | hrow
      · subst hrow; exact h2
      · exact r3 row hrow

theorem parseStringArgs2D_some (s : CppString) (out_args : List (List CppString)) :
    ∃ rows, parseStringArgs2D s out_args = some (out_args ++ rows) ∧ rows ≠ [] ∧
      ∀ row ∈ rows, row ≠ [] := by
  obtain ⟨streams, h1, h2⟩ := parseStringArgs_some s [] semicolon
  obtain ⟨rows, r1, r2, r3⟩ := parseRows_some ([] ++ streams) out_args
  refine ⟨rows, ?_, ?_, r3⟩
  · simp only [parseStringArgs2D, h1, r1]
  · intro h
    rw [h] at r2
    simp only [List.nil_append, List.length_nil] at r2
    exact h2 (List.length_eq_zero.1 r2.symm)

/-- C26. For every string `s` (shorter than `npos`, as every `std::string` is) and every
separator `c`, `parseStringArgs` returns, leaves the entries of `out_args` in place and
appends the segments of `s` that `c` delimits, in order, each with its leading and trailing
whitespace removed; their number is the number of occurrences of `c` in `s` plus one. The
empty string gives one empty token, and `parseStringArgs2D` always appends at least one
row, every row it appends having at least one element. -/
theorem parseStringArgs_appends_trimmed_segments (s : CppString) (out_args : List CppString)
    (c : Char) (hlen : s.length < npos) :
    parseStringArgs s out_args c =
      some (out_args ++ (segments c s).map (fun t => trim_right (trim_left t))) ∧
    (segments c s).length = s.count c + 1 ∧
    segments c s = s.splitOn c ∧
    parseStringArgs [] out_args c = some (out_args ++ [[]]) ∧
    (∀ out2, ∃ rows, parseStringArgs2D s out2 = some (out2 ++ rows) ∧ rows ≠ [] ∧
      ∀ row ∈ rows, row ≠ []) := by
  refine ⟨parseStringArgs_of_length s out_args c (by omega), segments_length c s,
    segments_eq_splitOn c s, ?_, fun out2 => parseStringArgs2D_some s out2⟩
  rw [parseStringArgs_of_length [] out_args c (by simp [npos])]
  rfl

theorem parseStringArgs_appends_trimmed_segments_witness :
    exampleChannelNames.length < npos ∧
    parseStringArgs exampleChannelNames ["x".toList] semicolon =
      some ["x".toList, "rgb, depth".toList, "ir".toList] ∧
    parseStringArgs2D exampleChannelNames [] =
      some [["rgb".toList, "depth".toList], ["ir".toList]] := by
  have h := (parseStringArgs_appends_trimmed_segments exampleChannelNames ["x".toList] semicolon
    (by decide)).1
  refine ⟨by decide, ?_, by rfl⟩
  rw [h]
  rfl

/-! ## C25: the number of streams -/

/-- C25, as stated, fails: for a detected count of -1 and two configured stream names the
comparison is made between `size_t` values and `discoverStreams` returns 2, not the smaller
of 2 and -1; for a detected count of 2^32 the `int` is 0, is replaced by 1, and the function
returns 1, not the smaller of 2 and 2^32. -/
theorem discoverStreams_of_negative_count :
    discoverStreams (-1) false 0 2 = 2 ∧ min (2 : Int) (-1) = -1 ∧
    discoverStreams 4294967296 false 0 2 = 1 ∧ min (2 : Int) 4294967296 = 2 := by
  refine ⟨by decide, by decide, by decide, by decide⟩

theorem discoverStreams_le (dev : Int) (is_gv : Bool) (gev : Int) (m : Nat) :
    discoverStreams dev is_gv gev m ≤ (m : Int) := by
  unfold discoverStreams toSizeT toInt32
  simp only
  split <;> split <;> split <;> omega

/-- C25, amended. For every detected stream-channel count `n` that is not negative and fits
an `int`, and every number `m` of configured stream names, `discoverStreams` returns the
smaller of `m` and `n'`, where `n'` is `n` with a detected count of 0 replaced by 1. For
every detected count whatsoever the result does not exceed `m`, so that the indices
`0, ..., result - 1` that `onInit` uses are below `m`. -/
theorem discoverStreams_is_min_of_names_and_count (dev : Int) (is_gv : Bool) (gev : Int)
    (m : Nat) (hdev : 0 ≤ dev ∧ dev < 2147483648) (hgev : 0 ≤ gev ∧ gev < 2147483648) :
    discoverStreams dev is_gv gev m =
      min (m : Int) (if detectedCount dev is_gv gev = 0 then 1 else detectedCount dev is_gv gev) ∧
    (∀ dev2 gev2 : Int, discoverStreams dev2 is_gv gev2 m ≤ (m : Int)) := by
  refine ⟨?_, fun dev2 gev2 => discoverStreams_le dev2 is_gv gev2 m⟩
  unfold discoverStreams detectedCount toSizeT toInt32
  simp only
  obtain ⟨d0, d1⟩ := hdev
  obtain ⟨g0, g1⟩ := hgev
  have e1 : (dev + 2147483648) % 4294967296 - 2147483648 = dev := by omega
  have e2 : (gev + 2147483648) % 4294967296 - 2147483648 = gev := by omega
  rw [e1, e2]
  split <;> split <;> split <;> omega

theorem discoverStreams_is_min_of_names_and_count_witness :
    discoverStreams 0 true 4 3 = 3 ∧ discoverStreams 0 false 4 3 = 1 ∧
    discoverStreams 2 true 4 3 = 2 := by
  have h1 := (discoverStreams_is_min_of_names_and_count 0 true 4 3 (by decide) (by decide)).1
  have h2 := (discoverStreams_is_min_of_names_and_count 0 false 4 3 (by decide) (by decide)).1
  have h3 := (discoverStreams_is_min_of_names_and_count 2 true 4 3 (by decide) (by decide)).1
  refine ⟨?_, ?_, ?_⟩
  · rw [h1]; decide
  · rw [h2]; decide
  · rw [h3]; decide

/-! ## C23, C24: the set-up of the streams in `onInit` -/

theorem substreamNames_some (channel_names : Option CppString) :
    ∃ names, substreamNames channel_names = some names ∧ names ≠ [] ∧
      ∀ row ∈ names, row ≠ [] := by
  cases channel_names with
  | none => exact ⟨[[[]]], rfl, by simp, by simp⟩
  | some s =>
    obtain ⟨rows, h1, h2, h3⟩ := parseStringArgs2D_some s []
    exact ⟨rows, by simpa [substreamNames] using h1, h2, h3⟩

theorem initSubstreams_length (frame_ids : List (List CppString)) (i : Nat)
    (names : List CppString) (j : Nat) (subs : List SubstreamInit)
    (h : initSubstreams frame_ids i j names = some subs) : subs.length = names.length := by
  induction names generalizing j subs with
  | nil =>
    simp only [initSubstreams, Option.some.injEq] at h
    subst h
    rfl
  | cons name rest ih =>
    simp only [initSubstreams] at h
    cases h1 : frame_ids[i]? with
    | none => simp [h1] at h
    | some row =>
      simp only [h1] at h
      cases h2 : row[j]? with
      | none => simp [h2] at h
      | some fid =>
        simp only [h2] at h
        cases h3 : initSubstreams frame_ids i (j + 1) rest with
        | none => simp [h3] at h
        | some subs1 =>
          simp only [h3, Option.some.injEq] at h
          subst h
          simp [ih (j + 1) subs1 h3]

theorem initStreams_mem (substream_names frame_ids : List (List CppString)) (i k : Nat)
    (streams : List (List SubstreamInit))
    (h : initStreams substream_names frame_ids i k = some streams) :
    streams.length = k ∧
    ∀ st ∈ streams, ∃ names ∈ substream_names, st.length = names.length := by
  induction k generalizing i streams with
  | zero =>
    simp only [initStreams, Option.some.injEq] at h
    subst h
    exact ⟨rfl, by simp⟩
  | succ k1 ih =>
    simp only [initStreams] at h
    cases h1 : substream_names[i]? with
    | none => simp [h1] at h
    | some names =>
      simp only [h1] at h
      cases h2 : initSubstreams frame_ids i 0 names with
      | none => simp [h2] at h
      | some subs =>
        simp only [h2] at h
        cases h3 : initStreams substream_names frame_ids (i + 1) k1 with
        | none => simp [h3] at h
        | some rest =>
          simp only [h3, Option.some.injEq] at h
          subst h
          obtain ⟨r1, r2⟩ := ih (i + 1) rest h3
          refine ⟨by simp [r1], ?_⟩
          intro st hst
          simp only [List.mem_cons] at hst
          rcases hst with hst | hst
          · subst hst
            exact ⟨names, List.mem_iff_getElem?.2 ⟨i, h1⟩, initSubstreams_length _ _ _ _ _ h2⟩
          · exact r2 st hst

theorem initSubstreams_same (ids : List (List CppString)) (i : Nat) (row : List CppString)
    (hrow : ids[i]? = some row) (rest : List CppString) (j : Nat) (hd : row.drop j = rest) :
    initSubstreams ids i j rest =
      some (rest.map (fun name => { name := name, frame_id := name })) := by
  induction rest generalizing j with
  | nil => rfl
  | cons name rest1 ih =>
    have hj : row[j]? = some name := by
      rw [← List.head?_drop, hd]
      rfl
    have hd1 : row.drop (j + 1) = rest1 := by
      rw [← List.drop_drop, hd]
      rfl
    simp only [initSubstreams, hrow, hj, ih (j + 1) hd1, List.map_cons]

theorem initStreams_same (names : List (List CppString)) (i k : Nat)
    (hk : i + k ≤ names.length) :
    ∃ streams, initStreams names names i k = some streams := by
  induction k generalizing i with
  | zero => exact ⟨[], rfl⟩
  | succ k1 ih =>
    obtain ⟨row, hrow⟩ := getElem?_of_lt names i (by omega)
    obtain ⟨rest, hrest⟩ := ih (i + 1) (by omega)
    refine ⟨row.map (fun name => { name := name, frame_id := name }) :: rest, ?_⟩
    simp only [initStreams, hrow, initSubstreams_same names i row hrow row 0 rfl, hrest]

/-- C23. Whatever the parameter `channel_names` is (absent, empty, or any string, also with
empty segments between `;` or `,`) and whatever the other inputs are, every stream that the
set-up of `onInit` puts into `streams_` has at least one substream, so that `substreams[0]`
exists. When the parameter `frame_id` is absent the set-up is defined for every input, and
the number of streams is the result of `discoverStreams`. -/
theorem onInit_streams_have_a_substream (channel_names frame_id : Option CppString)
    (node_name tf_prefix : CppString) (resolve : CppString → CppString → CppString)
    (dev : Int) (is_gv : Bool) (gev : Int) :
    (∀ streams, onInit channel_names frame_id node_name tf_prefix resolve dev is_gv gev =
        some streams → ∀ st ∈ streams, st ≠ [] ∧ st[0]?.isSome = true) ∧
    (∃ names streams, substreamNames channel_names = some names ∧
      onInit channel_names none node_name tf_prefix resolve dev is_gv gev = some streams ∧
      streams.length = (discoverStreams dev is_gv gev names.length).toNat) := by
  obtain ⟨names, n1, n2, n3⟩ := substreamNames_some channel_names
  constructor
  · intro streams h st hst
    simp only [onInit, n1] at h
    cases hf : getFrameIds frame_id names [] node_name tf_prefix resolve with
    | none => simp [hf] at h
    | some frame_ids =>
      simp only [hf] at h
      obtain ⟨_, hm⟩ := initStreams_mem _ _ _ _ _ h
      obtain ⟨row, hrow, hlen⟩ := hm st hst
      have hne : st ≠ [] := by
        intro e
        rw [e] at hlen
        exact n3 row hrow (List.length_eq_zero.1 hlen.symm)
      refine ⟨hne, ?_⟩
      cases st with
      | nil => exact absurd rfl hne
      | cons a rest => simp
  · have hf : getFrameIds none names [] node_name tf_prefix resolve = some names := rfl
    have hle := discoverStreams_le dev is_gv gev names.length
    obtain ⟨streams, hs⟩ := initStreams_same names 0
      (discoverStreams dev is_gv gev names.length).toNat (by omega)
    refine ⟨names, streams, n1, ?_, ?_⟩
    · simp only [onInit, n1, hf]
      exact hs
    · exact (initStreams_mem _ _ _ _ _ hs).1

theorem onInit_streams_have_a_substream_witness :
    onInit (some [semicolon]) none "cam".toList [] (fun _ x => x) 2 false 0 =
      some [[{ name := [], frame_id := [] }], [{ name := [], frame_id := [] }]] ∧
    (∀ st ∈ [[({ name := [], frame_id := [] } : SubstreamInit)], [{ name := [], frame_id := [] }]],
      st ≠ [] ∧ st[0]?.isSome = true) := by
  have h0 : onInit (some [semicolon]) none "cam".toList [] (fun _ x => x) 2 false 0 =
      some [[{ name := [], frame_id := [] }], [{ name := [], frame_id := [] }]] := by rfl
  exact ⟨h0, (onInit_streams_have_a_substream (some [semicolon]) none "cam".toList []
    (fun _ x => x) 2 false 0).1 _ h0⟩

/-- C24 fails on the code: with no parameter `frame_id`, the channel name `a` and the node
name `cam`, `onInit` gives the substream the frame id `a`, not `cam/a`. `getFrameIds` is
called while `streams_` is still empty, so its loops over `streams_` do nothing and it
returns the substream names themselves; called with `streams_` filled it returns `cam/a`. -/
theorem getFrameIds_default_lacks_node_name :
    onInit (some "a".toList) none "cam".toList [] (fun _ x => x) 1 false 0 =
      some [[{ name := "a".toList, frame_id := "a".toList }]] ∧
    getFrameIds none ["a".toList :: []] [] "cam".toList [] (fun _ x => x) =
      some ["a".toList :: []] ∧
    getFrameIds none ["a".toList :: []] [[{}]] "cam".toList [] (fun _ x => x) =
      some ["cam/a".toList :: []] ∧
    (∀ (names : List (List CppString)) (node_name tf_prefix : CppString)
      (resolve : CppString → CppString → CppString),
      getFrameIds none names [] node_name tf_prefix resolve = some names) := by
  refine ⟨by rfl, by rfl, by rfl, fun _ _ _ _ => rfl⟩

/-! ## C30: the discovery of the features -/

/-- What the expansion of a node does to `todo`: it pushes the successors of the node, and
null pointers only where a category lists a feature that is not a node. -/
theorem expandNode_fst (n : GcNode) (todo : List (Option Nat)) (m : List (CppString × Bool)) :
    ∃ pushed, (expandNode n todo m).1 = pushed ++ todo ∧
      pushed.length ≤ n.features.length + n.children.length + 2 ∧
      (∀ v, some v ∈ pushed ↔ v ∈ successors n) ∧
      (∀ x ∈ pushed, x ∈ n.features ∨ (∃ c ∈ n.children, x = some c) ∨
        (∃ t, x = some t ∧ n.first_child_target = some t)) := by
  unfold expandNode successors
  by_cases hp : startsWithP n.node_name = true
  · simp only [hp, if_true]
    by_cases hi : n.node_name = pInvalidator
    · simp only [hi, if_true]
      exact ⟨[], rfl, by simp, by simp, by simp⟩
    · simp only [hi, if_false]
      cases ht : n.first_child_target with
      | none => exact ⟨[], rfl, by simp, by simp, by simp⟩
      | some t =>
        refine ⟨[some t], rfl, by simp, ?_, ?_⟩
        · intro v
          simp [eq_comm]
        · intro x hx
          simp only [List.mem_singleton] at hx
          exact Or.inr (Or.inr ⟨t, hx, rfl⟩)
  · simp only [hp, Bool.false_eq_true, if_false]
    by_cases hc : n.is_category = true
    · simp only [hc, if_true]
      refine ⟨n.features.reverse, rfl, by rw [List.length_reverse]; omega, ?_, ?_⟩
      · intro v
        simp [List.mem_filterMap]
      · intro x hx
        exact Or.inl (List.mem_reverse.1 hx)
    · simp only [hc, Bool.false_eq_true, if_false]
      refine ⟨(n.children.map some).reverse, rfl,
        by rw [List.length_reverse, List.length_map]; omega, ?_, ?_⟩
      · intro v
        simp
      · intro x hx
        simp only [List.mem_reverse, List.mem_map] at hx
        obtain ⟨c, hc1, hc2⟩ := hx
        exact Or.inr (Or.inl ⟨c, hc1, hc2.symm⟩)

theorem unvisited_mono (gc : Genicam) (done : List Nat) (node : Nat) (l : List Nat) :
    unvisited gc (done ++ [node]) l ≤ unvisited gc done l := by
  induction l with
  | nil => exact Nat.le_refl _
  | cons v rest ih =>
    simp only [unvisited, List.mem_append, List.mem_singleton]
    by_cases h1 : v ∈ done
    · simp only [h1, true_or, if_true]
      omega
    · by_cases h2 : v = node
      · simp only [h2, or_true, if_true]
        omega
      · simp only [h1, h2, or_self, if_false]
        omega

theorem unvisited_drop (gc : Genicam) (done : List Nat) (node : Nat) (l : List Nat)
    (hl : node ∈ l) (hd : node ∉ done) :
    unvisited gc (done ++ [node]) l + weightAt gc node ≤ unvisited gc done l := by
  induction l with
  | nil => simp at hl
  | cons v rest ih =>
    simp only [unvisited, List.mem_append, List.mem_singleton]
    by_cases h2 : v = node
    · subst h2
      have := unvisited_mono gc done v rest
      simp only [hd, or_true, if_true, if_false]
      omega
    · have hr : node ∈ rest := by
        rcases List.mem_cons.1 hl with h | h
        · exact absurd h.symm h2
        · exact h
      have := ih hr
      by_cases h1 : v ∈ done
      · simp only [h1, true_or, if_true]
        omega
      · simp only [h1, h2, or_self, if_false]
        omega

/-- The loop ends within its bound: with as many iterations allowed as the length of
`todo` plus the weights of the nodes not yet in `done`, the bound is not reached. -/
theorem discoverLoop_fuel (gc : Genicam) (fuel : Nat) (todo : List (Option Nat))
    (done : List Nat) (m : List (CppString × Bool))
    (h : todo.length + unvisited gc done (List.range gc.nodes.length) ≤ fuel) :
    discoverLoop gc fuel todo done m ≠ Discovery.out_of_fuel := by
  induction fuel generalizing todo done m with
  | zero =>
    cases todo with
    | nil => simp [discoverLoop]
    | cons x rest => simp at h
  | succ k ih =>
    cases todo with
    | nil => simp [discoverLoop]
    | cons x rest =>
      cases x with
      | none => simp [discoverLoop]
      | some node =>
        simp only [discoverLoop]
        simp only [List.length_cons] at h
        by_cases hd : node ∈ done
        · rw [if_pos hd]
          exact ih rest done m (by omega)
        · rw [if_neg hd]
          cases hn : gc.nodes[node]? with
          | none => simp
          | some n =>
            simp only
            obtain ⟨pushed, e1, e2, _, _⟩ := expandNode_fst n rest m
            apply ih
            rw [e1, List.length_append]
            have hlt : node < gc.nodes.length := by
              by_contra hc
              rw [List.getElem?_eq_none (by omega)] at hn
              simp at hn
            have hw : weightAt gc node = n.features.length + n.children.length + 2 := by
              simp [weightAt, hn]
            have := unvisited_drop gc done node (List.range gc.nodes.length)
              (List.mem_range.2 hlt) hd
            omega

theorem expandNode_snd (n : GcNode) (todo : List (Option Nat)) (m : List (CppString × Bool)) :
    (expandNode n todo m).2 =
      if recordsFeature n = true then emplace m n.feature_name (usable n) else m := by
  unfold expandNode recordsFeature usable
  by_cases hp : startsWithP n.node_name = true
  · simp only [hp, if_true, Bool.not_true, Bool.false_and, Bool.false_eq_true, if_false]
    by_cases hi : n.node_name = pInvalidator
    · simp only [hi, if_true]
    · simp only [hi, if_false]
      cases n.first_child_target <;> rfl
  · have hp2 : startsWithP n.node_name = false := by simpa using hp
    simp only [hp2, Bool.false_eq_true, if_false, Bool.not_false, Bool.true_and]
    by_cases hc : n.is_category = true
    · simp only [hc, if_true]
    · simp only [hc, Bool.false_eq_true, if_false]

theorem mem_emplace (m : List (CppString × Bool)) (k : CppString) (v : Bool)
    (e : CppString × Bool) :
    e ∈ emplace m k v ↔ e ∈ m ∨ ((∀ x ∈ m, x.1 ≠ k) ∧ e = (k, v)) := by
  unfold emplace
  by_cases h : m.any (fun e => decide (e.1 = k)) = true
  · rw [if_pos h]
    simp only [List.any_eq_true, decide_eq_true_eq] at h
    obtain ⟨x, hx, hk⟩ := h
    constructor
    · intro he; exact Or.inl he
    · rintro (he | ⟨hno, _⟩)
      · exact he
      · exact absurd hk (hno x hx)
  · rw [if_neg h]
    simp only [List.any_eq_true, decide_eq_true_eq, not_exists, not_and] at h
    simp only [List.mem_append, List.mem_singleton]
    constructor
    · rintro (he | he)
      · exact Or.inl he
      · exact Or.inr ⟨h, he⟩
    · rintro (he | ⟨_, he⟩)
      · exact Or.inl he
      · exact Or.inr he

theorem emplace_has_key (m : List (CppString × Bool)) (k : CppString) (v : Bool) :
    ∃ b, (k, b) ∈ emplace m k v := by
  by_cases h : ∀ x ∈ m, x.1 ≠ k
  · exact ⟨v, (mem_emplace m k v _).2 (Or.inr ⟨h, rfl⟩)⟩
  · simp only [not_forall, not_not, exists_prop] at h
    obtain ⟨x, hx, hk⟩ := h
    refine ⟨x.2, (mem_emplace m k v _).2 (Or.inl ?_)⟩
    rw [← hk]
    exact hx

theorem emplace_keys_nodup (m : List (CppString × Bool)) (k : CppString) (v : Bool)
    (h : (m.map Prod.fst).Nodup) : ((emplace m k v).map Prod.fst).Nodup := by
  unfold emplace
  by_cases hk : m.any (fun e => decide (e.1 = k)) = true
  · rw [if_pos hk]; exact h
  · rw [if_neg hk]
    simp only [List.any_eq_true, decide_eq_true_eq, not_exists, not_and] at hk
    rw [List.map_append, List.nodup_append]
    refine ⟨h, by simp, ?_⟩
    intro a ha hb
    simp only [List.map_cons, List.map_nil, List.mem_singleton] at hb
    obtain ⟨x, hx, hxa⟩ := List.mem_map.1 ha
    exact hk x hx (hxa.trans hb)

/-- A property of `todo`, `done` and the map that every iteration of the loop keeps holds
when the loop returns. -/
theorem discoverLoop_finished_inv (gc : Genicam)
    (P : List (Option Nat) → List Nat → List (CppString × Bool) → Prop)
    (hskip : ∀ node todo done m, P (some node :: todo) done m → node ∈ done → P todo done m)
    (hexp : ∀ node n todo done m, P (some node :: todo) done m → node ∉ done →
      gc.nodes[node]? = some n →
      P (expandNode n todo m).1 (done ++ [node]) (expandNode n todo m).2)
    (fuel : Nat) (todo : List (Option Nat)) (done : List Nat) (m : List (CppString × Bool))
    (h0 : P todo done m) (mf : List (CppString × Bool)) (df : List Nat)
    (hfin : discoverLoop gc fuel todo done m = Discovery.finished mf df) : P [] df mf := by
  induction fuel generalizing todo done m with
  | zero =>
    cases todo with
    | nil =>
      simp only [discoverLoop, Discovery.finished.injEq] at hfin
      rw [← hfin.1, ← hfin.2]
      exact h0
    | cons x rest => simp [discoverLoop] at hfin
  | succ k ih =>
    cases todo with
    | nil =>
      simp only [discoverLoop, Discovery.finished.injEq] at hfin
      rw [← hfin.1, ← hfin.2]
      exact h0
    | cons x rest =>
      cases x with
      | none => simp [discoverLoop] at hfin
      | some node =>
        simp only [discoverLoop] at hfin
        by_cases hd : node ∈ done
        · rw [if_pos hd] at hfin
          exact ih rest done m (hskip node rest done m h0 hd) hfin
        · rw [if_neg hd] at hfin
          cases hn : gc.nodes[node]? with
          | none => simp [hn] at hfin
          | some n =>
            simp only [hn] at hfin
            exact ih _ _ _ (hexp node n rest done m h0 hd hn) hfin

/-- With every pointer of the description pointing to a node, the loop dereferences no null
or dangling pointer. -/
theorem discoverLoop_no_crash (gc : Genicam) (hwf : wellFormed gc) (fuel : Nat)
    (todo : List (Option Nat)) (done : List Nat) (m : List (CppString × Bool))
    (ht : ∀ x ∈ todo, ∃ v, x = some v ∧ v < gc.nodes.length) :
    discoverLoop gc fuel todo done m ≠ Discovery.crashed := by
  induction fuel generalizing todo done m with
  | zero =>
    cases todo with
    | nil => simp [discoverLoop]
    | cons x rest => simp [discoverLoop]
  | succ k ih =>
    cases todo with
    | nil => simp [discoverLoop]
    | cons x rest =>
      obtain ⟨v, hx, hv⟩ := ht x (List.mem_cons_self x rest)
      subst hx
      have hrest : ∀ y ∈ rest, ∃ u, y = some u ∧ u < gc.nodes.length :=
        fun y hy => ht y (List.mem_cons_of_mem _ hy)
      simp only [discoverLoop]
      by_cases hd : v ∈ done
      · rw [if_pos hd]
        exact ih rest done m hrest
      · rw [if_neg hd]
        obtain ⟨n, hn⟩ := getElem?_of_lt gc.nodes v hv
        simp only [hn]
        apply ih
        obtain ⟨pushed, e1, _, _, e4⟩ := expandNode_fst n rest m
        rw [e1]
        intro y hy
        rcases List.mem_append.1 hy with hy | hy
        · obtain ⟨w1, w2, w3⟩ := hwf.2 n (List.mem_iff_getElem?.2 ⟨v, hn⟩)
          rcases e4 y hy with h | ⟨c, hc, h⟩ | ⟨t, h, htg⟩
          · exact w1 y h
          · exact ⟨c, h, w2 c hc⟩
          · exact ⟨t, h, w3 t htg⟩
        · exact hrest y hy

theorem discoverLoop_done_nodup (gc : Genicam) (fuel : Nat) (todo : List (Option Nat))
    (done : List Nat) (m mf : List (CppString × Bool)) (df : List Nat) (h0 : done.Nodup)
    (hfin : discoverLoop gc fuel todo done m = Discovery.finished mf df) : df.Nodup := by
  refine discoverLoop_finished_inv gc (fun _ d _ => d.Nodup) ?_ ?_ fuel todo done m h0 mf df hfin
  · intro node todo done m h _
    exact h
  · intro node n todo done m h hd _
    rw [List.nodup_append]
    refine ⟨h, List.nodup_singleton _, ?_⟩
    intro a ha hb
    simp only [List.mem_singleton] at hb
    exact hd (hb ▸ ha)

theorem discoverLoop_closed (gc : Genicam) (fuel : Nat) (todo : List (Option Nat))
    (done : List Nat) (m mf : List (CppString × Bool)) (df : List Nat)
    (h0 : (∀ r, gc.root = some r → r ∈ done ∨ some r ∈ todo) ∧
      ∀ v ∈ done, ∀ n, gc.nodes[v]? = some n → ∀ u ∈ successors n, u ∈ done ∨ some u ∈ todo)
    (hfin : discoverLoop gc fuel todo done m = Discovery.finished mf df) :
    (∀ r, gc.root = some r → r ∈ df) ∧
      ∀ v ∈ df, ∀ n, gc.nodes[v]? = some n → ∀ u ∈ successors n, u ∈ df := by
  have h := discoverLoop_finished_inv gc
    (fun t d _ => (∀ r, gc.root = some r → r ∈ d ∨ some r ∈ t) ∧
      ∀ v ∈ d, ∀ n, gc.nodes[v]? = some n → ∀ u ∈ successors n, u ∈ d ∨ some u ∈ t)
    ?_ ?_ fuel todo done m h0 mf df hfin
  · refine ⟨fun r hr => ?_, fun v hv n hn u hu => ?_⟩
    · rcases h.1 r hr with h1 | h1
      · exact h1
      · simp at h1
    · rcases h.2 v hv n hn u hu with h1 | h1
      · exact h1
      · simp at h1
  · intro node todo done m h hd
    have fix : ∀ u, u ∈ done ∨ some u ∈ some node :: todo → u ∈ done ∨ some u ∈ todo := by
      intro u hu
      rcases hu with hu | hu
      · exact Or.inl hu
      · simp only [List.mem_cons, Option.some.injEq] at hu
        rcases hu with hu | hu
        · exact Or.inl (hu ▸ hd)
        · exact Or.inr hu
    exact ⟨fun r hr => fix r (h.1 r hr), fun v hv n hn u hu => fix u (h.2 v hv n hn u hu)⟩
  · intro node n todo done m h hd hn
    obtain ⟨pushed, e1, _, e3, _⟩ := expandNode_fst n todo m
    have fix : ∀ u, u ∈ done ∨ some u ∈ some node :: todo →
        u ∈ done ++ [node] ∨ some u ∈ (expandNode n todo m).1 := by
      intro u hu
      rw [e1]
      rcases hu with hu | hu
      · exact Or.inl (List.mem_append_left _ hu)
      · simp only [List.mem_cons, Option.some.injEq] at hu
        rcases hu with hu | hu
        · exact Or.inl (by simp [hu])
        · exact Or.inr (List.mem_append_right _ hu)
    refine ⟨fun r hr => fix r (h.1 r hr), fun v hv n1 hn1 u hu => ?_⟩
    rcases List.mem_append.1 hv with hv | hv
    · exact fix u (h.2 v hv n1 hn1 u hu)
    · simp only [List.mem_singleton] at hv
      subst hv
      have e : n1 = n := Option.some.inj (hn1.symm.trans hn)
      subst e
      right
      rw [e1]
      exact List.mem_append_left _ ((e3 u).2 hu)

theorem discoverLoop_entries (gc : Genicam) (fuel : Nat) (todo : List (Option Nat))
    (done : List Nat) (m mf : List (CppString × Bool)) (df : List Nat)
    (h0 : (m.map Prod.fst).Nodup ∧
      (∀ v ∈ done, ∀ n, gc.nodes[v]? = some n → recordsFeature n = true →
        ∃ b, (n.feature_name, b) ∈ m) ∧
      (∀ e ∈ m, ∃ v ∈ done, ∃ n, gc.nodes[v]? = some n ∧ recordsFeature n = true ∧
        e = (n.feature_name, usable n)))
    (hfin : discoverLoop gc fuel todo done m = Discovery.finished mf df) :
    (mf.map Prod.fst).Nodup ∧
      (∀ v ∈ df, ∀ n, gc.nodes[v]? = some n → recordsFeature n = true →
        ∃ b, (n.feature_name, b) ∈ mf) ∧
      (∀ e ∈ mf, ∃ v ∈ df, ∃ n, gc.nodes[v]? = some n ∧ recordsFeature n = true ∧
        e = (n.feature_name, usable n)) := by
  refine discoverLoop_finished_inv gc
    (fun _ d f => (f.map Prod.fst).Nodup ∧
      (∀ v ∈ d, ∀ n, gc.nodes[v]? = some n → recordsFeature n = true →
        ∃ b, (n.feature_name, b) ∈ f) ∧
      (∀ e ∈ f, ∃ v ∈ d, ∃ n, gc.nodes[v]? = some n ∧ recordsFeature n = true ∧
        e = (n.feature_name, usable n)))
    ?_ ?_ fuel todo done m h0 mf df hfin
  · intro node todo done m h _
    exact h
  · intro node n todo done m h hd hn
    obtain ⟨h1, h2, h3⟩ := h
    rw [expandNode_snd]
    by_cases hr : recordsFeature n = true
    · rw [if_pos hr]
      refine ⟨emplace_keys_nodup m _ _ h1, ?_, ?_⟩
      · intro v hv n1 hn1 hr1
        rcases List.mem_append.1 hv with hv | hv
        · obtain ⟨b, hb⟩ := h2 v hv n1 hn1 hr1
          exact ⟨b, (mem_emplace m _ _ _).2 (Or.inl hb)⟩
        · simp only [List.mem_singleton] at hv
          subst hv
          have e : n1 = n := Option.some.inj (hn1.symm.trans hn)
          subst e
          exact emplace_has_key m _ _
      · intro e he
        rcases (mem_emplace m _ _ _).1 he with he | ⟨_, he⟩
        · obtain ⟨v, hv, n1, a1, a2, a3⟩ := h3 e he
          exact ⟨v, List.mem_append_left _ hv, n1, a1, a2, a3⟩
        · exact ⟨node, by simp, n, hn, hr, he⟩
    · rw [if_neg hr]
      refine ⟨h1, ?_, ?_⟩
      · intro v hv n1 hn1 hr1
        rcases List.mem_append.1 hv with hv | hv
        · exact h2 v hv n1 hn1 hr1
        · simp only [List.mem_singleton] at hv
          subst hv
          have e : n1 = n := Option.some.inj (hn1.symm.trans hn)
          subst e
          exact absurd hr1 hr
      · intro e he
        obtain ⟨v, hv, n1, a1, a2, a3⟩ := h3 e he
        exact ⟨v, List.mem_append_left _ hv, n1, a1, a2, a3⟩

theorem discoverLoop_done_reached (gc : Genicam) (r : Nat) (fuel : Nat)
    (todo : List (Option Nat)) (done : List Nat) (m mf : List (CppString × Bool))
    (df : List Nat)
    (h0 : (∀ v ∈ done, Reached gc r v) ∧ ∀ v, some v ∈ todo → Reached gc r v)
    (hfin : discoverLoop gc fuel todo done m = Discovery.finished mf df) :
    ∀ v ∈ df, Reached gc r v := by
  have h := discoverLoop_finished_inv gc
    (fun t d _ => (∀ v ∈ d, Reached gc r v) ∧ ∀ v, some v ∈ t → Reached gc r v)
    ?_ ?_ fuel todo done m h0 mf df hfin
  · exact h.1
  · intro node todo done m h _
    exact ⟨h.1, fun v hv => h.2 v (List.mem_cons_of_mem _ hv)⟩
  · intro node n todo done m h hd hn
    obtain ⟨pushed, e1, _, e3, _⟩ := expandNode_fst n todo m
    have hnode : Reached gc r node := h.2 node (List.mem_cons_self _ _)
    refine ⟨?_, ?_⟩
    · intro v hv
      rcases List.mem_append.1 hv with hv | hv
      · exact h.1 v hv
      · simp only [List.mem_singleton] at hv
        subst hv
        exact hnode
    · intro v hv
      rw [e1] at hv
      rcases List.mem_append.1 hv with hv | hv
      · exact Reached.step node v n hnode hn ((e3 v).1 hv)
      · exact h.2 v (List.mem_cons_of_mem _ hv)

theorem discoverLoop_reached_done (gc : Genicam) (r : Nat) (df : List Nat)
    (h : (∀ r, gc.root = some r → r ∈ df) ∧
      ∀ v ∈ df, ∀ n, gc.nodes[v]? = some n → ∀ u ∈ successors n, u ∈ df)
    (hr : gc.root = some r) (v : Nat) (hv : Reached gc r v) : v ∈ df := by
  induction hv with
  | refl => exact h.1 r hr
  | step a b n _ hn hb ih => exact h.2 a ih n hn b hb

theorem discoverFeatures_fuel (g : Genicam) :
    discoverFeatures true (some g) ≠ Discovery.out_of_fuel := by
  have h := discoverLoop_fuel g (budget g) [g.root] [] []
    (by simp only [budget, List.length_singleton]; omega)
  simpa [discoverFeatures] using h

theorem exampleGenicam_wellFormed : wellFormed exampleGenicam := by
  refine ⟨⟨0, rfl, by decide⟩, ?_⟩
  intro n hn
  simp only [exampleGenicam, List.mem_cons, List.mem_singleton, List.not_mem_nil,
    or_false] at hn
  rcases hn with rfl | rfl | rfl | rfl | rfl <;>
    simp [exampleGenicam]

/-- C30, as stated, fails: in `exampleGenicam` every reference names a node, node 3 (the entry
`Off` of `TriggerMode`) is a feature node reached from the root and is both available and
implemented, and `discoverFeatures` finishes with a map whose only entry for `Off` is false:
the entry was written for node 4, expanded before, and `emplace` keeps it. -/
theorem discoverFeatures_shared_name_keeps_first_entry :
    wellFormed exampleGenicam ∧
    Reached exampleGenicam 0 3 ∧
    (exampleGenicam.nodes[3]?.map
      (fun n => (n.is_feature_node, n.is_available, n.is_implemented, n.feature_name))) =
      some (true, true, true, "Off".toList) ∧
    discoverFeatures true (some exampleGenicam) =
      Discovery.finished
        [("Root".toList, true), ("ExposureAuto".toList, true), ("Off".toList, false),
          ("TriggerMode".toList, true)]
        [0, 2, 4, 1, 3] := by
  refine ⟨exampleGenicam_wellFormed, ?_, by rfl, by decide⟩
  have h1 : Reached exampleGenicam 0 1 :=
    Reached.step 0 1 _ Reached.refl (by rfl) (by decide)
  exact Reached.step 1 3 _ h1 (by rfl) (by decide)

theorem discoverFeatures_finished_root (g : Genicam) (m : List (CppString × Bool))
    (done : List Nat) (h : discoverFeatures true (some g) = Discovery.finished m done) :
    ∃ r, g.root = some r ∧ discoverLoop g (budget g) [some r] [] [] = Discovery.finished m done := by
  cases hr : g.root with
  | none =>
    simp [discoverFeatures, hr, budget, discoverLoop] at h
  | some r =>
    refine ⟨r, rfl, ?_⟩
    simpa [discoverFeatures, hr] using h

/-- The category branch pushes what `arv_gc_get_node` answers without a test: in
`exampleDangling` the root category lists a feature that names no node, the null pointer is
taken from the `todo` list and dereferenced. -/
theorem discoverFeatures_aborts_on_missing_category_entry :
    (exampleDangling.nodes[0]?).map (fun n => n.features) = some [some 1, none] ∧
    discoverFeatures true (some exampleDangling) = Discovery.crashed := by
  refine ⟨by rfl, by decide⟩

/-- C30, amended. On no description does `discoverFeatures` iterate beyond its bound, and
it returns on every description in which the root exists and every category entry names a
node. Whenever it returns: no node was expanded twice, the expanded nodes are exactly the
nodes reached from the root, the map `implemented_features_` has one entry per feature
name, each entry is the name of a reached feature node together with whether that node is
available and implemented, and every reached feature node has an entry under its name; the
value of that entry is true exactly when the node is both available and implemented,
provided the reached feature nodes of the same name agree on it. A feature node here is one
whose element name does not start with `p`. -/
theorem discoverFeatures_expands_once_and_records_by_name (g : Genicam) :
    discoverFeatures true (some g) ≠ Discovery.out_of_fuel ∧
    (wellFormed g → ∃ m done, discoverFeatures true (some g) = Discovery.finished m done) ∧
    ∀ m done, discoverFeatures true (some g) = Discovery.finished m done →
      ∃ r, g.root = some r ∧
        done.Nodup ∧
        (∀ v, v ∈ done ↔ Reached g r v) ∧
        (m.map Prod.fst).Nodup ∧
        (∀ e ∈ m, ∃ w k, Reached g r w ∧ g.nodes[w]? = some k ∧ recordsFeature k = true ∧
          e = (k.feature_name, k.is_available && k.is_implemented)) ∧
        ∀ v n, Reached g r v → g.nodes[v]? = some n → recordsFeature n = true →
          (∃ b, (n.feature_name, b) ∈ m) ∧
          ((∀ w k, Reached g r w → g.nodes[w]? = some k → recordsFeature k = true →
              k.feature_name = n.feature_name →
              (k.is_available && k.is_implemented) = (n.is_available && n.is_implemented)) →
            ∀ b, (n.feature_name, b) ∈ m →
              (b = true ↔ n.is_available = true ∧ n.is_implemented = true)) := by
  refine ⟨discoverFeatures_fuel g, fun hwf => ?_, fun m done hfin0 => ?_⟩
  · obtain ⟨⟨r, hr, hlt⟩, _⟩ := id hwf
    have e0 : discoverFeatures true (some g) = discoverLoop g (budget g) [some r] [] [] := by
      simp [discoverFeatures, hr]
    have hf := discoverFeatures_fuel g
    have hc := discoverLoop_no_crash g hwf (budget g) [some r] [] []
      (by
        intro x hx
        simp only [List.mem_singleton] at hx
        exact ⟨r, hx, hlt⟩)
    rw [e0] at hf
    rw [e0]
    cases hfin : discoverLoop g (budget g) [some r] [] [] with
    | crashed => exact absurd hfin hc
    | out_of_fuel => exact absurd hfin hf
    | finished m done => exact ⟨m, done, rfl⟩
  · obtain ⟨r, hr, hfin⟩ := discoverFeatures_finished_root g m done hfin0
    have hA := discoverLoop_done_nodup g (budget g) [some r] [] [] m done List.nodup_nil hfin
    have hB := discoverLoop_closed g (budget g) [some r] [] [] m done
      ⟨fun r1 h1 => Or.inr (by rw [hr] at h1; simp [Option.some.inj h1]),
        fun v hv => absurd hv (List.not_mem_nil v)⟩ hfin
    have hC := discoverLoop_entries g (budget g) [some r] [] [] m done
      ⟨List.nodup_nil, fun v hv => absurd hv (List.not_mem_nil v),
        fun e he => absurd he (List.not_mem_nil e)⟩ hfin
    have hD := discoverLoop_done_reached g r (budget g) [some r] [] [] m done
      ⟨fun v hv => absurd hv (List.not_mem_nil v),
        fun v hv => by
          simp only [List.mem_singleton, Option.some.injEq] at hv
          rw [hv]
          exact Reached.refl⟩ hfin
    have hE := discoverLoop_reached_done g r done hB hr
    refine ⟨r, hr, hA, fun v => ⟨hD v, hE v⟩, hC.1, ?_, ?_⟩
    · intro e he
      obtain ⟨w, hw, k, a1, a2, a3⟩ := hC.2.2 e he
      exact ⟨w, k, hD w hw, a1, a2, a3⟩
    · intro v n hv hn hrec
      refine ⟨hC.2.1 v (hE v hv) n hn hrec, ?_⟩
      intro hu b hb
      obtain ⟨w, hw, k, a1, a2, a3⟩ := hC.2.2 _ hb
      have a4 : n.feature_name = k.feature_name := congrArg Prod.fst a3
      have a5 : b = usable k := congrArg Prod.snd a3
      have a6 := hu w k (hD w hw) a1 a2 a4.symm
      rw [a5]
      unfold usable
      rw [a6]
      simp

theorem discoverFeatures_expands_once_and_records_by_name_witness :
    wellFormed exampleGenicam ∧
    discoverFeatures true (some exampleGenicam) =
      Discovery.finished
        [("Root".toList, true), ("ExposureAuto".toList, true), ("Off".toList, false),
          ("TriggerMode".toList, true)]
        [0, 2, 4, 1, 3] ∧
    (∃ m done, discoverFeatures true (some exampleGenicam) = Discovery.finished m done) ∧
    ∃ r, exampleGenicam.root = some r ∧
      [0, 2, 4, 1, 3].Nodup ∧
      (∀ v, v ∈ [0, 2, 4, 1, 3] ↔ Reached exampleGenicam r v) ∧
      (([("Root".toList, true), ("ExposureAuto".toList, true), ("Off".toList, false),
          ("TriggerMode".toList, true)] : List (CppString × Bool)).map Prod.fst).Nodup :=
  have h := discoverFeatures_expands_once_and_records_by_name exampleGenicam
  have hfin : discoverFeatures true (some exampleGenicam) =
      Discovery.finished
        [("Root".toList, true), ("ExposureAuto".toList, true), ("Off".toList, false),
          ("TriggerMode".toList, true)]
        [0, 2, 4, 1, 3] := by decide
  ⟨exampleGenicam_wellFormed, hfin, h.2.1 exampleGenicam_wellFormed,
    (h.2.2 _ _ hfin).imp (fun _ p => ⟨p.1, p.2.1, p.2.2.1, p.2.2.2.1⟩)⟩

end CameraAravis
